import Mathlib

set_option linter.unusedVariables false

/-!
# Pixiv2Billfish: the synchronisation engine of `processor.cpp`

A shallow embedding of the `Processor` class (tag cache, existence sets, the
three write buffers and their flushes) together with the parts of `PixivAPI`
and `Database` its tasks call.

Conventions of the embedding:

* `std::string` is a sequence of `char`s, modelled as `List Char`;
* `int64_t` and `int` values are `Int`; where the source does arithmetic on them
  the result is wrapped to the width of the type (`wrap64`, `wrap32`), and the
  conversion `static_cast<size_t>` is `toSizeT`;
* `std::unordered_map<std::string, int64_t>` is a list of entries with `find`
  and `set`; `std::unordered_set<int64_t>` is a `Finset Int`;
* the two collaborators reached over the network and the file system (the
  remote metadata source and the SQLite store) are not run: a call to them is
  recorded as an `Event`, and what they answer is an argument of the function
  that makes the call;
* every member function that takes `buffer_mutex_` is one atomic step; a
  concurrent run is a sequence of such steps (`Op`, `run`).
-/

namespace pixiv2billfish

/-! ## Strings -/

/-- A `std::string`: a sequence of `char`s. -/
abbrev Str := List Char

/-- The scan behind `std::string::find(needle, pos)`: `s` is the part of the
string from index `i` on. -/
def find_from (needle : Str) : Str → Nat → Option Nat
  | [], i => if needle = [] then some i else none
  | c :: cs, i => if needle.isPrefixOf (c :: cs) then some i else find_from needle cs (i + 1)

/-- The call `s.find(needle, pos)`: index of the first occurrence of `needle`
at or after `pos`, `none` for `npos`. -/
def str_find (s needle : Str) (pos : Nat) : Option Nat :=
  if pos ≤ s.length then find_from needle (s.drop pos) pos else none

/-- The call `s.find(c)` with a single character. -/
def str_find_char (s : Str) (c : Char) : Option Nat :=
  str_find s [c] 0

/-- The call `s.substr(pos)` for `pos ≤ s.size()`. -/
def substr_from (s : Str) (pos : Nat) : Str := s.drop pos

/-- The call `s.substr(pos, n)` for `pos ≤ s.size()`. -/
def substr (s : Str) (pos n : Nat) : Str := (s.drop pos).take n

/-- The C function `isdigit` on a `char`. -/
def isdigit (c : Char) : Bool := decide (48 ≤ c.toNat) && decide (c.toNat ≤ 57)

/-! ## Machine integers -/

def INT64_MAX : Int := 2 ^ 63 - 1

def INT_MAX : Int := 2 ^ 31 - 1

def INT_MIN : Int := -(2 ^ 31)

/-- Two's-complement wrap of a mathematical integer into `int64_t`. -/
def wrap64 (x : Int) : Int := (x + 2 ^ 63) % 2 ^ 64 - 2 ^ 63

/-- Two's-complement wrap of a mathematical integer into `int`. -/
def wrap32 (x : Int) : Int := (x + 2 ^ 31) % 2 ^ 32 - 2 ^ 31

/-- The conversion `static_cast<size_t>(n)` of a signed integer. -/
def toSizeT (n : Int) : Nat := (n % 2 ^ 64).toNat

/-! ## Records (`database.h`) -/

structure FileRecord where
  id : Int
  name : Str
  deriving DecidableEq

structure TagRecord where
  id : Int
  name : Str
  deriving DecidableEq

structure TagJoinFileRecord where
  file_id : Int
  tag_id : Int
  deriving DecidableEq

structure NoteRecord where
  file_id : Int
  note : Str
  deriving DecidableEq

/-! ## Configuration (`config.h`), the fields the processor reads -/

structure Config where
  write_tag : Bool := true
  write_note : Bool := true
  skip_existing : Bool := true
  tag_thread_count : Int := 8
  note_thread_count : Int := 8
  batch_size_tag : Int := 20
  batch_size_tag_join : Int := 50
  batch_size_note : Int := 10
  pixiv_artwork_url : Str := "https://www.pixiv.net/artworks/".toList
  deriving DecidableEq

/-- The three thresholds are values of the C++ type `int`. -/
def Config.valid (c : Config) : Prop :=
  (INT_MIN ≤ c.batch_size_tag ∧ c.batch_size_tag ≤ INT_MAX) ∧
  (INT_MIN ≤ c.batch_size_tag_join ∧ c.batch_size_tag_join ≤ INT_MAX) ∧
  (INT_MIN ≤ c.batch_size_note ∧ c.batch_size_note ≤ INT_MAX)

instance (c : Config) : Decidable c.valid := by
  unfold Config.valid; infer_instance

/-! ## The tag cache: `std::unordered_map<std::string, int64_t>` -/

/-- The entries of the map. A well-formed map has no two entries with the same
key; `find` and `set` keep that and are defined on every list. -/
abbrev TagCache := List (Str × Int)

namespace TagCache

/-- The lookup `m.find(key)`: the mapped value, `none` for `end()`. -/
def find : TagCache → Str → Option Int
  | [], _ => none
  | (k, v) :: rest, key => if k = key then some v else find rest key

/-- The assignment `m[key] = value`: overwrites the entry of `key` or adds one. -/
def set : TagCache → Str → Int → TagCache
  | [], key, value => [(key, value)]
  | (k, v) :: rest, key, value =>
    if k = key then (k, value) :: rest else (k, v) :: set rest key value

end TagCache

/-! ## Statistics and processor state (`processor.h`) -/

structure Statistics where
  total_count : Int := 0
  success_count : Int := 0
  fail_count : Int := 0
  skip_count : Int := 0
  deriving DecidableEq

/-- The data members of `Processor` that the tasks and the flushes work on; the
API client and the two pools that `initialize` makes are in `Initialized`. -/
structure Processor where
  config_ : Config
  is_v3_db_ : Bool
  tag_cache_ : TagCache
  existing_file_tags_ : Finset Int
  existing_file_notes_ : Finset Int
  pending_tags_ : List TagRecord
  pending_tag_joins_ : List TagJoinFileRecord
  pending_notes_ : List NoteRecord
  tag_stats_ : Statistics
  note_stats_ : Statistics
  deriving DecidableEq

/-- A call made to one of the two external collaborators, with the arguments
passed and, for the store, the value it returned. -/
inductive Event where
  | get_tags (pid : Str)
  | insert_tags (tags : List TagRecord) (is_v3 : Bool) (result : Bool)
  | insert_tag_join_files (records : List TagJoinFileRecord) (result : Bool)
  | insert_notes (notes : List NoteRecord) (result : Bool)
  deriving DecidableEq

/-- What a flush returns: the processor afterwards, the `bool` result and the
store calls made. -/
structure FlushResult where
  proc : Processor
  success : Bool
  events : List Event

/-! ## The store's batch operations (`database.cpp`)

Each returns `true` at once for an empty batch, `false` when the statement
cannot be prepared (`prepare_ok = false`) and `true` otherwise: a row that
fails to insert is logged and skipped. -/

def Database.insert_tags (prepare_ok : Bool) (tags : List TagRecord) (is_v3 : Bool) : Bool :=
  if tags.isEmpty then true else prepare_ok

def Database.insert_tag_join_files (prepare_ok : Bool) (records : List TagJoinFileRecord) : Bool :=
  if records.isEmpty then true else prepare_ok

def Database.insert_notes (prepare_ok : Bool) (notes : List NoteRecord) : Bool :=
  if notes.isEmpty then true else prepare_ok

/-! ## `PixivAPI::extract_pid` (`pixiv_api.cpp`) -/

/-- The static table of supported extensions. -/
def extensions : List Str :=
  ["jpg", "png", "gif", "webp", "webm", "zip",
   "jpg.lnk", "png.lnk", "gif.lnk", "webp.lnk", "webm.lnk", "zip.lnk"].map String.toList

/-- `PixivAPI::extract_pid`: the name must be longer than, and end with, one of
the extensions; the identifier is the part before the first `-` if there is
one, else before the first `_`, else before the first `.`, and must be a
non-empty run of digits. -/
def extract_pid (filename : Str) : Option Str :=
  let valid_ext := extensions.any (fun ext =>
    decide (filename.length > ext.length) &&
      decide (substr_from filename (filename.length - ext.length) = ext))
  if !valid_ext then none
  else
    let dash_pos := str_find_char filename '-'
    let underscore_pos := str_find_char filename '_'
    let dot_pos := str_find_char filename '.'
    let pid_opt : Option Str :=
      match dash_pos with
      | some d => some (substr filename 0 d)
      | none =>
        match underscore_pos with
        | some u => some (substr filename 0 u)
        | none =>
          match dot_pos with
          | some d => some (substr filename 0 d)
          | none => none
    match pid_opt with
    | none => none
    | some pid => if pid.isEmpty || !pid.all isdigit then none else some pid

/-! ## `Processor` (`processor.cpp`) -/

/-- The constructor: `is_v3_db_` false, caches and buffers empty, counters 0. -/
def Processor.init (config : Config) : Processor :=
  { config_ := config, is_v3_db_ := false, tag_cache_ := [],
    existing_file_tags_ := ∅, existing_file_notes_ := ∅,
    pending_tags_ := [], pending_tag_joins_ := [], pending_notes_ := [],
    tag_stats_ := {}, note_stats_ := {} }

/-- `Processor::load_cache`; the three arguments are what `db_.get_tags`,
`db_.get_tag_join_files` and `db_.get_notes` return. -/
def load_cache (p : Processor) (tags : List TagRecord) (tag_joins : List TagJoinFileRecord)
    (notes : List NoteRecord) : Processor :=
  { p with
    tag_cache_ := tags.foldl (fun c tag => c.set tag.name tag.id) p.tag_cache_
    existing_file_tags_ := tag_joins.foldl (fun s j => insert j.file_id s) p.existing_file_tags_
    existing_file_notes_ :=
      notes.foldl (fun s note => if !note.note.isEmpty then insert note.file_id s else s)
        p.existing_file_notes_ }

/-- What a completed `Processor::initialize` makes of the data members (that
name is reserved in Lean): `is_v3_db_` is what `db_.is_version_3()` returns and
`load_cache` has run. The whole function, with the construction of the API
client and of the pools, by which it can end in an error, and with its return
value, is `initialize_from_store`. -/
def initialize_processor (p : Processor) (is_version_3 : Bool) (tags : List TagRecord)
    (tag_joins : List TagJoinFileRecord) (notes : List NoteRecord) : Processor :=
  load_cache { p with is_v3_db_ := is_version_3 } tags tag_joins notes

/-- `Processor::check_tag_exist`: on a hierarchical store a name that starts
with `Artist:` is first looked up without the prefix; then, as every other
name, it is looked up as it is. -/
def check_tag_exist (p : Processor) (tag_name : Str) : Option Int :=
  if p.is_v3_db_ && decide (str_find tag_name "Artist:".toList 0 = some 0) then
    let simple_name := substr_from tag_name 7
    match p.tag_cache_.find simple_name with
    | some id => some id
    | none => p.tag_cache_.find tag_name
  else p.tag_cache_.find tag_name

/-- `Processor::generate_tag_id`: 1 for an empty cache, else one more than the
largest id in the cache (the search starts from 0); the sum is an `int64_t`. -/
def generate_tag_id (p : Processor) : Int :=
  if p.tag_cache_.isEmpty then 1
  else
    let max_id := p.tag_cache_.foldl (fun max_id e => if e.2 > max_id then e.2 else max_id) 0
    wrap64 (max_id + 1)

/-- The body of the loop of `add_tags_to_buffer` for one `tag`. -/
def add_tag (file_id : Int) (p : Processor) (tag : Str) : Processor :=
  match check_tag_exist p tag with
  | some tag_id =>
    { p with pending_tag_joins_ := p.pending_tag_joins_ ++ [⟨file_id, tag_id⟩] }
  | none =>
    let new_tag_id := generate_tag_id p
    { p with
      pending_tags_ := p.pending_tags_ ++ [⟨new_tag_id, tag⟩]
      pending_tag_joins_ := p.pending_tag_joins_ ++ [⟨file_id, new_tag_id⟩]
      tag_cache_ := p.tag_cache_.set tag new_tag_id }

/-- `Processor::add_tags_to_buffer`: the loop over `tags`, under `buffer_mutex_`. -/
def add_tags_to_buffer (p : Processor) (file_id : Int) (tags : List Str) : Processor :=
  tags.foldl (add_tag file_id) p

/-- `Processor::add_note_to_buffer`, under `buffer_mutex_`. -/
def add_note_to_buffer (p : Processor) (file_id : Int) (note origin : Str) : Processor :=
  let record : NoteRecord := ⟨file_id, note ++ "\r\nOrigin:".toList ++ origin⟩
  { p with pending_notes_ := p.pending_notes_ ++ [record] }

/-- `Processor::flush_tag_buffer`; `prepare_ok` is the store's answer if it is
called. -/
def flush_tag_buffer (p : Processor) (force : Bool) (prepare_ok : Bool) : FlushResult :=
  if p.pending_tags_.isEmpty ||
      (!force && decide (p.pending_tags_.length < toSizeT p.config_.batch_size_tag)) then
    ⟨p, true, []⟩
  else
    let success := Database.insert_tags prepare_ok p.pending_tags_ p.is_v3_db_
    let ev := Event.insert_tags p.pending_tags_ p.is_v3_db_ success
    if success then ⟨{ p with pending_tags_ := [] }, success, [ev]⟩
    else ⟨p, success, [ev]⟩

/-- `Processor::flush_tag_join_buffer`; `prepare_ok` is the store's answer if
it is called. -/
def flush_tag_join_buffer (p : Processor) (force : Bool) (prepare_ok : Bool) : FlushResult :=
  if p.pending_tag_joins_.isEmpty ||
      (!force && decide (p.pending_tag_joins_.length < toSizeT p.config_.batch_size_tag_join)) then
    ⟨p, true, []⟩
  else
    let success := Database.insert_tag_join_files prepare_ok p.pending_tag_joins_
    let ev := Event.insert_tag_join_files p.pending_tag_joins_ success
    if success then
      ⟨{ p with
          existing_file_tags_ :=
            p.pending_tag_joins_.foldl (fun s join => insert join.file_id s) p.existing_file_tags_
          pending_tag_joins_ := [] }, success, [ev]⟩
    else ⟨p, success, [ev]⟩

/-- `Processor::flush_note_buffer`; `prepare_ok` is the store's answer if it is
called. -/
def flush_note_buffer (p : Processor) (force : Bool) (prepare_ok : Bool) : FlushResult :=
  if p.pending_notes_.isEmpty ||
      (!force && decide (p.pending_notes_.length < toSizeT p.config_.batch_size_note)) then
    ⟨p, true, []⟩
  else
    let success := Database.insert_notes prepare_ok p.pending_notes_
    let ev := Event.insert_notes p.pending_notes_ success
    if success then
      ⟨{ p with
          existing_file_notes_ :=
            p.pending_notes_.foldl (fun s note => insert note.file_id s) p.existing_file_notes_
          pending_notes_ := [] }, success, [ev]⟩
    else ⟨p, success, [ev]⟩

/-- The increment `counter++` of a `std::atomic<int>`. -/
def incr (counter : Int) : Int := wrap32 (counter + 1)

/-- `Processor::process_tag_task`. `get_tags` is what `pixiv_api_->get_tags`
answers for an identifier; `prepare_tags` and `prepare_joins` are the store's
answers to the two non-forced flushes that end the task. -/
def process_tag_task (p : Processor) (file : FileRecord) (index total : Int)
    (get_tags : Str → Option (List Str)) (prepare_tags prepare_joins : Bool) :
    Processor × List Event :=
  let p := { p with tag_stats_ := { p.tag_stats_ with total_count := incr p.tag_stats_.total_count } }
  match extract_pid file.name with
  | none =>
    ({ p with tag_stats_ := { p.tag_stats_ with fail_count := incr p.tag_stats_.fail_count } }, [])
  | some pid =>
    if p.config_.skip_existing && decide (file.id ∈ p.existing_file_tags_) then
      ({ p with tag_stats_ := { p.tag_stats_ with skip_count := incr p.tag_stats_.skip_count } }, [])
    else
      let tags_opt := get_tags pid
      let fetched := [Event.get_tags pid]
      match tags_opt with
      | none =>
        ({ p with tag_stats_ := { p.tag_stats_ with fail_count := incr p.tag_stats_.fail_count } },
          fetched)
      | some tags =>
        if tags.isEmpty then
          ({ p with tag_stats_ := { p.tag_stats_ with fail_count := incr p.tag_stats_.fail_count } },
            fetched)
        else
          let p := add_tags_to_buffer p file.id tags
          let p := { p with
            tag_stats_ := { p.tag_stats_ with success_count := incr p.tag_stats_.success_count } }
          let r1 := flush_tag_buffer p false prepare_tags
          let r2 := flush_tag_join_buffer r1.proc false prepare_joins
          (r2.proc, fetched ++ r1.events ++ r2.events)

/-! ## Runs

The operations that take `buffer_mutex_` are atomic with respect to each other,
so a concurrent execution of the two pools acts on the shared state as some
sequence of them. A whole tag task is an operation too. -/

inductive Op where
  | add_tags (file_id : Int) (tags : List Str)
  | add_note (file_id : Int) (note origin : Str)
  | flush_tag (force : Bool) (prepare_ok : Bool)
  | flush_tag_join (force : Bool) (prepare_ok : Bool)
  | flush_note (force : Bool) (prepare_ok : Bool)
  | tag_task (file : FileRecord) (index total : Int) (get_tags : Str → Option (List Str))
      (prepare_tags prepare_joins : Bool)

/-- One operation: the processor afterwards and the external calls it made. -/
def step (p : Processor) : Op → Processor × List Event
  | .add_tags file_id tags => (add_tags_to_buffer p file_id tags, [])
  | .add_note file_id note origin => (add_note_to_buffer p file_id note origin, [])
  | .flush_tag force ok => ((flush_tag_buffer p force ok).proc, (flush_tag_buffer p force ok).events)
  | .flush_tag_join force ok =>
    ((flush_tag_join_buffer p force ok).proc, (flush_tag_join_buffer p force ok).events)
  | .flush_note force ok =>
    ((flush_note_buffer p force ok).proc, (flush_note_buffer p force ok).events)
  | .tag_task file index total get_tags ok1 ok2 =>
    process_tag_task p file index total get_tags ok1 ok2

/-- A sequence of operations from `p`: the final processor and all external
calls, in order. -/
def run (p : Processor) (ops : List Op) : Processor × List Event :=
  ops.foldl (fun acc op => ((step acc.1 op).1, acc.2 ++ (step acc.1 op).2)) (p, [])

/-- The tag rows of the successful `insert_tags` calls, in order. -/
def delivered_tags : List Event → List TagRecord
  | [] => []
  | Event.insert_tags tags _ true :: rest => tags ++ delivered_tags rest
  | _ :: rest => delivered_tags rest

/-- Every tag row that left or still waits in the tag buffer: the delivered
rows followed by the pending ones. -/
def all_tags (p : Processor) (evs : List Event) : List TagRecord :=
  delivered_tags evs ++ p.pending_tags_

/-- A property of the processor and the calls made so far that every atomic
piece of every operation preserves. -/
structure Stable (P : Processor → List Event → Prop) : Prop where
  add_tag : ∀ q evs file_id tag, P q evs → P (add_tag file_id q tag) evs
  add_note : ∀ q evs file_id note origin, P q evs →
    P (add_note_to_buffer q file_id note origin) evs
  flush_tag : ∀ q evs force ok, P q evs →
    P (flush_tag_buffer q force ok).proc (evs ++ (flush_tag_buffer q force ok).events)
  flush_tag_join : ∀ q evs force ok, P q evs →
    P (flush_tag_join_buffer q force ok).proc (evs ++ (flush_tag_join_buffer q force ok).events)
  flush_note : ∀ q evs force ok, P q evs →
    P (flush_note_buffer q force ok).proc (evs ++ (flush_note_buffer q force ok).events)
  tag_stats : ∀ q evs s, P q evs → P { q with tag_stats_ := s } evs
  fetched : ∀ q evs pid, P q evs → P q (evs ++ [Event.get_tags pid])

/-- The schema flag is the same and every entry of `p`'s cache is an entry of
`q`'s cache. -/
def Grows (p q : Processor) : Prop :=
  q.is_v3_db_ = p.is_v3_db_ ∧
  ∀ k v, TagCache.find p.tag_cache_ k = some v → TagCache.find q.tag_cache_ k = some v

/-- The tag rows of a run that started at `p`: they extend the rows pending at
`p` by rows `new` with pairwise different names, none of them a key of `p`'s
cache and all of them keys of the current cache. -/
def FreshNames (p q : Processor) (evs : List Event) : Prop :=
  Grows p q ∧
  ∃ new, all_tags q evs = p.pending_tags_ ++ new ∧
    (new.map TagRecord.name).Nodup ∧
    (∀ r ∈ new, TagCache.find p.tag_cache_ r.name = none) ∧
    (∀ r ∈ new, TagCache.find q.tag_cache_ r.name ≠ none)

/-- The tag id belongs to a row loaded at run start or to a row that was
appended to the tag buffer (delivered since, or still pending). -/
def Known (loaded : List TagRecord) (q : Processor) (evs : List Event) (tag_id : Int) : Prop :=
  (∃ t ∈ loaded, t.id = tag_id) ∨ ∃ r ∈ all_tags q evs, r.id = tag_id

/-- Every id in the cache, in the association buffer and in a batch of
associations handed to the store is `Known`. -/
def Referenced (loaded : List TagRecord) (q : Processor) (evs : List Event) : Prop :=
  (∀ e ∈ q.tag_cache_, Known loaded q evs e.2) ∧
  (∀ a ∈ q.pending_tag_joins_, Known loaded q evs a.tag_id) ∧
  (∀ records result, Event.insert_tag_join_files records result ∈ evs →
    ∀ a ∈ records, Known loaded q evs a.tag_id)

/-- C3 as stated, as a check of the calls made to the store in order: every
association of every `insert_tag_join_files` batch has a tag id that is in
`known`, the ids loaded at run start extended by the ids of the batches that
`insert_tags` received before (whatever the store answered). -/
def tag_rows_first (known : List Int) : List Event → Bool
  | [] => true
  | Event.insert_tags tags _ _ :: rest => tag_rows_first (known ++ tags.map TagRecord.id) rest
  | Event.insert_tag_join_files records _ :: rest =>
    records.all (fun a => decide (a.tag_id ∈ known)) && tag_rows_first known rest
  | _ :: rest => tag_rows_first known rest

/-- The ids of the rows created since `p` increase strictly and are values of
the current cache, as long as the cache holds no id as large as `INT64_MAX`. -/
def Increasing (p q : Processor) (evs : List Event) : Prop :=
  (∀ e ∈ q.tag_cache_, e.2 < INT64_MAX) →
  ∃ new, all_tags q evs = p.pending_tags_ ++ new ∧
    (new.map TagRecord.id).Pairwise (· < ·) ∧
    ∀ r ∈ new, ∃ e ∈ q.tag_cache_, e.2 = r.id

/-! ## Concrete stores used in the instances -/

/-- A hierarchical store without tags, default configuration. -/
def hierarchical_start : Processor := initialize_processor (Processor.init {}) true [] [] []

/-- A legacy store without tags, default configuration. -/
def legacy_start : Processor := initialize_processor (Processor.init {}) false [] [] []

/-- Seventeen files of one series: the metadata source answers the same three
tags for each, and the store accepts every batch. -/
def seventeen_files : List Op :=
  (List.range 17).map (fun i => Op.tag_task ⟨i + 1, "12345-1.jpg".toList⟩ (i + 1) 17
    (fun _ => some ["Artist:Alice".toList, "Cat".toList, "Dog".toList]) true true)

/-- A run start in which the forced flush of the tag buffer fails at the store
and the forced flush of the association buffer succeeds. -/
def failed_tag_flush : List Op :=
  [Op.add_tags 1 ["Cat".toList], Op.flush_tag true false, Op.flush_tag_join true true]

/-- A legacy store with one tag, `a` with id 5. -/
def one_tag_start : Processor :=
  initialize_processor (Processor.init {}) false [⟨5, "a".toList⟩] [] []

/-- A legacy store that returns two rows named `a` at warm-up, ids 4 and 3 in
that order. -/
def duplicate_name_start : Processor :=
  initialize_processor (Processor.init {}) false [⟨4, "a".toList⟩, ⟨3, "a".toList⟩] [] []

/-- One file processed on a legacy store with the default thresholds: one tag
row and one association pending, no note. -/
def one_pending : Processor := add_tags_to_buffer legacy_start 1 ["Cat".toList]

/-- As `one_pending`, with a note pending too. -/
def all_pending : Processor :=
  add_note_to_buffer one_pending 1 "Title:t".toList "https://www.pixiv.net/artworks/12345".toList

/-- Scenario C: the tag threshold is 2 and two new tags have accumulated. -/
def two_new_tags : Processor :=
  add_tags_to_buffer (initialize_processor (Processor.init { batch_size_tag := 2 }) false [] [] [])
    1 ["Cat".toList, "Dog".toList]

/-- Scenario C, later: the two tags were flushed without force and one further
new tag arrived. -/
def third_new_tag : Processor :=
  add_tags_to_buffer (flush_tag_buffer two_new_tags false true).proc 2 ["Fox".toList]

/-- Scenario A, third file: the store already associates file 3 with tag 7. -/
def already_associated : Processor :=
  initialize_processor (Processor.init {}) false [⟨7, "Cat".toList⟩] [⟨3, 7⟩] []

/-- The four counters of `s` are values of type `int` below `INT_MAX`, so that
one more increment does not wrap. -/
def Statistics.below_max (s : Statistics) : Prop :=
  (INT_MIN ≤ s.total_count ∧ s.total_count < INT_MAX) ∧
  (INT_MIN ≤ s.success_count ∧ s.success_count < INT_MAX) ∧
  (INT_MIN ≤ s.fail_count ∧ s.fail_count < INT_MAX) ∧
  (INT_MIN ≤ s.skip_count ∧ s.skip_count < INT_MAX)

instance (s : Statistics) : Decidable s.below_max := by
  unfold Statistics.below_max; infer_instance

/-- Scenario A: the store has tag 7 and already associates file 3 with it. -/
def scenario_a : Processor :=
  initialize_processor (Processor.init {}) false [⟨7, "Cat".toList⟩] [⟨3, 7⟩] []

/-- The metadata source of Scenario A: two tags for the identifier `12345`, no
answer for any other. -/
def scenario_a_source (pid : Str) : Option (List Str) :=
  if pid = "12345".toList then some ["Artist:Alice".toList, "Cat".toList] else none

/-- A processor after 2147483647 tag tasks that all failed: `total_count` and
`fail_count` hold `INT_MAX`. -/
def counters_at_max : Processor :=
  { legacy_start with tag_stats_ := { total_count := INT_MAX, fail_count := INT_MAX } }

/-- The tag counters after one tag task. -/
def stats_after (p : Processor) (file : FileRecord) (index total : Int)
    (get_tags : Str → Option (List Str)) (prepare_tags prepare_joins : Bool) : Statistics :=
  (process_tag_task p file index total get_tags prepare_tags prepare_joins).1.tag_stats_

/-- The tag id that the loop body of `add_tags_to_buffer` attaches to `tag` in
the state `p`: the id found by `check_tag_exist`, else a newly generated one. -/
def resolve_tag (p : Processor) (tag : Str) : Int :=
  match check_tag_exist p tag with
  | some tag_id => tag_id
  | none => generate_tag_id p

/-- The tag ids attached to `tags` by one call of `add_tags_to_buffer`, in list
order: each tag is resolved in the state left by the tags before it. -/
def resolved_ids (file_id : Int) : Processor → List Str → List Int
  | _, [] => []
  | p, tag :: rest => resolve_tag p tag :: resolved_ids file_id (add_tag file_id p tag) rest

/-- The cache maps different names to different ids. -/
def TagCache.injective (c : TagCache) : Prop :=
  ∀ k1 k2 v, TagCache.find c k1 = some v → TagCache.find c k2 = some v → k1 = k2

/-- A legacy store whose only tag has the id `INT64_MAX`. -/
def max_id_start : Processor :=
  initialize_processor (Processor.init {}) false [⟨INT64_MAX, "a".toList⟩] [] []

/-- Scenario A on a hierarchical store. -/
def scenario_a_v3 : Processor :=
  initialize_processor (Processor.init {}) true [⟨7, "Cat".toList⟩] [⟨3, 7⟩] []

/-! ## `PixivAPI::format_note` (`pixiv_api.cpp`) and the origin field of
`Database::insert_notes` (`database.cpp`) -/

/-- The descriptive record `IllustInfo` (`pixiv_api.h`). -/
structure IllustInfo where
  title : Str
  artist : Str
  user_id : Str
  bookmark_count : Int
  comment : Str
  tags : List Str := []
  deriving DecidableEq

/-- The call `std::to_string(n)` for an `int`: the decimal digits, with a
leading `-` for a negative value. -/
def to_string (n : Int) : Str := (toString n).toList

/-- The call `s.replace(pos, n, r)` for `pos + n ≤ s.size()`. -/
def str_replace (s : Str) (pos n : Nat) (r : Str) : Str :=
  s.take pos ++ r ++ s.drop (pos + n)

/-- The note of `format_note` when the escaping loop is reached: the five
appends to the initially empty string. -/
def note_before_escaping (info : IllustInfo) : Str :=
  let note : Str := []
  let note := note ++ ("Title:".toList ++ info.title ++ "\r\n".toList)
  let note := note ++ ("Artist:".toList ++ info.artist ++ "\r\n".toList)
  let note := note ++ ("UID:".toList ++ info.user_id ++ "\r\n".toList)
  let note := note ++ ("Bookmark:".toList ++ to_string info.bookmark_count ++ "\r\n".toList)
  if !info.comment.isEmpty then note ++ ("Comment:\r\n".toList ++ info.comment)
  else note ++ "No Comment\r\n".toList

/-- The escaping loop of `format_note`,
`while ((pos = note.find('\'', pos)) != npos) { note.replace(pos, 1, "''"); pos += 2; }`,
run for at most `fuel` evaluations of its condition: `some note` when the loop
has ended, `none` when `fuel` evaluations were not enough. -/
def escape_loop : Nat → Str → Nat → Option Str
  | 0, _, _ => none
  | fuel + 1, note, pos =>
    match str_find note ['\''] pos with
    | none => some note
    | some found => escape_loop fuel (str_replace note found 1 "''".toList) (found + 2)

/-- `PixivAPI::format_note`. The loop is given one evaluation of its condition
per character of the note and one more, which is enough (see
`format_note_doubles_quotes`). -/
def format_note (info : IllustInfo) : Str :=
  let note := note_before_escaping info
  match escape_loop (note.length + 1) note 0 with
  | some escaped => escaped
  | none => note

/-- The origin that `Database::insert_notes` binds to the third column of a
row, extracted from the note text of the row: empty unless the text contains
`Origin:` and a line break after it. -/
def insert_notes_origin (note : Str) : Str :=
  match str_find note "Origin:".toList 0 with
  | none => []
  | some pos =>
    match str_find note "\r\n".toList pos with
    | none => []
    | some end_pos => substr note (pos + 7) (end_pos - pos - 7)

/-- The layout of a note in the words of the specification: title, artist, id
and popularity lines, then the comment block or the line `No Comment`. -/
def note_layout (info : IllustInfo) : Str :=
  "Title:".toList ++ info.title ++ "\r\n".toList ++
  "Artist:".toList ++ info.artist ++ "\r\n".toList ++
  "UID:".toList ++ info.user_id ++ "\r\n".toList ++
  "Bookmark:".toList ++ to_string info.bookmark_count ++ "\r\n".toList ++
  (if info.comment = [] then "No Comment".toList ++ "\r\n".toList
   else "Comment:".toList ++ "\r\n".toList ++ info.comment)

/-- Every single-quote character doubled. -/
def double_quotes : Str → Str
  | [] => []
  | c :: cs => if c = '\'' then '\'' :: '\'' :: double_quotes cs else c :: double_quotes cs

/-- Every pair of adjacent single quotes, read from the left, replaced by one. -/
def undouble_quotes : Str → Str
  | [] => []
  | [c] => [c]
  | c :: d :: cs =>
    if c = '\'' ∧ d = '\'' then '\'' :: undouble_quotes cs else c :: undouble_quotes (d :: cs)

/-- A descriptive record without comment, with a quote in its title. -/
def sample_info : IllustInfo :=
  { title := "it's".toList, artist := "Alice".toList, user_id := "42".toList,
    bookmark_count := 7, comment := [] }

/-- The origin of the artwork 12345 under the configured artwork URL. -/
def sample_origin : Str := "https://www.pixiv.net/artworks/12345".toList

/-- A descriptive record with a comment. -/
def sample_info_comment : IllustInfo :=
  { title := "Cats".toList, artist := "Alice".toList, user_id := "42".toList,
    bookmark_count := 7, comment := "two cats".toList }

/-! ## Identifiers in the words of the specification -/

/-- The run of characters before the earliest occurrence of any of `-`, `_`
and `.` (the whole name when it has none of them). -/
def run_before_earliest (name : Str) : Str :=
  name.takeWhile (fun c => c != '-' && c != '_' && c != '.')

/-- The run of characters before the first `-` when the name has a `-`, else
before the first `_` when it has a `_`, else before the first `.` when it has a
`.`; `none` for a name without any of the three. -/
def run_by_precedence (name : Str) : Option Str :=
  if '-' ∈ name then some (name.takeWhile (fun c => c != '-'))
  else if '_' ∈ name then some (name.takeWhile (fun c => c != '_'))
  else if '.' ∈ name then some (name.takeWhile (fun c => c != '.'))
  else none

/-- The run as identifier: it must be non-empty and consist of digits only. -/
def digits_only (run : Str) : Option Str :=
  if run ≠ [] ∧ run.all isdigit = true then some run else none

/-! ## `PixivAPI::get_tags` (`pixiv_api.cpp`) -/

/-- The scan behind `std::string::rfind(c)`: `last` is the last index seen so
far, `i` the index of the head of the remaining string. -/
def rfind_from (c : Char) : Str → Nat → Option Nat → Option Nat
  | [], _, last => last
  | x :: xs, i, last => rfind_from c xs (i + 1) (if x = c then some i else last)

/-- The call `s.rfind(c)`: index of the last occurrence, `none` for `npos`. -/
def str_rfind_char (s : Str) (c : Char) : Option Nat := rfind_from c s 0 none

/-- The difference `a - b` of two `size_t` values. -/
def size_sub (a b : Nat) : Nat := (a + 2 ^ 64 - b % 2 ^ 64) % 2 ^ 64

/-- The `char` to which the literal `'＠'` of `process_artist_name` is converted
for `rfind`: the literal has more than one byte (EF BC A0 in UTF-8); its value
is implementation-defined, and the conversion to `char` keeps the low byte. -/
def fullwidth_at : Char := Char.ofNat 0xA0

/-- `PixivAPI::process_artist_name`: what follows the last `@` is cut when the
`@` is at index 2 or later and at least two characters follow it; then the same
for the full-width sign. -/
def process_artist_name (artist : Str) : Str :=
  let result := artist
  let result :=
    match str_rfind_char result '@' with
    | some at_pos =>
      if decide (at_pos ≥ 2) && decide (at_pos ≤ size_sub result.length 3) then
        substr result 0 at_pos
      else result
    | none => result
  match str_rfind_char result fullwidth_at with
  | some fullwidth_at_pos =>
    if decide (fullwidth_at_pos ≥ 2) && decide (fullwidth_at_pos ≤ size_sub result.length 3) then
      substr result 0 fullwidth_at_pos
    else result
  | none => result

/-- The response of `HttpClient::get` (`http_client.h`), without the headers. -/
structure HttpResponse where
  status_code : Int
  body : Str
  success : Bool
  deriving DecidableEq

/-- One element of `body.tags.tags` as `get_tags` reads it: the original name
`tag` and the string `translation.en` when both keys are present. -/
structure TagJson where
  tag : Str
  translation_en : Option Str
  deriving DecidableEq

/-- The parts of the response body that `get_tags` reads. -/
structure IllustJson where
  error : Bool
  userName : Str
  tags : List TagJson
  deriving DecidableEq

/-- The call `std::sort(begin, end)` on strings: the list in ascending order of
`operator<`, the lexicographic order of the characters. -/
def std_sort (l : List Str) : List Str := l.insertionSort (fun a b => a ≤ b)

/-- The call `erase(std::unique(begin, end), end)`: of each group of adjacent
equal strings only one is kept. -/
def std_unique : List Str → List Str
  | [] => []
  | [a] => [a]
  | a :: b :: rest => if a = b then std_unique (b :: rest) else a :: std_unique (b :: rest)

/-- The body of the loop of `get_tags` over `body.tags.tags`. -/
def push_tag (tag_list : List Str) (tag : TagJson) : List Str :=
  let tag_list :=
    match tag.translation_en with
    | some en => tag_list ++ [en]
    | none => tag_list
  tag_list ++ [tag.tag]

/-- `PixivAPI::get_tags`. `response` is what `http_client_.get` returned for
the identifier; `parse` stands for `json::parse` and the typed reads of the
body, `none` when any of them throws `json::exception`. -/
def PixivAPI.get_tags (parse : Str → Option IllustJson) (response : Option HttpResponse) :
    Option (List Str) :=
  match response with
  | none => none
  | some response =>
    if !response.success then none
    else if response.status_code = 404 then some ["Error:404".toList]
    else
      match parse response.body with
      | none => none
      | some j =>
        if j.error then none
        else
          let tag_list : List Str := []
          let artist := process_artist_name j.userName
          let tag_list := tag_list ++ ["Artist:".toList ++ artist]
          let tag_list := j.tags.foldl push_tag tag_list
          some (std_unique (std_sort tag_list))

/-- A body with the artist `Alice@C99` and the tags `neko` (translated `cat`)
and `cat`. -/
def sample_json : IllustJson :=
  { error := false, userName := "Alice@C99".toList,
    tags := [⟨"neko".toList, some "cat".toList⟩, ⟨"cat".toList, none⟩] }

/-! ## Rows delivered and rows appended -/

/-- The association rows of the successful `insert_tag_join_files` calls, in
order. -/
def delivered_joins : List Event → List TagJoinFileRecord
  | [] => []
  | Event.insert_tag_join_files records true :: rest => records ++ delivered_joins rest
  | _ :: rest => delivered_joins rest

/-- The note rows of the successful `insert_notes` calls, in order. -/
def delivered_notes : List Event → List NoteRecord
  | [] => []
  | Event.insert_notes notes true :: rest => notes ++ delivered_notes rest
  | _ :: rest => delivered_notes rest

/-- The tag list that `process_tag_task` hands to `add_tags_to_buffer`; empty
when the task returns before that call. -/
def task_tags (p : Processor) (file : FileRecord) (get_tags : Str → Option (List Str)) :
    List Str :=
  match extract_pid file.name with
  | none => []
  | some pid =>
    if p.config_.skip_existing && decide (file.id ∈ p.existing_file_tags_) then []
    else
      match get_tags pid with
      | none => []
      | some tags => tags

/-- The tag rows that one operation appends to the tag buffer: what
`add_tags_to_buffer` adds behind the rows already pending. -/
def tags_appended (p : Processor) : Op → List TagRecord
  | .add_tags file_id tags =>
    (add_tags_to_buffer p file_id tags).pending_tags_.drop p.pending_tags_.length
  | .tag_task file _ _ get_tags _ _ =>
    (add_tags_to_buffer p file.id (task_tags p file get_tags)).pending_tags_.drop
      p.pending_tags_.length
  | _ => []

/-- The association rows that one operation appends to the association buffer. -/
def joins_appended (p : Processor) : Op → List TagJoinFileRecord
  | .add_tags file_id tags =>
    (add_tags_to_buffer p file_id tags).pending_tag_joins_.drop p.pending_tag_joins_.length
  | .tag_task file _ _ get_tags _ _ =>
    (add_tags_to_buffer p file.id (task_tags p file get_tags)).pending_tag_joins_.drop
      p.pending_tag_joins_.length
  | _ => []

/-- The note rows that one operation appends to the note buffer. -/
def notes_appended (p : Processor) : Op → List NoteRecord
  | .add_note file_id note origin =>
    (add_note_to_buffer p file_id note origin).pending_notes_.drop p.pending_notes_.length
  | _ => []

/-- The tag rows appended by a sequence of operations from `p`, in append order. -/
def tags_appended_in_run : Processor → List Op → List TagRecord
  | _, [] => []
  | p, op :: rest => tags_appended p op ++ tags_appended_in_run (step p op).1 rest

/-- The association rows appended by a sequence of operations from `p`. -/
def joins_appended_in_run : Processor → List Op → List TagJoinFileRecord
  | _, [] => []
  | p, op :: rest => joins_appended p op ++ joins_appended_in_run (step p op).1 rest

/-- The note rows appended by a sequence of operations from `p`. -/
def notes_appended_in_run : Processor → List Op → List NoteRecord
  | _, [] => []
  | p, op :: rest => notes_appended p op ++ notes_appended_in_run (step p op).1 rest

/-- A run on a legacy store that mixes appends with flushes: the first forced
tag flush fails at the store, the second succeeds; the association flush is not
forced and stays below its threshold; the note flush is forced and succeeds. -/
def mixed_run : List Op :=
  [Op.add_tags 1 ["Cat".toList, "Dog".toList], Op.flush_tag true false,
    Op.add_note 1 "Title:t".toList "u".toList, Op.add_tags 2 ["Cat".toList, "Fox".toList],
    Op.flush_tag true true, Op.flush_tag_join false true, Op.flush_note true true,
    Op.add_tags 3 ["Elk".toList]]

/-- The call `api_->get_tags(pid)` made by `process_tag_task`: `http` is what
`http_client_.get` returns for the address of each identifier. -/
def api_get_tags (parse : Str → Option IllustJson) (http : Str → Option HttpResponse)
    (pid : Str) : Option (List Str) :=
  PixivAPI.get_tags parse (http pid)

/-- A remote that answers every request with status 404 and an empty body. -/
def not_found_remote (pid : Str) : Option HttpResponse := some ⟨404, [], true⟩

/-- A body reader that rejects every body. -/
def no_json (body : Str) : Option IllustJson := none

/-! ## Artist-tag restructuring (`database.cpp`, `processor.cpp`)

The table `bf_tag_v2` is a list of rows in the order in which the store scans
them. The answers of the store that the code branches on (whether a statement
could be prepared or executed, the id and parent that the store gives to an
inserted row) are arguments. -/

/-- A row of `bf_tag_v2`: `pid` is the nullable parent reference. -/
structure TagRow where
  id : Int
  name : Str
  pid : Option Int
  deriving DecidableEq

abbrev TagTable := List TagRow

/-- Lower case of an ASCII letter, every other character unchanged: how the
`LIKE` operator of the store compares characters. -/
def ascii_lower (c : Char) : Char :=
  if 65 ≤ c.toNat ∧ c.toNat ≤ 90 then Char.ofNat (c.toNat + 32) else c

/-- The condition `name LIKE 'Artist:%'`: the first seven characters are
`Artist:` up to ASCII case. -/
def like_artist (name : Str) : Bool :=
  decide ((name.take 7).map ascii_lower = "artist:".toList)

/-- The `WHERE` clause of `get_artist_subtags`:
`name LIKE 'Artist:%' AND (pid IS NULL OR pid = 0)`. -/
def ungrouped (r : TagRow) : Bool :=
  like_artist r.name && (decide (r.pid = none) || decide (r.pid = some 0))

/-- `Database::get_artist_tag_id`: the id of the first row named `Artist`. -/
def Database.get_artist_tag_id (prepare_ok : Bool) (table : TagTable) : Option Int :=
  if !prepare_ok then none
  else
    match table.find? (fun r => decide (r.name = "Artist".toList)) with
    | some r => some r.id
    | none => none

/-- `Database::create_artist_tag`: `INSERT INTO bf_tag_v2 (name) VALUES
('Artist')`; the store chooses the id and the parent of the new row. -/
def Database.create_artist_tag (exec_ok : Bool) (row_id : Int) (row_pid : Option Int)
    (table : TagTable) : TagTable × Bool :=
  if !exec_ok then (table, false)
  else (table ++ [⟨row_id, "Artist".toList, row_pid⟩], true)

/-- `Database::get_artist_subtags`. -/
def Database.get_artist_subtags (prepare_ok : Bool) (table : TagTable) : List TagRecord :=
  if !prepare_ok then []
  else (table.filter ungrouped).map (fun r => ⟨r.id, r.name⟩)

/-- The name bound by `update_artist_tags`: the tag name without a leading
`Artist:`. -/
def strip_artist (name : Str) : Str :=
  if str_find name "Artist:".toList 0 = some 0 then substr_from name 7 else name

/-- The statement `UPDATE bf_tag_v2 SET name = ?, pid = ? WHERE id = ?` on one
row. -/
def update_row (new_name : Str) (parent_id id : Int) (r : TagRow) : TagRow :=
  if r.id = id then ⟨r.id, new_name, some parent_id⟩ else r

/-- `Database::update_artist_tags`: `step_ok` tells for each tag whether its
`UPDATE` ran to `SQLITE_DONE`; a statement that did not changes no row. -/
def Database.update_artist_tags (prepare_ok : Bool) (step_ok : TagRecord → Bool)
    (tags : List TagRecord) (parent_id : Int) (table : TagTable) : TagTable × Bool :=
  if tags.isEmpty then (table, true)
  else if !prepare_ok then (table, false)
  else
    (tags.foldl
      (fun t tag =>
        let new_name := strip_artist tag.name
        if step_ok tag then t.map (update_row new_name parent_id tag.id) else t)
      table, true)

/-- The answers of the store during one run of `Processor::update_artist_tags`. -/
structure StoreAnswers where
  get_id_ok : Bool
  create_ok : Bool
  row_id : Int
  row_pid : Option Int
  get_id_again_ok : Bool
  subtags_ok : Bool
  update_ok : Bool
  step_ok : TagRecord → Bool

/-- The second half of `Processor::update_artist_tags`, once the parent id is
known: the table afterwards and the tags handed to `db_.update_artist_tags`
(none when no ungrouped tag was found). -/
def regroup_under (a : StoreAnswers) (artist_id : Int) (table : TagTable) :
    TagTable × List TagRecord :=
  let artist_subtags := Database.get_artist_subtags a.subtags_ok table
  if artist_subtags.isEmpty then (table, [])
  else
    ((Database.update_artist_tags a.update_ok a.step_ok artist_subtags artist_id table).1,
      artist_subtags)

/-- `Processor::update_artist_tags`: the table afterwards and the tags handed to
`db_.update_artist_tags`. -/
def update_artist_tags (a : StoreAnswers) (table : TagTable) : TagTable × List TagRecord :=
  match Database.get_artist_tag_id a.get_id_ok table with
  | some artist_id => regroup_under a artist_id table
  | none =>
    let created := Database.create_artist_tag a.create_ok a.row_id a.row_pid table
    if !created.2 then (created.1, [])
    else
      match Database.get_artist_tag_id a.get_id_again_ok created.1 with
      | none => (created.1, [])
      | some artist_id => regroup_under a artist_id created.1

/-- What restructuring makes of one row under the parent `parent_id`: an
ungrouped row with the `Artist:` pattern loses the prefix and gets the parent,
every other row stays. -/
def regrouped (parent_id : Int) (r : TagRow) : TagRow :=
  if ungrouped r then ⟨r.id, strip_artist r.name, some parent_id⟩ else r

/-- Answers of a store that runs every statement and gives a new row the id 9
and no parent. -/
def cooperative : StoreAnswers := ⟨true, true, 9, none, true, true, true, fun _ => true⟩

/-- The tag table of a hierarchical store whose tags were written flat, without
a row named `Artist`. -/
def flat_import : TagTable :=
  [⟨1, "Artist:Alice".toList, none⟩, ⟨2, "Cat".toList, none⟩,
    ⟨3, "artist:bob".toList, some 0⟩, ⟨4, "Artist:Artist:x".toList, none⟩]

/-- A hierarchical store that holds the tags `Alice` (id 3) and `Artist:Bob`
(id 4). -/
def artist_lookup_start : Processor :=
  initialize_processor (Processor.init {}) true
    [⟨3, "Alice".toList⟩, ⟨4, "Artist:Bob".toList⟩] [] []

/-! ## The order of the appends of `add_tags_to_buffer` -/

/-- One `push_back` of `add_tags_to_buffer`: to `pending_tags_` or to
`pending_tag_joins_`. -/
inductive Append where
  | tag_row (r : TagRecord)
  | association (a : TagJoinFileRecord)
  deriving DecidableEq

/-- The `push_back` calls of the loop body of `add_tags_to_buffer` for one
`tag`, in the order in which the statements run. -/
def add_tag_appends (file_id : Int) (p : Processor) (tag : Str) : List Append :=
  match check_tag_exist p tag with
  | some tag_id => [Append.association ⟨file_id, tag_id⟩]
  | none =>
    let new_tag_id := generate_tag_id p
    [Append.tag_row ⟨new_tag_id, tag⟩, Append.association ⟨file_id, new_tag_id⟩]

/-- The `push_back` calls of one call of `add_tags_to_buffer`, in order. -/
def add_tags_appends (file_id : Int) : Processor → List Str → List Append
  | _, [] => []
  | p, tag :: rest =>
    add_tag_appends file_id p tag ++ add_tags_appends file_id (add_tag file_id p tag) rest

/-- The `push_back` calls of one operation. -/
def appends_of (p : Processor) : Op → List Append
  | .add_tags file_id tags => add_tags_appends file_id p tags
  | .tag_task file _ _ get_tags _ _ => add_tags_appends file.id p (task_tags p file get_tags)
  | _ => []

/-- The `push_back` calls of a sequence of operations from `p`, in order. -/
def appends_in_run : Processor → List Op → List Append
  | _, [] => []
  | p, op :: rest => appends_of p op ++ appends_in_run (step p op).1 rest

/-- The tag rows among the appends, in order. -/
def tag_rows_of : List Append → List TagRecord
  | [] => []
  | Append.tag_row r :: rest => r :: tag_rows_of rest
  | Append.association _ :: rest => tag_rows_of rest

/-- The associations among the appends, in order. -/
def associations_of : List Append → List TagJoinFileRecord
  | [] => []
  | Append.tag_row _ :: rest => associations_of rest
  | Append.association a :: rest => a :: associations_of rest

/-- Every association of the log carries a tag id that is `known` or is the id
of a tag row that stands before it in the log. -/
def Ordered (known : Int → Prop) (log : List Append) : Prop :=
  ∀ pre a post, log = pre ++ Append.association a :: post →
    known a.tag_id ∨ ∃ r, Append.tag_row r ∈ pre ∧ r.id = a.tag_id

/-- The ids that are `known` or belong to a tag row of `log`. -/
def known_after (known : Int → Prop) (log : List Append) : Int → Prop :=
  fun id => known id ∨ ∃ r, Append.tag_row r ∈ log ∧ r.id = id

/-! ## `ThreadPool` (`thread_pool.h`, `thread_pool.cpp`)

The pool as a transition system over the members that `queue_mutex_` guards.
A unit of work is the closure that `enqueue` puts into `tasks_`: it runs a
`std::packaged_task`, which stores the value or the error of the callable in
the shared state of the future and never lets the error out. -/

/-- A unit of work: its number in submission order and whether its callable
raises an error when it runs. -/
structure WorkUnit where
  id : Nat
  raises : Bool
  deriving DecidableEq

/-- Where a worker stands in `worker_thread`: in `condition_.wait` at the top of
the loop, inside `task()`, or past the `return`. -/
inductive Worker where
  | waiting
  | running (u : WorkUnit)
  | returned
  deriving DecidableEq

/-- The shared state of a future once its unit has run: a value, or the error
that the callable raised. -/
inductive FutureState where
  | value
  | error
  deriving DecidableEq

/-- The members of `ThreadPool`, and two records kept for the proofs: the units
popped from the queue so far, and the futures made ready so far. -/
structure ThreadPool where
  workers_ : List Worker
  tasks_ : List WorkUnit
  stop_ : Bool
  active_tasks_ : Nat
  started : List WorkUnit
  ready : List (Nat × FutureState)
  deriving DecidableEq

/-- The constructor: `num_threads` workers, all at the top of their loop. -/
def ThreadPool.create (num_threads : Nat) : ThreadPool :=
  { workers_ := List.replicate num_threads Worker.waiting, tasks_ := [], stop_ := false,
    active_tasks_ := 0, started := [], ready := [] }

/-- The transitions of the pool. -/
inductive PoolStep where
  | enqueue (u : WorkUnit)
  | take (w : Nat)
  | leave (w : Nat)
  | finish (w : Nat)
  | shutdown
  deriving DecidableEq

/-- One transition; `none` when it cannot happen in the state.
`enqueue` throws on a stopped pool and pushes the unit otherwise. A waiting
worker gets past `condition_.wait` when `stop_` is set or the queue is not
empty: it returns if `stop_ && tasks_.empty()` (`leave`), else it pops the
front unit and counts it as active (`take`). `finish` is the end of `task()`,
with or without an error, and the decrement that follows. `shutdown` sets
`stop_`; its `join` waits and changes nothing. -/
def ThreadPool.step (s : ThreadPool) : PoolStep → Option ThreadPool
  | .enqueue u => if s.stop_ then none else some { s with tasks_ := s.tasks_ ++ [u] }
  | .take w =>
    match s.workers_[w]?, s.tasks_ with
    | some Worker.waiting, u :: rest =>
      some { s with
        workers_ := s.workers_.set w (Worker.running u)
        tasks_ := rest
        active_tasks_ := s.active_tasks_ + 1
        started := s.started ++ [u] }
    | _, _ => none
  | .leave w =>
    match s.workers_[w]? with
    | some Worker.waiting =>
      if s.stop_ && s.tasks_.isEmpty then
        some { s with workers_ := s.workers_.set w Worker.returned }
      else none
    | _ => none
  | .finish w =>
    match s.workers_[w]? with
    | some (Worker.running u) =>
      some { s with
        workers_ := s.workers_.set w Worker.waiting
        active_tasks_ := s.active_tasks_ - 1
        ready := s.ready ++ [(u.id, if u.raises then FutureState.error else FutureState.value)] }
    | _ => none
  | .shutdown => some { s with stop_ := true }

/-- A sequence of transitions; `none` when one of them cannot happen. -/
def ThreadPool.steps (s : ThreadPool) : List PoolStep → Option ThreadPool
  | [] => some s
  | a :: rest =>
    match s.step a with
    | none => none
    | some t => t.steps rest

/-- A pool of one worker that is busy with unit 1 while unit 2 waits, at the
moment `shutdown` has set the flag. -/
def stopped_with_backlog : Option ThreadPool :=
  (ThreadPool.create 1).steps
    [PoolStep.enqueue ⟨1, false⟩, PoolStep.enqueue ⟨2, false⟩, PoolStep.take 0,
      PoolStep.shutdown]

/-! ## `Processor::initialize` and `Processor::run` (`processor.cpp`)

The thread of `run`. What the store answers to its reads, whether the system
provides the memory and the threads of a pool, and whether the unit of work of
a submission raises an error, are arguments. A unit that a worker runs ends,
normally or by an error. -/

/-- What the store answers to the reads of `initialize` and `run`: for each
read, whether the statement could be prepared and the rows it then yields;
`files` are the rows of `get_files(start, limit)` for the range that `run`
computes from `get_file_count` and the configuration. -/
structure StoreReads where
  is_version_3 : Bool
  tags_ok : Bool
  tags : List TagRecord
  tag_joins_ok : Bool
  tag_joins : List TagJoinFileRecord
  notes_ok : Bool
  notes : List NoteRecord
  files_ok : Bool
  files : List FileRecord

/-- `Database::get_tags`: the empty vector when the statement cannot be
prepared, else the rows. -/
def Database.get_tags (prepare_ok : Bool) (rows : List TagRecord) : List TagRecord :=
  if !prepare_ok then [] else rows

/-- `Database::get_tag_join_files`. -/
def Database.get_tag_join_files (prepare_ok : Bool) (rows : List TagJoinFileRecord) :
    List TagJoinFileRecord :=
  if !prepare_ok then [] else rows

/-- `Database::get_notes`. -/
def Database.get_notes (prepare_ok : Bool) (rows : List NoteRecord) : List NoteRecord :=
  if !prepare_ok then [] else rows

/-- `Database::get_files`. -/
def Database.get_files (prepare_ok : Bool) (rows : List FileRecord) : List FileRecord :=
  if !prepare_ok then [] else rows

/-- The two pipelines. -/
inductive Pipeline where
  | tag
  | note
  deriving DecidableEq

/-- `PTRDIFF_MAX`: `max_size()` of a `std::vector` is at most this. -/
def PTRDIFF_MAX : Nat := 2 ^ 63 - 1

/-- The call `std::make_unique<ThreadPool>(num_threads)`; `none` when the
constructor is left by an error. `workers_.reserve(num_threads)` throws
`std::length_error` when `num_threads` exceeds `max_size()`, as every value
above `PTRDIFF_MAX` does; for the other values `granted` tells whether the
system provides the memory and starts the `num_threads` threads. -/
def ThreadPool.construct (num_threads : Nat) (granted : Bool) : Option ThreadPool :=
  if num_threads > PTRDIFF_MAX then none
  else if !granted then none
  else some (ThreadPool.create num_threads)

/-- The API client that `initialize` makes: it keeps the configuration. Its
constructor copies the timeout, the headers and the proxies of the
configuration into the HTTP client and has no failing path; the answers of the
client are arguments of `PixivAPI.get_tags`. -/
structure ApiClient where
  config_ : Config

/-- The processor when `initialize` has returned: the data members, the API
client, the two pools (absent when the pipeline is disabled) and the value
returned. -/
structure Initialized where
  proc : Processor
  pixiv_api_ : ApiClient
  tag_pool_ : Option ThreadPool
  note_pool_ : Option ThreadPool
  result : Bool

/-- `Processor::initialize` in the order of its statements: the schema
variant, the API client, the tag pool and the note pool for the enabled
pipelines (the thread counts are `int`s converted to `size_t`), `load_cache`,
`return true`. `none` when the construction of a pool leaves it by an error. -/
def initialize_from_store (p : Processor) (store : StoreReads) (granted : Pipeline → Bool) :
    Option Initialized :=
  let pixiv_api_ : ApiClient := ⟨p.config_⟩
  let tag_pool :=
    if p.config_.write_tag then
      (ThreadPool.construct (toSizeT p.config_.tag_thread_count) (granted Pipeline.tag)).map some
    else some none
  match tag_pool with
  | none => none
  | some tag_pool_ =>
    let note_pool :=
      if p.config_.write_note then
        (ThreadPool.construct (toSizeT p.config_.note_thread_count)
          (granted Pipeline.note)).map some
      else some none
    match note_pool with
    | none => none
    | some note_pool_ =>
      some ⟨initialize_processor p store.is_version_3
          (Database.get_tags store.tags_ok store.tags)
          (Database.get_tag_join_files store.tag_joins_ok store.tag_joins)
          (Database.get_notes store.notes_ok store.notes),
        pixiv_api_, tag_pool_, note_pool_, true⟩

/-- A unit handed to `enqueue` by `run`: `process_tag_task` or
`process_note_task` with its arguments. -/
structure Submission where
  pipeline : Pipeline
  file : FileRecord
  index : Int
  total : Int
  deriving DecidableEq

/-- The submission loop of `run` from position `i` on: a unit for a pipeline
that is enabled and has its pool. -/
def submit_loop (config : Config) (tag_pool_ note_pool_ : Option ThreadPool) (total : Int) :
    Nat → List FileRecord → List Submission
  | _, [] => []
  | i, file :: rest =>
    (if config.write_tag && tag_pool_.isSome then
        [⟨Pipeline.tag, file, wrap32 (i + 1), total⟩] else []) ++
    (if config.write_note && note_pool_.isSome then
        [⟨Pipeline.note, file, wrap32 (i + 1), total⟩] else []) ++
    submit_loop config tag_pool_ note_pool_ total (i + 1) rest

/-- How `run` ends: with a return value, by an error that leaves it, or not at
all, waiting for a future that never becomes ready. -/
inductive RunResult where
  | returned (value : Bool)
  | raised
  | blocked
  deriving DecidableEq

/-- Whether the pool exists and has a worker thread. -/
def has_worker : Option ThreadPool → Bool
  | some pool => !pool.workers_.isEmpty
  | none => false

/-- The loop `for (auto& future : futures) future.get()` over the futures of
the submissions, in order: how the loop ends early (`none` when every `get`
returned) and the number of futures whose `get` returned. The future of a unit
becomes ready when a worker of its pool has run it; `get` then returns, or
rethrows the error that the unit raised. In a pool without workers no unit is
ever run. -/
def get_loop (workers : Pipeline → Bool) (raises : Submission → Bool) :
    List Submission → Option RunResult × Nat
  | [] => (none, 0)
  | s :: rest =>
    if !workers s.pipeline then (some RunResult.blocked, 0)
    else if raises s then (some RunResult.raised, 0)
    else ((get_loop workers raises rest).1, (get_loop workers raises rest).2 + 1)

/-- What `run` did: how it ended, the processor at that point (after
`initialize` if that returned), the units submitted in order, the number of
futures whose `get` returned, and whether the part after the waits was reached
(the forced flushes, the statistics and the restructuring). -/
structure RunReport where
  result : RunResult
  proc : Processor
  submitted : List Submission
  awaited : Nat
  finalized : Bool

/-- `Processor::run`. An error in `initialize` leaves `run` as well. -/
def Processor.run (config : Config) (store : StoreReads) (granted : Pipeline → Bool)
    (raises : Submission → Bool) : RunReport :=
  match initialize_from_store (Processor.init config) store granted with
  | none =>
    ⟨RunResult.raised, { Processor.init config with is_v3_db_ := store.is_version_3 }, [], 0,
      false⟩
  | some init =>
    if !init.result then ⟨RunResult.returned false, init.proc, [], 0, false⟩
    else
      let files := Database.get_files store.files_ok store.files
      if files.isEmpty then ⟨RunResult.returned true, init.proc, [], 0, false⟩
      else
        let submitted :=
          submit_loop config init.tag_pool_ init.note_pool_ (wrap32 files.length) 0 files
        let waited :=
          get_loop
            (fun pipeline =>
              match pipeline with
              | Pipeline.tag => has_worker init.tag_pool_
              | Pipeline.note => has_worker init.note_pool_)
            raises submitted
        match waited.1 with
        | some ending => ⟨ending, init.proc, submitted, waited.2, false⟩
        | none => ⟨RunResult.returned true, init.proc, submitted, waited.2, true⟩

/-- The store with the same files whose tables of tags, associations and notes
can be read and are empty. -/
def StoreReads.without_rows (store : StoreReads) : StoreReads :=
  { store with
    tags_ok := true, tags := [], tag_joins_ok := true, tag_joins := [],
    notes_ok := true, notes := [] }

/-- A store whose three warm-up reads fail while the file list can be read. -/
def unreadable_warmup : StoreReads :=
  ⟨false, false, [⟨7, "Cat".toList⟩], false, [⟨3, 7⟩], false, [], true,
    [⟨1, "12345-1.jpg".toList⟩]⟩

/-- A store none of whose reads can be prepared. -/
def unreachable_store : StoreReads :=
  ⟨false, false, [⟨7, "Cat".toList⟩], false, [⟨3, 7⟩], false, [], false,
    [⟨1, "12345-1.jpg".toList⟩]⟩

/-- A store with two files and no tags. -/
def two_files : StoreReads :=
  ⟨false, true, [], true, [], true, [], true,
    [⟨1, "12345-1.jpg".toList⟩, ⟨2, "67890_2.png".toList⟩]⟩

/-- The unit of work for the tag task of file 1 raises an error, no other does. -/
def first_tag_task_raises (s : Submission) : Bool :=
  decide (s.pipeline = Pipeline.tag) && decide (s.file.id = 1)

/-- A system that provides every pool asked for. -/
def every_pool (pipeline : Pipeline) : Bool := true

/-- The cache key through which the loop body of `add_tags_to_buffer` resolves
`tag` in the state `p`: the name without `Artist:` when the prefix-stripped
probe of `check_tag_exist` hits, else the name itself (looked up, or entered
with a new id). -/
def resolve_key (p : Processor) (tag : Str) : Str :=
  if p.is_v3_db_ && decide (str_find tag "Artist:".toList 0 = some 0) then
    match TagCache.find p.tag_cache_ (substr_from tag 7) with
    | some _ => substr_from tag 7
    | none => tag
  else tag

/-- The cache keys through which one call of `add_tags_to_buffer` resolves
`tags`, in list order: each tag is resolved in the state left by the tags
before it. -/
def resolved_keys (file_id : Int) : Processor → List Str → List Str
  | _, [] => []
  | p, tag :: rest => resolve_key p tag :: resolved_keys file_id (add_tag file_id p tag) rest

/-- A hierarchical store that holds the tag `Alice` with id 3. -/
def alice_start : Processor :=
  initialize_processor (Processor.init {}) true [⟨3, "Alice".toList⟩] [] []

/-- The first half of `Processor::update_artist_tags`, up to the parent id: the
table after it and the id obtained, `none` when the run ends there. -/
def artist_parent (a : StoreAnswers) (table : TagTable) : TagTable × Option Int :=
  match Database.get_artist_tag_id a.get_id_ok table with
  | some artist_id => (table, some artist_id)
  | none =>
    let created := Database.create_artist_tag a.create_ok a.row_id a.row_pid table
    if !created.2 then (created.1, none)
    else (created.1, Database.get_artist_tag_id a.get_id_again_ok created.1)

/-- A table whose row `Artist` has the id 0. -/
def parent_zero : TagTable :=
  [⟨0, "Artist".toList, none⟩, ⟨1, "Artist:Artist:x".toList, none⟩]

/-- A table in which the row `Artist` and an ungrouped tag have the same id. -/
def shared_parent_id : TagTable :=
  [⟨5, "Artist".toList, none⟩, ⟨5, "Artist:x".toList, none⟩]

/-- Answers of a store that cannot prepare the batch update and runs every
other statement. -/
def refusing_update : StoreAnswers := ⟨true, true, 9, none, true, true, false, fun _ => true⟩

/-- Answers of a store that cannot prepare the first lookup of the parent and
runs every other statement, giving a new row the id 10. -/
def failing_lookup : StoreAnswers := ⟨false, true, 10, none, true, true, true, fun _ => true⟩

/-- A table whose row `Artist` has the id 0 and whose ungrouped tag loses the
pattern with its prefix. -/
def zero_parent_names : TagTable :=
  [⟨0, "Artist".toList, none⟩, ⟨1, "Artist:Alice".toList, none⟩]

/-! ## Basic facts about the tag cache -/

theorem TagCache.find_set_self (c : TagCache) (k : Str) (v : Int) :
    TagCache.find (TagCache.set c k v) k = some v := by
  induction c with
  | nil => simp [TagCache.set, TagCache.find]
  | cons e rest ih =>
    obtain ⟨k', v'⟩ := e
    by_cases h : k' = k
    · simp [TagCache.set, TagCache.find, h]
    · simp [TagCache.set, TagCache.find, h, ih]

theorem TagCache.find_set_ne (c : TagCache) {k k' : Str} (v : Int) (h : k ≠ k') :
    TagCache.find (TagCache.set c k v) k' = TagCache.find c k' := by
  induction c with
  | nil => simp [TagCache.set, TagCache.find, h]
  | cons e rest ih =>
    obtain ⟨k0, v0⟩ := e
    by_cases h0 : k0 = k
    · subst h0
      simp [TagCache.set, TagCache.find, h]
    · by_cases h1 : k0 = k'
      · subst h1
        simp [TagCache.set, TagCache.find, h0]
      · simp [TagCache.set, TagCache.find, h0, h1, ih]

theorem TagCache.set_of_find_none {c : TagCache} {k : Str} (v : Int)
    (h : TagCache.find c k = none) : TagCache.set c k v = c ++ [(k, v)] := by
  induction c with
  | nil => simp [TagCache.set]
  | cons e rest ih =>
    obtain ⟨k0, v0⟩ := e
    by_cases h0 : k0 = k
    · simp [TagCache.find, h0] at h
    · simp only [TagCache.find, h0, if_false] at h
      simp [TagCache.set, h0, ih h]

theorem TagCache.mem_of_find {c : TagCache} {k : Str} {v : Int}
    (h : TagCache.find c k = some v) : (k, v) ∈ c := by
  induction c with
  | nil => simp [TagCache.find] at h
  | cons e rest ih =>
    obtain ⟨k0, v0⟩ := e
    by_cases h0 : k0 = k
    · simp only [TagCache.find, h0, if_true, Option.some.injEq] at h
      simp [h0, h]
    · simp only [TagCache.find, h0, if_false] at h
      exact List.mem_cons_of_mem _ (ih h)

/-- The running maximum of `generate_tag_id` bounds every id it has seen and
never drops below its start value. -/
theorem max_id_fold (c : TagCache) (m0 : Int) :
    m0 ≤ c.foldl (fun max_id e => if e.2 > max_id then e.2 else max_id) m0 ∧
    ∀ e ∈ c, e.2 ≤ c.foldl (fun max_id e => if e.2 > max_id then e.2 else max_id) m0 := by
  induction c generalizing m0 with
  | nil => simp
  | cons e rest ih =>
    simp only [List.foldl_cons, List.mem_cons, forall_eq_or_imp]
    have hm : m0 ≤ (if e.2 > m0 then e.2 else m0) ∧ e.2 ≤ (if e.2 > m0 then e.2 else m0) := by
      split <;> omega
    generalize (if e.2 > m0 then e.2 else m0) = m1 at hm
    obtain ⟨h1, h2⟩ := ih m1
    exact ⟨by omega, by omega, h2⟩

/-- A miss of `check_tag_exist` means the name itself is not a key of the cache. -/
theorem find_none_of_check_tag_exist {p : Processor} {tag : Str}
    (h : check_tag_exist p tag = none) : TagCache.find p.tag_cache_ tag = none := by
  simp only [check_tag_exist] at h
  split at h
  · split at h
    · simp at h
    · exact h
  · exact h

/-- A hit of `check_tag_exist` returns a value stored in the cache. -/
theorem mem_of_check_tag_exist {p : Processor} {tag : Str} {id : Int}
    (h : check_tag_exist p tag = some id) : ∃ e ∈ p.tag_cache_, e.2 = id := by
  simp only [check_tag_exist] at h
  split at h
  · split at h
    · rename_i id' hs
      simp only [Option.some.injEq] at h
      exact ⟨_, TagCache.mem_of_find hs, h⟩
    · exact ⟨_, TagCache.mem_of_find h, rfl⟩
  · exact ⟨_, TagCache.mem_of_find h, rfl⟩

/-! ## Induction over runs -/

theorem run_nil (p : Processor) : run p [] = (p, []) := rfl

theorem run_snoc (p : Processor) (ops : List Op) (op : Op) :
    run p (ops ++ [op]) =
      ((step (run p ops).1 op).1, (run p ops).2 ++ (step (run p ops).1 op).2) := by
  simp [run, List.foldl_append]

theorem Stable.of_add_tags {P : Processor → List Event → Prop} (hP : Stable P)
    (q : Processor) (evs : List Event) (file_id : Int) (tags : List Str) (h : P q evs) :
    P (add_tags_to_buffer q file_id tags) evs := by
  unfold add_tags_to_buffer
  induction tags generalizing q with
  | nil => simpa using h
  | cons t rest ih => exact ih _ (hP.add_tag q evs file_id t h)

theorem Stable.of_task {P : Processor → List Event → Prop} (hP : Stable P)
    (q : Processor) (evs : List Event) (file : FileRecord) (index total : Int)
    (get_tags : Str → Option (List Str)) (ok1 ok2 : Bool) (h : P q evs) :
    P (process_tag_task q file index total get_tags ok1 ok2).1
      (evs ++ (process_tag_task q file index total get_tags ok1 ok2).2) := by
  have h1 := hP.tag_stats q evs { q.tag_stats_ with total_count := incr q.tag_stats_.total_count } h
  have hfail := fun evs' (h' : P { q with tag_stats_ :=
      { q.tag_stats_ with total_count := incr q.tag_stats_.total_count } } evs') =>
    hP.tag_stats _ evs' (Statistics.mk (incr q.tag_stats_.total_count) q.tag_stats_.success_count
      (incr q.tag_stats_.fail_count) q.tag_stats_.skip_count) h'
  unfold process_tag_task
  dsimp only
  split
  · simpa using hfail _ h1
  · rename_i pid _
    split
    · simpa using hP.tag_stats _ evs (Statistics.mk (incr q.tag_stats_.total_count)
        q.tag_stats_.success_count q.tag_stats_.fail_count (incr q.tag_stats_.skip_count)) h1
    · have h2 := hP.fetched _ _ pid h1
      split
      · simpa using hfail _ h2
      · rename_i tags _
        split
        · simpa using hfail _ h2
        · have h3 := hP.of_add_tags _ _ file.id tags h2
          have h4 := hP.tag_stats _ _
            { (add_tags_to_buffer { q with tag_stats_ :=
                { q.tag_stats_ with total_count := incr q.tag_stats_.total_count } }
                file.id tags).tag_stats_ with
              success_count := incr (add_tags_to_buffer { q with tag_stats_ :=
                { q.tag_stats_ with total_count := incr q.tag_stats_.total_count } }
                file.id tags).tag_stats_.success_count } h3
          have h5 := hP.flush_tag _ _ false ok1 h4
          have h6 := hP.flush_tag_join _ _ false ok2 h5
          simpa [List.append_assoc] using h6

theorem Stable.of_step {P : Processor → List Event → Prop} (hP : Stable P)
    (q : Processor) (evs : List Event) (op : Op) (h : P q evs) :
    P (step q op).1 (evs ++ (step q op).2) := by
  cases op with
  | add_tags file_id tags => simpa [step] using hP.of_add_tags q evs file_id tags h
  | add_note file_id note origin => simpa [step] using hP.add_note q evs file_id note origin h
  | flush_tag force ok => exact hP.flush_tag q evs force ok h
  | flush_tag_join force ok => exact hP.flush_tag_join q evs force ok h
  | flush_note force ok => exact hP.flush_note q evs force ok h
  | tag_task file index total get_tags ok1 ok2 =>
    exact hP.of_task q evs file index total get_tags ok1 ok2 h

/-- Induction over a run: a stable property of the start holds at the end. -/
theorem Stable.of_run {P : Processor → List Event → Prop} (hP : Stable P)
    (p : Processor) (ops : List Op) (h : P p []) : P (run p ops).1 (run p ops).2 := by
  induction ops using List.reverseRecOn with
  | nil => simpa [run_nil] using h
  | append_singleton ops op ih =>
    rw [run_snoc]
    exact hP.of_step _ _ op ih

/-! ## What each operation leaves alone -/

theorem flush_tag_buffer_cases (q : Processor) (force ok : Bool) :
    flush_tag_buffer q force ok = ⟨q, true, []⟩ ∨
    (q.pending_tags_ ≠ [] ∧ flush_tag_buffer q force ok =
      ⟨q, false, [Event.insert_tags q.pending_tags_ q.is_v3_db_ false]⟩) ∨
    (q.pending_tags_ ≠ [] ∧ flush_tag_buffer q force ok =
      ⟨{ q with pending_tags_ := [] }, true,
        [Event.insert_tags q.pending_tags_ q.is_v3_db_ true]⟩) := by
  unfold flush_tag_buffer
  split
  · exact Or.inl rfl
  · rename_i hg
    have hne : q.pending_tags_ ≠ [] := by
      intro h0; simp [h0] at hg
    cases ok <;> simp [Database.insert_tags, hne]

theorem flush_tag_join_buffer_cases (q : Processor) (force ok : Bool) :
    flush_tag_join_buffer q force ok = ⟨q, true, []⟩ ∨
    (q.pending_tag_joins_ ≠ [] ∧ flush_tag_join_buffer q force ok =
      ⟨q, false, [Event.insert_tag_join_files q.pending_tag_joins_ false]⟩) ∨
    (q.pending_tag_joins_ ≠ [] ∧ flush_tag_join_buffer q force ok =
      ⟨{ q with
          existing_file_tags_ :=
            q.pending_tag_joins_.foldl (fun s join => insert join.file_id s) q.existing_file_tags_
          pending_tag_joins_ := [] }, true,
        [Event.insert_tag_join_files q.pending_tag_joins_ true]⟩) := by
  unfold flush_tag_join_buffer
  split
  · exact Or.inl rfl
  · rename_i hg
    have hne : q.pending_tag_joins_ ≠ [] := by
      intro h0; simp [h0] at hg
    cases ok <;> simp [Database.insert_tag_join_files, hne]

theorem flush_note_buffer_cases (q : Processor) (force ok : Bool) :
    flush_note_buffer q force ok = ⟨q, true, []⟩ ∨
    (q.pending_notes_ ≠ [] ∧ flush_note_buffer q force ok =
      ⟨q, false, [Event.insert_notes q.pending_notes_ false]⟩) ∨
    (q.pending_notes_ ≠ [] ∧ flush_note_buffer q force ok =
      ⟨{ q with
          existing_file_notes_ :=
            q.pending_notes_.foldl (fun s note => insert note.file_id s) q.existing_file_notes_
          pending_notes_ := [] }, true,
        [Event.insert_notes q.pending_notes_ true]⟩) := by
  unfold flush_note_buffer
  split
  · exact Or.inl rfl
  · rename_i hg
    have hne : q.pending_notes_ ≠ [] := by
      intro h0; simp [h0] at hg
    cases ok <;> simp [Database.insert_notes, hne]

theorem delivered_tags_append (a b : List Event) :
    delivered_tags (a ++ b) = delivered_tags a ++ delivered_tags b := by
  induction a with
  | nil => simp [delivered_tags]
  | cons e rest ih =>
    cases e with
    | insert_tags tags v3 result => cases result <;> simp [delivered_tags, ih]
    | get_tags pid => simp [delivered_tags, ih]
    | insert_tag_join_files records result => simp [delivered_tags, ih]
    | insert_notes notes result => simp [delivered_tags, ih]

/-- A flush of the tag buffer moves rows from the buffer to the store or moves
nothing: delivered rows followed by pending rows stay the same list. -/
theorem all_tags_flush_tag (q : Processor) (evs : List Event) (force ok : Bool) :
    all_tags (flush_tag_buffer q force ok).proc (evs ++ (flush_tag_buffer q force ok).events) =
      all_tags q evs := by
  rcases flush_tag_buffer_cases q force ok with h | ⟨_, h⟩ | ⟨_, h⟩ <;>
    simp [h, all_tags, delivered_tags_append, delivered_tags]

theorem all_tags_flush_tag_join (q : Processor) (evs : List Event) (force ok : Bool) :
    all_tags (flush_tag_join_buffer q force ok).proc
      (evs ++ (flush_tag_join_buffer q force ok).events) = all_tags q evs := by
  rcases flush_tag_join_buffer_cases q force ok with h | ⟨_, h⟩ | ⟨_, h⟩ <;>
    simp [h, all_tags, delivered_tags_append, delivered_tags]

theorem all_tags_flush_note (q : Processor) (evs : List Event) (force ok : Bool) :
    all_tags (flush_note_buffer q force ok).proc
      (evs ++ (flush_note_buffer q force ok).events) = all_tags q evs := by
  rcases flush_note_buffer_cases q force ok with h | ⟨_, h⟩ | ⟨_, h⟩ <;>
    simp [h, all_tags, delivered_tags_append, delivered_tags]

theorem tag_cache_flush_tag (q : Processor) (force ok : Bool) :
    (flush_tag_buffer q force ok).proc.tag_cache_ = q.tag_cache_ ∧
    (flush_tag_buffer q force ok).proc.is_v3_db_ = q.is_v3_db_ ∧
    (flush_tag_buffer q force ok).proc.pending_tag_joins_ = q.pending_tag_joins_ := by
  rcases flush_tag_buffer_cases q force ok with h | ⟨_, h⟩ | ⟨_, h⟩ <;> simp [h]

theorem tag_cache_flush_tag_join (q : Processor) (force ok : Bool) :
    (flush_tag_join_buffer q force ok).proc.tag_cache_ = q.tag_cache_ ∧
    (flush_tag_join_buffer q force ok).proc.is_v3_db_ = q.is_v3_db_ ∧
    (flush_tag_join_buffer q force ok).proc.pending_tags_ = q.pending_tags_ := by
  rcases flush_tag_join_buffer_cases q force ok with h | ⟨_, h⟩ | ⟨_, h⟩ <;> simp [h]

theorem tag_cache_flush_note (q : Processor) (force ok : Bool) :
    (flush_note_buffer q force ok).proc.tag_cache_ = q.tag_cache_ ∧
    (flush_note_buffer q force ok).proc.is_v3_db_ = q.is_v3_db_ ∧
    (flush_note_buffer q force ok).proc.pending_tags_ = q.pending_tags_ ∧
    (flush_note_buffer q force ok).proc.pending_tag_joins_ = q.pending_tag_joins_ := by
  rcases flush_note_buffer_cases q force ok with h | ⟨_, h⟩ | ⟨_, h⟩ <;> simp [h]

/-- The loop body on a hit and on a miss. -/
theorem add_tag_cases (file_id : Int) (q : Processor) (tag : Str) :
    (∃ id, check_tag_exist q tag = some id ∧
      add_tag file_id q tag =
        { q with pending_tag_joins_ := q.pending_tag_joins_ ++ [⟨file_id, id⟩] }) ∨
    (check_tag_exist q tag = none ∧
      add_tag file_id q tag =
        { q with
          pending_tags_ := q.pending_tags_ ++ [⟨generate_tag_id q, tag⟩]
          pending_tag_joins_ := q.pending_tag_joins_ ++ [⟨file_id, generate_tag_id q⟩]
          tag_cache_ := q.tag_cache_ ++ [(tag, generate_tag_id q)] }) := by
  unfold add_tag
  split
  · rename_i id h
    exact Or.inl ⟨id, h, rfl⟩
  · rename_i h
    refine Or.inr ⟨h, ?_⟩
    simp [TagCache.set_of_find_none _ (find_none_of_check_tag_exist h)]

/-! ## The cache only grows -/

theorem TagCache.find_append_of_none {c : TagCache} {k : Str} (v : Int)
    (h : TagCache.find c k = none) (k' : Str) (v' : Int)
    (h' : TagCache.find c k' = some v') : TagCache.find (c ++ [(k, v)]) k' = some v' := by
  rw [← TagCache.set_of_find_none v h]
  by_cases hk : k = k'
  · subst hk
    rw [h] at h'
    exact absurd h' (by simp)
  · rw [TagCache.find_set_ne c v hk]
    exact h'

theorem Grows.of_add_tag (file_id : Int) (q : Processor) (tag : Str) :
    Grows q (add_tag file_id q tag) := by
  rcases add_tag_cases file_id q tag with ⟨id, _, h⟩ | ⟨hm, h⟩
  · rw [h]; exact ⟨rfl, fun k v hk => hk⟩
  · rw [h]
    exact ⟨rfl, fun k v hk =>
      TagCache.find_append_of_none _ (find_none_of_check_tag_exist hm) k v hk⟩

theorem Grows.trans {p q r : Processor} (h1 : Grows p q) (h2 : Grows q r) : Grows p r :=
  ⟨h2.1.trans h1.1, fun k v hk => h2.2 k v (h1.2 k v hk)⟩

theorem stable_grows (p : Processor) : Stable (fun q _ => Grows p q) where
  add_tag := fun q _ file_id tag h => h.trans (Grows.of_add_tag file_id q tag)
  add_note := fun q _ _ _ _ h => h
  flush_tag := fun q _ force ok h => by
    obtain ⟨h1, h2, _⟩ := tag_cache_flush_tag q force ok
    exact ⟨h2.trans h.1, fun k v hk => by rw [h1]; exact h.2 k v hk⟩
  flush_tag_join := fun q _ force ok h => by
    obtain ⟨h1, h2, _⟩ := tag_cache_flush_tag_join q force ok
    exact ⟨h2.trans h.1, fun k v hk => by rw [h1]; exact h.2 k v hk⟩
  flush_note := fun q _ force ok h => by
    obtain ⟨h1, h2, _⟩ := tag_cache_flush_note q force ok
    exact ⟨h2.trans h.1, fun k v hk => by rw [h1]; exact h.2 k v hk⟩
  tag_stats := fun _ _ _ h => h
  fetched := fun _ _ _ h => h

theorem grows_run (p : Processor) (ops : List Op) : Grows p (run p ops).1 :=
  (stable_grows p).of_run p ops ⟨rfl, fun _ _ h => h⟩

/-! ## Resolving a name twice -/

/-- Where the prefix-stripped probe does not apply or misses, `check_tag_exist`
is the plain lookup of the name. -/
theorem check_tag_exist_eq_find (q : Processor) (name : Str)
    (h : q.is_v3_db_ = true → str_find name "Artist:".toList 0 = some 0 →
      TagCache.find q.tag_cache_ (substr_from name 7) = none) :
    check_tag_exist q name = TagCache.find q.tag_cache_ name := by
  simp only [check_tag_exist]
  split
  · rename_i hc
    simp only [Bool.and_eq_true, decide_eq_true_eq] at hc
    rw [h hc.1 hc.2]
  · rfl

/-- Where the prefix-stripped probe applies and hits, its value is the result. -/
theorem check_tag_exist_of_simple (q : Processor) (name : Str) (id : Int)
    (h1 : q.is_v3_db_ = true) (h2 : str_find name "Artist:".toList 0 = some 0)
    (h3 : TagCache.find q.tag_cache_ (substr_from name 7) = some id) :
    check_tag_exist q name = some id := by
  simp only [check_tag_exist, h1, h2, h3, decide_True, Bool.and_self, if_true]

/-- The association appended by resolving one name is decided by
`check_tag_exist` at that moment. -/
theorem joins_add_one (q : Processor) (file_id : Int) (name : Str) (id : Int)
    (h : check_tag_exist q name = some id) :
    (add_tags_to_buffer q file_id [name]).pending_tag_joins_ =
      q.pending_tag_joins_ ++ [⟨file_id, id⟩] := by
  simp [add_tags_to_buffer, add_tag, h]

/-- C1 (as amended): two resolutions of the same tag name, by the same or by
different files and with any operations of the run in between, append
Associations with the same tag id, on a legacy store for every name and on a
hierarchical store for every name that does not start with `Artist:`; for a
name `Artist:`+s on a hierarchical store they do so provided s was in the cache
at the first resolution or is still absent from it at the second. The first
resolution is at an arbitrary state `p`, so it may stand anywhere inside a call
of `add_tags_to_buffer`; the rest of that call is part of `ops`. -/
theorem same_name_same_id (p : Processor) (file_id1 file_id2 : Int) (name : Str) (ops : List Op)
    (h : p.is_v3_db_ = true → str_find name "Artist:".toList 0 = some 0 →
      TagCache.find p.tag_cache_ (substr_from name 7) = none →
      TagCache.find (run (add_tags_to_buffer p file_id1 [name]) ops).1.tag_cache_
        (substr_from name 7) = none) :
    ∃ id,
      (add_tags_to_buffer p file_id1 [name]).pending_tag_joins_ =
        p.pending_tag_joins_ ++ [⟨file_id1, id⟩] ∧
      (add_tags_to_buffer (run (add_tags_to_buffer p file_id1 [name]) ops).1 file_id2
          [name]).pending_tag_joins_ =
        (run (add_tags_to_buffer p file_id1 [name]) ops).1.pending_tag_joins_ ++
          [⟨file_id2, id⟩] := by
  have hg := grows_run (add_tags_to_buffer p file_id1 [name]) ops
  have hone : add_tags_to_buffer p file_id1 [name] = add_tag file_id1 p name := by
    simp [add_tags_to_buffer]
  rw [hone] at hg h ⊢
  generalize (run (add_tag file_id1 p name) ops).1 = q at hg h ⊢
  rcases add_tag_cases file_id1 p name with ⟨id, hhit, heq⟩ | ⟨hmiss, heq⟩
  · -- the first resolution is a hit
    refine ⟨id, by rw [heq], joins_add_one q file_id2 name id ?_⟩
    have hv3 : q.is_v3_db_ = p.is_v3_db_ := by rw [hg.1, heq]
    have hmono : ∀ k v, TagCache.find p.tag_cache_ k = some v →
        TagCache.find q.tag_cache_ k = some v := by
      intro k v hk
      apply hg.2
      rw [heq]
      exact hk
    by_cases hart : p.is_v3_db_ = true ∧ str_find name "Artist:".toList 0 = some 0
    · cases hs : TagCache.find p.tag_cache_ (substr_from name 7) with
      | some id' =>
        have : check_tag_exist p name = some id' :=
          check_tag_exist_of_simple p name id' hart.1 hart.2 hs
        rw [this] at hhit
        rw [← Option.some.inj hhit]
        exact check_tag_exist_of_simple q name id' (hv3.trans hart.1) hart.2 (hmono _ _ hs)
      | none =>
        rw [check_tag_exist_eq_find p name (fun _ _ => hs)] at hhit
        rw [check_tag_exist_eq_find q name (fun _ _ => h hart.1 hart.2 hs)]
        exact hmono _ _ hhit
    · rw [check_tag_exist_eq_find p name (fun h1 h2 => absurd ⟨h1, h2⟩ hart)] at hhit
      rw [check_tag_exist_eq_find q name
        (fun h1 h2 => absurd ⟨hv3 ▸ h1, h2⟩ hart)]
      exact hmono _ _ hhit
  · -- the first resolution creates the tag
    refine ⟨generate_tag_id p, by rw [heq], joins_add_one q file_id2 name _ ?_⟩
    have hv3 : q.is_v3_db_ = p.is_v3_db_ := by rw [hg.1, heq]
    have hnew : TagCache.find q.tag_cache_ name = some (generate_tag_id p) := by
      apply hg.2
      rw [heq]
      have := TagCache.find_set_self p.tag_cache_ name (generate_tag_id p)
      rwa [TagCache.set_of_find_none _ (find_none_of_check_tag_exist hmiss)] at this
    rw [check_tag_exist_eq_find q name ?_]
    · exact hnew
    · intro h1 h2
      have h1' : p.is_v3_db_ = true := hv3 ▸ h1
      apply h h1' h2
      cases hs : TagCache.find p.tag_cache_ (substr_from name 7) with
      | none => rfl
      | some id' =>
        have := check_tag_exist_of_simple p name id' h1' h2 hs
        rw [hmiss] at this
        cases this

/-- C1, instance of the amended claim (Scenario B on a hierarchical store):
files 1 and 2 both resolve `Artist:Alice`, file 1 resolves `Cat` in between. -/
theorem same_name_same_id_witness :
    (hierarchical_start.is_v3_db_ = true →
      str_find "Artist:Alice".toList "Artist:".toList 0 = some 0 →
      TagCache.find hierarchical_start.tag_cache_ (substr_from "Artist:Alice".toList 7) = none →
      TagCache.find (run (add_tags_to_buffer hierarchical_start 1 ["Artist:Alice".toList])
        [Op.add_tags 1 ["Cat".toList]]).1.tag_cache_
        (substr_from "Artist:Alice".toList 7) = none) ∧
    ∃ id,
      (add_tags_to_buffer hierarchical_start 1 ["Artist:Alice".toList]).pending_tag_joins_ =
        hierarchical_start.pending_tag_joins_ ++ [⟨1, id⟩] ∧
      (add_tags_to_buffer (run (add_tags_to_buffer hierarchical_start 1 ["Artist:Alice".toList])
          [Op.add_tags 1 ["Cat".toList]]).1 2 ["Artist:Alice".toList]).pending_tag_joins_ =
        (run (add_tags_to_buffer hierarchical_start 1 ["Artist:Alice".toList])
          [Op.add_tags 1 ["Cat".toList]]).1.pending_tag_joins_ ++ [⟨2, id⟩] :=
  ⟨by decide, same_name_same_id _ 1 2 _ _ (by decide)⟩

/-- C1 as stated fails on a hierarchical store: file 1 resolves `Artist:Alice`
(a new tag, id 1); file 2, whose tag list is `Alice`, `Artist:Alice`, first
creates the tag `Alice` (id 2) and then resolves `Artist:Alice` through the
prefix-stripped probe to id 2. No single id fits both Associations of
`Artist:Alice`. -/
theorem same_name_two_ids :
    ¬ ∃ id,
      (add_tags_to_buffer hierarchical_start 1 ["Artist:Alice".toList]).pending_tag_joins_ =
        hierarchical_start.pending_tag_joins_ ++ [⟨1, id⟩] ∧
      (add_tags_to_buffer (run (add_tags_to_buffer hierarchical_start 1 ["Artist:Alice".toList])
          [Op.add_tags 2 ["Alice".toList]]).1 2 ["Artist:Alice".toList]).pending_tag_joins_ =
        (run (add_tags_to_buffer hierarchical_start 1 ["Artist:Alice".toList])
          [Op.add_tags 2 ["Alice".toList]]).1.pending_tag_joins_ ++ [⟨2, id⟩] := by
  rintro ⟨id, h1, h2⟩
  have e0 : hierarchical_start.pending_tag_joins_ = [] := by decide
  have e1 : (add_tags_to_buffer hierarchical_start 1
      ["Artist:Alice".toList]).pending_tag_joins_ = [⟨1, 1⟩] := by decide
  have e2 : (add_tags_to_buffer (run (add_tags_to_buffer hierarchical_start 1
      ["Artist:Alice".toList]) [Op.add_tags 2 ["Alice".toList]]).1 2
      ["Artist:Alice".toList]).pending_tag_joins_ = [⟨1, 1⟩, ⟨2, 2⟩, ⟨2, 2⟩] := by decide
  have e3 : (run (add_tags_to_buffer hierarchical_start 1 ["Artist:Alice".toList])
      [Op.add_tags 2 ["Alice".toList]]).1.pending_tag_joins_ = [⟨1, 1⟩, ⟨2, 2⟩] := by decide
  rw [e1, e0] at h1
  rw [e2, e3] at h2
  simp at h1 h2
  omega

/-! ## One tag row per name -/

theorem all_tags_add_tag_hit {q : Processor} (file_id : Int) {tag : Str} {id : Int}
    (evs : List Event) (h : check_tag_exist q tag = some id) :
    all_tags (add_tag file_id q tag) evs = all_tags q evs ∧
    (add_tag file_id q tag).tag_cache_ = q.tag_cache_ := by
  simp [add_tag, h, all_tags]

theorem all_tags_add_tag_miss {q : Processor} (file_id : Int) {tag : Str}
    (evs : List Event) (h : check_tag_exist q tag = none) :
    all_tags (add_tag file_id q tag) evs = all_tags q evs ++ [⟨generate_tag_id q, tag⟩] ∧
    (add_tag file_id q tag).tag_cache_ = q.tag_cache_ ++ [(tag, generate_tag_id q)] := by
  rcases add_tag_cases file_id q tag with ⟨id, h', _⟩ | ⟨_, heq⟩
  · rw [h] at h'; cases h'
  · rw [heq]; simp [all_tags]

theorem stable_fresh_names (p : Processor) : Stable (FreshNames p) where
  add_tag := by
    rintro q evs file_id tag ⟨hg, new, hall, hnd, hp, hq⟩
    have hg' := Grows.of_add_tag file_id q tag
    cases hc : check_tag_exist q tag with
    | some id =>
      obtain ⟨h1, h2⟩ := all_tags_add_tag_hit file_id evs hc
      exact ⟨hg.trans hg', new, by rw [h1, hall], hnd, hp, fun r hr => by rw [h2]; exact hq r hr⟩
    | none =>
      obtain ⟨h1, h2⟩ := all_tags_add_tag_miss file_id evs hc
      have hnone := find_none_of_check_tag_exist hc
      refine ⟨hg.trans hg', new ++ [⟨generate_tag_id q, tag⟩], ?_, ?_, ?_, ?_⟩
      · rw [h1, hall, List.append_assoc]
      · rw [List.map_append, List.nodup_append]
        refine ⟨hnd, by simp, ?_⟩
        intro a ha hb
        simp only [List.map_cons, List.map_nil, List.mem_singleton] at hb
        obtain ⟨r, hr, rfl⟩ := List.mem_map.1 ha
        exact hq r hr (hb ▸ hnone)
      · intro r hr
        rcases List.mem_append.1 hr with hr | hr
        · exact hp r hr
        · simp only [List.mem_singleton] at hr
          subst hr
          cases hf : TagCache.find p.tag_cache_ tag with
          | none => rfl
          | some v => rw [hg.2 _ _ hf] at hnone; cases hnone
      · intro r hr
        rcases List.mem_append.1 hr with hr | hr
        · cases hf : TagCache.find q.tag_cache_ r.name with
          | none => exact absurd hf (hq r hr)
          | some v => rw [hg'.2 _ _ hf]; simp
        · simp only [List.mem_singleton] at hr
          subst hr
          rw [h2, ← TagCache.set_of_find_none _ hnone, TagCache.find_set_self]
          simp
  add_note := fun q evs _ _ _ h => h
  flush_tag := by
    rintro q evs force ok ⟨hg, new, hall, hnd, hp, hq⟩
    obtain ⟨h1, h2, _⟩ := tag_cache_flush_tag q force ok
    exact ⟨⟨h2.trans hg.1, fun k v hk => by rw [h1]; exact hg.2 k v hk⟩, new,
      by rw [all_tags_flush_tag, hall], hnd, hp, fun r hr => by rw [h1]; exact hq r hr⟩
  flush_tag_join := by
    rintro q evs force ok ⟨hg, new, hall, hnd, hp, hq⟩
    obtain ⟨h1, h2, _⟩ := tag_cache_flush_tag_join q force ok
    exact ⟨⟨h2.trans hg.1, fun k v hk => by rw [h1]; exact hg.2 k v hk⟩, new,
      by rw [all_tags_flush_tag_join, hall], hnd, hp, fun r hr => by rw [h1]; exact hq r hr⟩
  flush_note := by
    rintro q evs force ok ⟨hg, new, hall, hnd, hp, hq⟩
    obtain ⟨h1, h2, _⟩ := tag_cache_flush_note q force ok
    exact ⟨⟨h2.trans hg.1, fun k v hk => by rw [h1]; exact hg.2 k v hk⟩, new,
      by rw [all_tags_flush_note, hall], hnd, hp, fun r hr => by rw [h1]; exact hq r hr⟩
  tag_stats := fun q evs _ h => h
  fetched := by
    rintro q evs pid ⟨hg, new, hall, hnd, hp, hq⟩
    exact ⟨hg, new, by simpa [all_tags, delivered_tags_append, delivered_tags] using hall,
      hnd, hp, hq⟩

/-- C2: in every run, from every initial cache, the tag rows appended to the tag
buffer (the rows delivered to the store by successful flushes followed by the
rows still pending) extend the rows pending at the start by rows whose names
are pairwise different and none of which was in the cache at the start: at most
one TagRecord per name is ever appended, none for a name already cached. -/
theorem one_tag_record_per_name (p : Processor) (ops : List Op) :
    ∃ new : List TagRecord,
      delivered_tags (run p ops).2 ++ (run p ops).1.pending_tags_ = p.pending_tags_ ++ new ∧
      (new.map TagRecord.name).Nodup ∧
      ∀ r ∈ new, TagCache.find p.tag_cache_ r.name = none := by
  obtain ⟨_, new, h1, h2, h3, _⟩ :=
    (stable_fresh_names p).of_run p ops
      ⟨⟨rfl, fun _ _ h => h⟩, [], by simp [all_tags, delivered_tags], by simp, by simp, by simp⟩
  exact ⟨new, h1, h2, h3⟩

/-! ## Associations and the tag rows they refer to -/

theorem TagCache.mem_set {c : TagCache} {k : Str} {v : Int} {e : Str × Int}
    (h : e ∈ TagCache.set c k v) : e = (k, v) ∨ e ∈ c := by
  induction c with
  | nil => simpa [TagCache.set] using h
  | cons e0 rest ih =>
    obtain ⟨k0, v0⟩ := e0
    by_cases h0 : k0 = k
    · simp only [TagCache.set, h0, if_true, List.mem_cons] at h
      rcases h with h | h
      · exact Or.inl h
      · exact Or.inr (List.mem_cons_of_mem _ h)
    · simp only [TagCache.set, h0, if_false, List.mem_cons] at h
      rcases h with h | h
      · exact Or.inr (h ▸ List.mem_cons_self _ _)
      · rcases ih h with h | h
        · exact Or.inl h
        · exact Or.inr (List.mem_cons_of_mem _ h)

/-- Every value of the warmed cache is the id of a loaded row (or was there
before). -/
theorem load_cache_values (tags : List TagRecord) (c0 : TagCache) :
    ∀ e ∈ tags.foldl (fun c tag => TagCache.set c tag.name tag.id) c0,
      e ∈ c0 ∨ ∃ t ∈ tags, t.id = e.2 := by
  induction tags generalizing c0 with
  | nil => intro e he; exact Or.inl he
  | cons t rest ih =>
    intro e he
    rcases ih _ e he with h | ⟨t', ht', h⟩
    · rcases TagCache.mem_set h with h | h
      · exact Or.inr ⟨t, List.mem_cons_self _ _, by rw [h]⟩
      · exact Or.inl h
    · exact Or.inr ⟨t', List.mem_cons_of_mem _ ht', h⟩

theorem Known.mono {loaded : List TagRecord} {q q' : Processor} {evs evs' : List Event}
    {tag_id : Int} (hsub : ∀ r ∈ all_tags q evs, r ∈ all_tags q' evs')
    (h : Known loaded q evs tag_id) : Known loaded q' evs' tag_id := by
  rcases h with h | ⟨r, hr, h⟩
  · exact Or.inl h
  · exact Or.inr ⟨r, hsub r hr, h⟩

/-- Moving to a state with the same tag rows, cache and association buffer, and
adding calls that are not `insert_tag_join_files`, keeps `Referenced`. -/
theorem Referenced.frame {loaded : List TagRecord} {q q' : Processor} {evs evs' : List Event}
    (h : Referenced loaded q evs) (hall : all_tags q' evs' = all_tags q evs)
    (hc : q'.tag_cache_ = q.tag_cache_)
    (hj : ∀ a ∈ q'.pending_tag_joins_, a ∈ q.pending_tag_joins_)
    (he : ∀ records result, Event.insert_tag_join_files records result ∈ evs' →
      Event.insert_tag_join_files records result ∈ evs ∨ records = q.pending_tag_joins_) :
    Referenced loaded q' evs' := by
  have hsub : ∀ r ∈ all_tags q evs, r ∈ all_tags q' evs' := fun r hr => hall ▸ hr
  refine ⟨fun e he' => (h.1 e (hc ▸ he')).mono hsub,
    fun a ha => (h.2.1 a (hj a ha)).mono hsub, ?_⟩
  intro records result hmem a ha
  rcases he records result hmem with h' | h'
  · exact (h.2.2 records result h' a ha).mono hsub
  · exact (h.2.1 a (h' ▸ ha)).mono hsub

theorem stable_referenced (loaded : List TagRecord) : Stable (Referenced loaded) where
  add_tag := by
    intro q evs file_id tag h
    cases hc : check_tag_exist q tag with
    | some id =>
      obtain ⟨h1, h2⟩ := all_tags_add_tag_hit file_id evs hc
      have hsub : ∀ r ∈ all_tags q evs, r ∈ all_tags (add_tag file_id q tag) evs :=
        fun r hr => h1 ▸ hr
      refine ⟨fun e he => (h.1 e (h2 ▸ he)).mono hsub, ?_,
        fun records result hm a ha => (h.2.2 records result hm a ha).mono hsub⟩
      intro a ha
      have hj : (add_tag file_id q tag).pending_tag_joins_ =
          q.pending_tag_joins_ ++ [⟨file_id, id⟩] := by simp [add_tag, hc]
      rw [hj] at ha
      rcases List.mem_append.1 ha with ha | ha
      · exact (h.2.1 a ha).mono hsub
      · simp only [List.mem_singleton] at ha
        subst ha
        obtain ⟨e, he, hid⟩ := mem_of_check_tag_exist hc
        exact hid ▸ (h.1 e he).mono hsub
    | none =>
      obtain ⟨h1, h2⟩ := all_tags_add_tag_miss file_id evs hc
      have hsub : ∀ r ∈ all_tags q evs, r ∈ all_tags (add_tag file_id q tag) evs :=
        fun r hr => by rw [h1]; exact List.mem_append_left _ hr
      have hnew : Known loaded (add_tag file_id q tag) evs (generate_tag_id q) :=
        Or.inr ⟨⟨generate_tag_id q, tag⟩, by rw [h1]; simp, rfl⟩
      refine ⟨?_, ?_, fun records result hm a ha => (h.2.2 records result hm a ha).mono hsub⟩
      · intro e he
        rw [h2] at he
        rcases List.mem_append.1 he with he | he
        · exact (h.1 e he).mono hsub
        · simp only [List.mem_singleton] at he
          subst he
          exact hnew
      · intro a ha
        have hj : (add_tag file_id q tag).pending_tag_joins_ =
            q.pending_tag_joins_ ++ [⟨file_id, generate_tag_id q⟩] := by simp [add_tag, hc]
        rw [hj] at ha
        rcases List.mem_append.1 ha with ha | ha
        · exact (h.2.1 a ha).mono hsub
        · simp only [List.mem_singleton] at ha
          subst ha
          exact hnew
  add_note := fun q evs file_id note origin h =>
    h.frame rfl rfl (fun _ ha => ha) (fun _ _ hm => Or.inl hm)
  flush_tag := by
    intro q evs force ok h
    obtain ⟨h1, _, h3⟩ := tag_cache_flush_tag q force ok
    refine h.frame (all_tags_flush_tag q evs force ok) h1 (fun a ha => h3 ▸ ha) ?_
    intro records result hm
    rcases flush_tag_buffer_cases q force ok with h' | ⟨_, h'⟩ | ⟨_, h'⟩ <;>
      simp [h'] at hm <;> exact Or.inl hm
  flush_tag_join := by
    intro q evs force ok h
    obtain ⟨h1, _, _⟩ := tag_cache_flush_tag_join q force ok
    refine h.frame (all_tags_flush_tag_join q evs force ok) h1 ?_ ?_
    · intro a ha
      rcases flush_tag_join_buffer_cases q force ok with h' | ⟨_, h'⟩ | ⟨_, h'⟩ <;>
        simp [h'] at ha <;> exact ha
    · intro records result hm
      rcases flush_tag_join_buffer_cases q force ok with h' | ⟨_, h'⟩ | ⟨_, h'⟩ <;>
        simp [h'] at hm
      · exact Or.inl hm
      · rcases hm with hm | hm
        · exact Or.inl hm
        · exact Or.inr hm.1
      · rcases hm with hm | hm
        · exact Or.inl hm
        · exact Or.inr hm.1
  flush_note := by
    intro q evs force ok h
    obtain ⟨h1, _, _, h4⟩ := tag_cache_flush_note q force ok
    refine h.frame (all_tags_flush_note q evs force ok) h1 (fun a ha => h4 ▸ ha) ?_
    intro records result hm
    rcases flush_note_buffer_cases q force ok with h' | ⟨_, h'⟩ | ⟨_, h'⟩ <;>
      simp [h'] at hm <;> exact Or.inl hm
  tag_stats := fun q evs s h => h.frame rfl rfl (fun _ ha => ha) (fun _ _ hm => Or.inl hm)
  fetched := fun q evs pid h =>
    h.frame (by simp [all_tags, delivered_tags_append, delivered_tags]) rfl (fun _ ha => ha)
      (fun _ _ hm => by simp at hm; exact Or.inl hm)

/-- C3 as stated fails with the default thresholds (20 tags, 50 associations):
seventeen files with the same three new tags leave three rows in the tag buffer
(below its threshold, never handed to the store) while the 51 associations
reach theirs and are handed to the store by the non-forced flush of the
seventeenth task. -/
theorem association_before_tag :
    tag_rows_first [] (run legacy_start seventeen_files).2 = false ∧
    delivered_tags (run legacy_start seventeen_files).2 = [] ∧
    (run legacy_start seventeen_files).1.pending_tags_ =
      [⟨1, "Artist:Alice".toList⟩, ⟨2, "Cat".toList⟩, ⟨3, "Dog".toList⟩] ∧
    (run legacy_start seventeen_files).1.pending_tag_joins_ = [] := by
  set_option maxRecDepth 100000 in decide

/-- C3 (as amended): at every point of a run that starts from the warmed
caches, for every configuration (thresholds included) and schema variant, every
Association handed to the store by `flush_tag_join_buffer` references a tag id
that was loaded from the store at run start, or belongs to a TagRecord handed
to the store by a successful `flush_tag_buffer`, or belongs to a TagRecord that
is still pending in the tag buffer. -/
theorem association_refers_to_tag_row (config : Config) (is_version_3 : Bool)
    (tags : List TagRecord) (tag_joins : List TagJoinFileRecord) (notes : List NoteRecord)
    (ops : List Op) (records : List TagJoinFileRecord) (result : Bool)
    (a : TagJoinFileRecord)
    (hcall : Event.insert_tag_join_files records result ∈
      (run (initialize_processor (Processor.init config) is_version_3 tags tag_joins notes) ops).2)
    (ha : a ∈ records) :
    (∃ t ∈ tags, t.id = a.tag_id) ∨
    (∃ r ∈ delivered_tags
      (run (initialize_processor (Processor.init config) is_version_3 tags tag_joins notes) ops).2,
      r.id = a.tag_id) ∨
    (∃ r ∈ (run (initialize_processor (Processor.init config) is_version_3 tags tag_joins
      notes) ops).1.pending_tags_, r.id = a.tag_id) := by
  have h0 : Referenced tags
      (initialize_processor (Processor.init config) is_version_3 tags tag_joins notes) [] := by
    refine ⟨?_, ?_, ?_⟩
    · intro e he
      rcases load_cache_values tags [] e he with h | h
      · simp at h
      · exact Or.inl h
    · intro a ha
      simp [initialize_processor, load_cache, Processor.init] at ha
    · intro records result hm
      simp at hm
  have h := (stable_referenced tags).of_run _ ops h0
  rcases h.2.2 records result hcall a ha with h | ⟨r, hr, h⟩
  · exact Or.inl h
  · rcases List.mem_append.1 hr with hr | hr
    · exact Or.inr (Or.inl ⟨r, hr, h⟩)
    · exact Or.inr (Or.inr ⟨r, hr, h⟩)

/-- C3, instance of the amended claim: the forced flush of the tag buffer fails
at the store, the forced flush of the association buffer succeeds; the
association of file 1 refers to the row of `Cat`, which is still pending. -/
theorem association_refers_to_tag_row_witness :
    Event.insert_tag_join_files [⟨1, 1⟩] true ∈
      (run (initialize_processor (Processor.init {}) false [] [] []) failed_tag_flush).2 ∧
    (⟨1, 1⟩ : TagJoinFileRecord) ∈ [(⟨1, 1⟩ : TagJoinFileRecord)] ∧
    ((∃ t ∈ ([] : List TagRecord), t.id = (⟨1, 1⟩ : TagJoinFileRecord).tag_id) ∨
      (∃ r ∈ delivered_tags
        (run (initialize_processor (Processor.init {}) false [] [] []) failed_tag_flush).2,
        r.id = (⟨1, 1⟩ : TagJoinFileRecord).tag_id) ∨
      (∃ r ∈ (run (initialize_processor (Processor.init {}) false [] [] [])
        failed_tag_flush).1.pending_tags_, r.id = (⟨1, 1⟩ : TagJoinFileRecord).tag_id)) :=
  ⟨by decide, by decide,
    association_refers_to_tag_row {} false [] [] [] failed_tag_flush [⟨1, 1⟩] true ⟨1, 1⟩
      (by decide) (by decide)⟩

/-! ## Allocation of tag ids -/

theorem max_id_fold_le (c : TagCache) (m0 B : Int) (h0 : m0 ≤ B) (h : ∀ e ∈ c, e.2 ≤ B) :
    c.foldl (fun max_id e => if e.2 > max_id then e.2 else max_id) m0 ≤ B := by
  induction c generalizing m0 with
  | nil => simpa using h0
  | cons e rest ih =>
    simp only [List.foldl_cons]
    apply ih
    · have := h e (List.mem_cons_self _ _)
      split <;> omega
    · exact fun e' he' => h e' (List.mem_cons_of_mem _ he')

theorem wrap64_of_small (x : Int) (h0 : 0 ≤ x) (h1 : x ≤ INT64_MAX) : wrap64 x = x := by
  unfold wrap64
  unfold INT64_MAX at h1
  omega

/-- Below the `int64_t` maximum the generated id exceeds every cached id. -/
theorem generate_tag_id_gt (q : Processor) (h : ∀ e ∈ q.tag_cache_, e.2 < INT64_MAX) :
    ∀ e ∈ q.tag_cache_, e.2 < generate_tag_id q := by
  intro e he
  have hne : q.tag_cache_.isEmpty = false := by
    cases hc : q.tag_cache_ with
    | nil => rw [hc] at he; cases he
    | cons _ _ => rfl
  obtain ⟨h0, hall⟩ := max_id_fold q.tag_cache_ 0
  have hle := max_id_fold_le q.tag_cache_ 0 (INT64_MAX - 1) (by unfold INT64_MAX; omega)
    (fun e' he' => by have := h e' he'; omega)
  have hw := wrap64_of_small
    (q.tag_cache_.foldl (fun max_id e => if e.2 > max_id then e.2 else max_id) 0 + 1)
    (by omega) (by omega)
  have := hall e he
  simp only [generate_tag_id, hne]
  simp only [Bool.false_eq_true, if_false]
  rw [hw]
  omega

theorem stable_increasing (p : Processor) : Stable (Increasing p) where
  add_tag := by
    intro q evs file_id tag h hb
    cases hc : check_tag_exist q tag with
    | some id =>
      obtain ⟨h1, h2⟩ := all_tags_add_tag_hit file_id evs hc
      obtain ⟨new, ha, hs, hv⟩ := h (fun e he => hb e (h2 ▸ he))
      exact ⟨new, by rw [h1, ha], hs, fun r hr => by rw [h2]; exact hv r hr⟩
    | none =>
      obtain ⟨h1, h2⟩ := all_tags_add_tag_miss file_id evs hc
      have hb' : ∀ e ∈ q.tag_cache_, e.2 < INT64_MAX :=
        fun e he => hb e (by rw [h2]; exact List.mem_append_left _ he)
      obtain ⟨new, ha, hs, hv⟩ := h hb'
      refine ⟨new ++ [⟨generate_tag_id q, tag⟩], by rw [h1, ha, List.append_assoc], ?_, ?_⟩
      · rw [List.map_append, List.pairwise_append]
        refine ⟨hs, by simp, ?_⟩
        intro a ha' b hb''
        simp only [List.map_cons, List.map_nil, List.mem_singleton] at hb''
        obtain ⟨r, hr, rfl⟩ := List.mem_map.1 ha'
        obtain ⟨e, he, hid⟩ := hv r hr
        rw [hb'', ← hid]
        exact generate_tag_id_gt q hb' e he
      · intro r hr
        rw [h2]
        rcases List.mem_append.1 hr with hr | hr
        · obtain ⟨e, he, hid⟩ := hv r hr
          exact ⟨e, List.mem_append_left _ he, hid⟩
        · simp only [List.mem_singleton] at hr
          subst hr
          exact ⟨(tag, generate_tag_id q), by simp, rfl⟩
  add_note := fun q evs _ _ _ h => h
  flush_tag := by
    intro q evs force ok h hb
    obtain ⟨h1, _, _⟩ := tag_cache_flush_tag q force ok
    obtain ⟨new, ha, hs, hv⟩ := h (fun e he => hb e (h1 ▸ he))
    exact ⟨new, by rw [all_tags_flush_tag, ha], hs, fun r hr => by rw [h1]; exact hv r hr⟩
  flush_tag_join := by
    intro q evs force ok h hb
    obtain ⟨h1, _, _⟩ := tag_cache_flush_tag_join q force ok
    obtain ⟨new, ha, hs, hv⟩ := h (fun e he => hb e (h1 ▸ he))
    exact ⟨new, by rw [all_tags_flush_tag_join, ha], hs, fun r hr => by rw [h1]; exact hv r hr⟩
  flush_note := by
    intro q evs force ok h hb
    obtain ⟨h1, _, _⟩ := tag_cache_flush_note q force ok
    obtain ⟨new, ha, hs, hv⟩ := h (fun e he => hb e (h1 ▸ he))
    exact ⟨new, by rw [all_tags_flush_note, ha], hs, fun r hr => by rw [h1]; exact hv r hr⟩
  tag_stats := fun q evs _ h => h
  fetched := by
    intro q evs pid h hb
    obtain ⟨new, ha, hs, hv⟩ := h hb
    exact ⟨new, by simpa [all_tags, delivered_tags_append, delivered_tags] using ha, hs, hv⟩

/-- C4: for a cache whose ids are below the `int64_t` maximum, `generate_tag_id`
returns an id strictly greater than every id in the cache; for an empty cache
it returns 1; and in a run whose cache ids stay below the `int64_t` maximum the
ids of the TagRecords created (delivered rows followed by pending rows, beyond
those pending at the start) increase strictly in creation order. -/
theorem generate_tag_id_above_cache (p : Processor) (ops : List Op) :
    ((∀ e ∈ p.tag_cache_, e.2 < INT64_MAX) → ∀ e ∈ p.tag_cache_, e.2 < generate_tag_id p) ∧
    generate_tag_id { p with tag_cache_ := [] } = 1 ∧
    ((∀ e ∈ (run p ops).1.tag_cache_, e.2 < INT64_MAX) →
      ∃ new : List TagRecord,
        delivered_tags (run p ops).2 ++ (run p ops).1.pending_tags_ = p.pending_tags_ ++ new ∧
        (new.map TagRecord.id).Pairwise (· < ·)) := by
  refine ⟨generate_tag_id_gt p, by simp [generate_tag_id], ?_⟩
  intro hb
  obtain ⟨new, h1, h2, _⟩ := (stable_increasing p).of_run p ops
    (fun _ => ⟨[], by simp [all_tags, delivered_tags], by simp, by simp⟩) hb
  exact ⟨new, h1, h2⟩

/-- C4, instance: a store with the tag `a` of id 5; file 1 brings the new tags `b`
and `c`, which get the ids 6 and 7. -/
theorem generate_tag_id_above_cache_witness :
    (∀ e ∈ one_tag_start.tag_cache_, e.2 < INT64_MAX) ∧
    (∀ e ∈ one_tag_start.tag_cache_, e.2 < generate_tag_id one_tag_start) ∧
    (∀ e ∈ (run one_tag_start [Op.add_tags 1 ["b".toList, "c".toList]]).1.tag_cache_,
      e.2 < INT64_MAX) ∧
    ∃ new : List TagRecord,
      delivered_tags (run one_tag_start [Op.add_tags 1 ["b".toList, "c".toList]]).2 ++
        (run one_tag_start [Op.add_tags 1 ["b".toList, "c".toList]]).1.pending_tags_ =
        one_tag_start.pending_tags_ ++ new ∧
      (new.map TagRecord.id).Pairwise (· < ·) :=
  ⟨by decide,
    (generate_tag_id_above_cache one_tag_start [Op.add_tags 1 ["b".toList, "c".toList]]).1
      (by decide),
    by decide,
    (generate_tag_id_above_cache one_tag_start [Op.add_tags 1 ["b".toList, "c".toList]]).2.2
      (by decide)⟩

/-- C5, the code at the failing input: the store returns the rows (4, `a`) and
(3, `a`) at warm-up, the cache keeps only (`a`, 3), and the new tag `b` is given
the id 4, which the store already uses. -/
theorem allocated_id_collides_with_loaded_id :
    duplicate_name_start.tag_cache_ = [("a".toList, 3)] ∧
    (add_tags_to_buffer duplicate_name_start 1 ["b".toList]).pending_tags_ =
      [⟨4, "b".toList⟩] := by
  decide

/-! ## The flush protocol -/

theorem toSizeT_of_nonneg (n : Int) (h0 : 0 ≤ n) (h1 : n ≤ INT_MAX) : (toSizeT n : Int) = n := by
  unfold toSizeT
  unfold INT_MAX at h1
  omega

/-- The guard of a non-forced flush, for a threshold that is a non-negative `int`. -/
theorem below_threshold_iff (len : Nat) (n : Int) (h0 : 0 ≤ n) (h1 : n ≤ INT_MAX) :
    len < toSizeT n ↔ (len : Int) < n := by
  have := toSizeT_of_nonneg n h0 h1
  omega

theorem foldl_insert_eq_union {α : Type} (f : α → Int) (l : List α) (s : Finset Int) :
    l.foldl (fun s x => insert (f x) s) s = s ∪ (l.map f).toFinset := by
  induction l generalizing s with
  | nil => simp
  | cons x rest ih =>
    simp only [List.foldl_cons, List.map_cons, List.toFinset_cons]
    rw [ih]
    ext y
    simp only [Finset.mem_union, Finset.mem_insert, List.mem_toFinset]
    tauto

/-- C6: a flush with force=false of a buffer whose size is below its configured
threshold makes no store call, leaves the whole processor as it was (buffers,
tag cache, both existence sets) and returns `true`; for each of the three
buffers. The thresholds are values of type `int`. -/
theorem flush_below_threshold_is_noop (p : Processor) (prepare_ok : Bool)
    (hv : p.config_.valid) :
    ((p.pending_tags_.length : Int) < p.config_.batch_size_tag →
      flush_tag_buffer p false prepare_ok = ⟨p, true, []⟩) ∧
    ((p.pending_tag_joins_.length : Int) < p.config_.batch_size_tag_join →
      flush_tag_join_buffer p false prepare_ok = ⟨p, true, []⟩) ∧
    ((p.pending_notes_.length : Int) < p.config_.batch_size_note →
      flush_note_buffer p false prepare_ok = ⟨p, true, []⟩) := by
  obtain ⟨⟨_, h1⟩, ⟨_, h2⟩, ⟨_, h3⟩⟩ := hv
  refine ⟨fun h => ?_, fun h => ?_, fun h => ?_⟩
  · have := (below_threshold_iff p.pending_tags_.length _ (by omega) h1).2 h
    simp [flush_tag_buffer, this]
  · have := (below_threshold_iff p.pending_tag_joins_.length _ (by omega) h2).2 h
    simp [flush_tag_join_buffer, this]
  · have := (below_threshold_iff p.pending_notes_.length _ (by omega) h3).2 h
    simp [flush_note_buffer, this]

/-- C6, instance: default thresholds 20, 50 and 10 with one tag row, one
association and one note pending. -/
theorem flush_below_threshold_is_noop_witness :
    all_pending.config_.valid ∧
    ((all_pending.pending_tags_.length : Int) < all_pending.config_.batch_size_tag ∧
      flush_tag_buffer all_pending false true = ⟨all_pending, true, []⟩) ∧
    ((all_pending.pending_tag_joins_.length : Int) < all_pending.config_.batch_size_tag_join ∧
      flush_tag_join_buffer all_pending false true = ⟨all_pending, true, []⟩) ∧
    ((all_pending.pending_notes_.length : Int) < all_pending.config_.batch_size_note ∧
      flush_note_buffer all_pending false true = ⟨all_pending, true, []⟩) :=
  ⟨by decide,
    ⟨by decide, (flush_below_threshold_is_noop all_pending true (by decide)).1 (by decide)⟩,
    ⟨by decide, (flush_below_threshold_is_noop all_pending true (by decide)).2.1 (by decide)⟩,
    ⟨by decide, (flush_below_threshold_is_noop all_pending true (by decide)).2.2 (by decide)⟩⟩

/-- C7: for each of the three buffers and every non-empty content, if
force=true (whatever the size), or if force=false and the size has reached the
threshold, the flush makes exactly one store call, the matching batch
operation with the entire buffer in order, returns what the store returned and,
when that is success, leaves the buffer empty. A threshold is a size: the
statement covers every threshold from 0 to `INT_MAX`, among them the three
that the program uses (20, 50 and 10: no configuration key sets them). -/
theorem flush_hands_over_buffer (p : Processor) (force prepare_ok : Bool)
    (hv : p.config_.valid) :
    (p.pending_tags_ ≠ [] →
      (force = true ∨ (0 ≤ p.config_.batch_size_tag ∧
        p.config_.batch_size_tag ≤ (p.pending_tags_.length : Int))) →
      (flush_tag_buffer p force prepare_ok).events =
        [Event.insert_tags p.pending_tags_ p.is_v3_db_ prepare_ok] ∧
      (flush_tag_buffer p force prepare_ok).success = prepare_ok ∧
      (prepare_ok = true → (flush_tag_buffer p force prepare_ok).proc.pending_tags_ = [])) ∧
    (p.pending_tag_joins_ ≠ [] →
      (force = true ∨ (0 ≤ p.config_.batch_size_tag_join ∧
        p.config_.batch_size_tag_join ≤ (p.pending_tag_joins_.length : Int))) →
      (flush_tag_join_buffer p force prepare_ok).events =
        [Event.insert_tag_join_files p.pending_tag_joins_ prepare_ok] ∧
      (flush_tag_join_buffer p force prepare_ok).success = prepare_ok ∧
      (prepare_ok = true →
        (flush_tag_join_buffer p force prepare_ok).proc.pending_tag_joins_ = [])) ∧
    (p.pending_notes_ ≠ [] →
      (force = true ∨ (0 ≤ p.config_.batch_size_note ∧
        p.config_.batch_size_note ≤ (p.pending_notes_.length : Int))) →
      (flush_note_buffer p force prepare_ok).events =
        [Event.insert_notes p.pending_notes_ prepare_ok] ∧
      (flush_note_buffer p force prepare_ok).success = prepare_ok ∧
      (prepare_ok = true → (flush_note_buffer p force prepare_ok).proc.pending_notes_ = [])) := by
  obtain ⟨⟨_, h1⟩, ⟨_, h2⟩, ⟨_, h3⟩⟩ := hv
  refine ⟨fun hne hf => ?_, fun hne hf => ?_, fun hne hf => ?_⟩
  · have hg : (!force && decide (p.pending_tags_.length < toSizeT p.config_.batch_size_tag)) =
        false := by
      rcases hf with hf | ⟨h0, hf⟩
      · simp [hf]
      · have := below_threshold_iff p.pending_tags_.length _ h0 h1
        have hnot : ¬ p.pending_tags_.length < toSizeT p.config_.batch_size_tag := by omega
        simp [hnot]
    cases prepare_ok <;> simp [flush_tag_buffer, hne, hg, Database.insert_tags]
  · have hg : (!force && decide (p.pending_tag_joins_.length <
        toSizeT p.config_.batch_size_tag_join)) = false := by
      rcases hf with hf | ⟨h0, hf⟩
      · simp [hf]
      · have := below_threshold_iff p.pending_tag_joins_.length _ h0 h2
        have hnot : ¬ p.pending_tag_joins_.length < toSizeT p.config_.batch_size_tag_join := by
          omega
        simp [hnot]
    cases prepare_ok <;> simp [flush_tag_join_buffer, hne, hg, Database.insert_tag_join_files]
  · have hg : (!force && decide (p.pending_notes_.length < toSizeT p.config_.batch_size_note)) =
        false := by
      rcases hf with hf | ⟨h0, hf⟩
      · simp [hf]
      · have := below_threshold_iff p.pending_notes_.length _ h0 h3
        have hnot : ¬ p.pending_notes_.length < toSizeT p.config_.batch_size_note := by omega
        simp [hnot]
    cases prepare_ok <;> simp [flush_note_buffer, hne, hg, Database.insert_notes]

/-- C7, instance (Scenario C, tag threshold 2): with two new tags pending the
non-forced flush hands both to the store and empties the buffer; a third new
tag is not flushed without force and is drained by the forced flush. The
association and note buffers of `all_pending` are drained by forced flushes. -/
theorem flush_hands_over_buffer_witness :
    two_new_tags.config_.valid ∧
    (two_new_tags.pending_tags_ ≠ [] ∧
      ((false = true) ∨ (0 ≤ two_new_tags.config_.batch_size_tag ∧
        two_new_tags.config_.batch_size_tag ≤ (two_new_tags.pending_tags_.length : Int))) ∧
      (flush_tag_buffer two_new_tags false true).events =
        [Event.insert_tags two_new_tags.pending_tags_ two_new_tags.is_v3_db_ true] ∧
      (flush_tag_buffer two_new_tags false true).success = true ∧
      (true = true → (flush_tag_buffer two_new_tags false true).proc.pending_tags_ = [])) ∧
    (flush_tag_buffer third_new_tag false true).events = [] ∧
    (third_new_tag.pending_tags_ ≠ [] ∧
      (flush_tag_buffer third_new_tag true true).events =
        [Event.insert_tags third_new_tag.pending_tags_ third_new_tag.is_v3_db_ true] ∧
      (flush_tag_buffer third_new_tag true true).success = true ∧
      (true = true → (flush_tag_buffer third_new_tag true true).proc.pending_tags_ = [])) ∧
    (all_pending.pending_tag_joins_ ≠ [] ∧
      (flush_tag_join_buffer all_pending true true).events =
        [Event.insert_tag_join_files all_pending.pending_tag_joins_ true] ∧
      (flush_tag_join_buffer all_pending true true).success = true ∧
      (true = true → (flush_tag_join_buffer all_pending true true).proc.pending_tag_joins_ = [])) ∧
    (all_pending.pending_notes_ ≠ [] ∧
      (flush_note_buffer all_pending true true).events =
        [Event.insert_notes all_pending.pending_notes_ true] ∧
      (flush_note_buffer all_pending true true).success = true ∧
      (true = true → (flush_note_buffer all_pending true true).proc.pending_notes_ = [])) :=
  ⟨by decide,
    ⟨by decide, by decide,
      (flush_hands_over_buffer two_new_tags false true (by decide)).1 (by decide) (by decide)⟩,
    by decide,
    ⟨by decide,
      (flush_hands_over_buffer third_new_tag true true (by decide)).1 (by decide) (Or.inl rfl)⟩,
    ⟨by decide,
      (flush_hands_over_buffer all_pending true true (by decide)).2.1 (by decide) (Or.inl rfl)⟩,
    ⟨by decide,
      (flush_hands_over_buffer all_pending true true (by decide)).2.2 (by decide) (Or.inl rfl)⟩⟩

/-- C8: when the store's batch operation called by a flush returns failure, the
flush returns `false` and the processor is exactly as before: the buffer keeps
its rows in order, the other two buffers, the tag cache and both existence sets
are untouched; for each of the three buffers. -/
theorem failed_flush_changes_nothing (p : Processor) (force prepare_ok : Bool) :
    ((∃ tags is_v3, Event.insert_tags tags is_v3 false ∈
        (flush_tag_buffer p force prepare_ok).events) →
      (flush_tag_buffer p force prepare_ok).success = false ∧
      (flush_tag_buffer p force prepare_ok).proc = p) ∧
    ((∃ records, Event.insert_tag_join_files records false ∈
        (flush_tag_join_buffer p force prepare_ok).events) →
      (flush_tag_join_buffer p force prepare_ok).success = false ∧
      (flush_tag_join_buffer p force prepare_ok).proc = p) ∧
    ((∃ notes, Event.insert_notes notes false ∈
        (flush_note_buffer p force prepare_ok).events) →
      (flush_note_buffer p force prepare_ok).success = false ∧
      (flush_note_buffer p force prepare_ok).proc = p) := by
  refine ⟨?_, ?_, ?_⟩
  · rintro ⟨tags, is_v3, hm⟩
    rcases flush_tag_buffer_cases p force prepare_ok with h | ⟨_, h⟩ | ⟨_, h⟩ <;>
      simp [h] at hm ⊢
  · rintro ⟨records, hm⟩
    rcases flush_tag_join_buffer_cases p force prepare_ok with h | ⟨_, h⟩ | ⟨_, h⟩ <;>
      simp [h] at hm ⊢
  · rintro ⟨notes, hm⟩
    rcases flush_note_buffer_cases p force prepare_ok with h | ⟨_, h⟩ | ⟨_, h⟩ <;>
      simp [h] at hm ⊢

/-- C8, instance: the three forced flushes of `all_pending` with a store that
cannot prepare its statement. -/
theorem failed_flush_changes_nothing_witness :
    ((∃ tags is_v3, Event.insert_tags tags is_v3 false ∈
        (flush_tag_buffer all_pending true false).events) ∧
      (flush_tag_buffer all_pending true false).success = false ∧
      (flush_tag_buffer all_pending true false).proc = all_pending) ∧
    ((∃ records, Event.insert_tag_join_files records false ∈
        (flush_tag_join_buffer all_pending true false).events) ∧
      (flush_tag_join_buffer all_pending true false).success = false ∧
      (flush_tag_join_buffer all_pending true false).proc = all_pending) ∧
    ((∃ notes, Event.insert_notes notes false ∈
        (flush_note_buffer all_pending true false).events) ∧
      (flush_note_buffer all_pending true false).success = false ∧
      (flush_note_buffer all_pending true false).proc = all_pending) :=
  ⟨⟨⟨all_pending.pending_tags_, false, by decide⟩,
      (failed_flush_changes_nothing all_pending true false).1
        ⟨all_pending.pending_tags_, false, by decide⟩⟩,
    ⟨⟨all_pending.pending_tag_joins_, by decide⟩,
      (failed_flush_changes_nothing all_pending true false).2.1
        ⟨all_pending.pending_tag_joins_, by decide⟩⟩,
    ⟨⟨all_pending.pending_notes_, by decide⟩,
      (failed_flush_changes_nothing all_pending true false).2.2
        ⟨all_pending.pending_notes_, by decide⟩⟩⟩

/-- C9: a flush of the association buffer whose store call succeeded leaves
ExistingAssociations equal to its previous value united with the file ids of
the flushed Associations, and ExistingNotes unchanged; a flush of the note
buffer whose store call succeeded leaves ExistingNotes equal to its previous
value united with the file ids of the flushed notes, and ExistingAssociations
unchanged; a flush of the tag buffer changes neither set. -/
theorem successful_flush_extends_existence_set (p : Processor) (force prepare_ok : Bool) :
    (∀ records, Event.insert_tag_join_files records true ∈
        (flush_tag_join_buffer p force prepare_ok).events →
      records = p.pending_tag_joins_ ∧
      (flush_tag_join_buffer p force prepare_ok).proc.existing_file_tags_ =
        p.existing_file_tags_ ∪ (records.map TagJoinFileRecord.file_id).toFinset ∧
      (flush_tag_join_buffer p force prepare_ok).proc.existing_file_notes_ =
        p.existing_file_notes_) ∧
    (∀ notes, Event.insert_notes notes true ∈ (flush_note_buffer p force prepare_ok).events →
      notes = p.pending_notes_ ∧
      (flush_note_buffer p force prepare_ok).proc.existing_file_notes_ =
        p.existing_file_notes_ ∪ (notes.map NoteRecord.file_id).toFinset ∧
      (flush_note_buffer p force prepare_ok).proc.existing_file_tags_ =
        p.existing_file_tags_) ∧
    ((flush_tag_buffer p force prepare_ok).proc.existing_file_tags_ = p.existing_file_tags_ ∧
      (flush_tag_buffer p force prepare_ok).proc.existing_file_notes_ =
        p.existing_file_notes_) := by
  refine ⟨?_, ?_, ?_⟩
  · intro records hm
    rcases flush_tag_join_buffer_cases p force prepare_ok with h | ⟨_, h⟩ | ⟨_, h⟩ <;>
      simp [h] at hm ⊢
    subst hm
    exact ⟨rfl, foldl_insert_eq_union TagJoinFileRecord.file_id _ _⟩
  · intro notes hm
    rcases flush_note_buffer_cases p force prepare_ok with h | ⟨_, h⟩ | ⟨_, h⟩ <;>
      simp [h] at hm ⊢
    subst hm
    exact ⟨rfl, foldl_insert_eq_union NoteRecord.file_id _ _⟩
  · rcases flush_tag_buffer_cases p force prepare_ok with h | ⟨_, h⟩ | ⟨_, h⟩ <;> simp [h]

/-- C9, instance: the forced flushes of `all_pending` with a store that accepts
the batches; file 1 enters both existence sets. -/
theorem successful_flush_extends_existence_set_witness :
    (Event.insert_tag_join_files [⟨1, 1⟩] true ∈
        (flush_tag_join_buffer all_pending true true).events ∧
      ([⟨1, 1⟩] : List TagJoinFileRecord) = all_pending.pending_tag_joins_ ∧
      (flush_tag_join_buffer all_pending true true).proc.existing_file_tags_ =
        all_pending.existing_file_tags_ ∪
          (([⟨1, 1⟩] : List TagJoinFileRecord).map TagJoinFileRecord.file_id).toFinset ∧
      (flush_tag_join_buffer all_pending true true).proc.existing_file_notes_ =
        all_pending.existing_file_notes_) ∧
    (Event.insert_notes all_pending.pending_notes_ true ∈
        (flush_note_buffer all_pending true true).events ∧
      all_pending.pending_notes_ = all_pending.pending_notes_ ∧
      (flush_note_buffer all_pending true true).proc.existing_file_notes_ =
        all_pending.existing_file_notes_ ∪
          (all_pending.pending_notes_.map NoteRecord.file_id).toFinset ∧
      (flush_note_buffer all_pending true true).proc.existing_file_tags_ =
        all_pending.existing_file_tags_) ∧
    (1 : Int) ∈ (flush_tag_join_buffer all_pending true true).proc.existing_file_tags_ ∧
    (1 : Int) ∈ (flush_note_buffer all_pending true true).proc.existing_file_notes_ :=
  ⟨⟨by decide,
      (successful_flush_extends_existence_set all_pending true true).1 _ (by decide)⟩,
    ⟨by decide,
      (successful_flush_extends_existence_set all_pending true true).2.1 _ (by decide)⟩,
    by decide, by decide⟩

/-- C10: with skip-existing enabled, for a file whose id is in
ExistingAssociations, `process_tag_task` calls no collaborator (in particular
`get_tags` is not called) and leaves the tag cache, the three write buffers and
both existence sets unchanged, whatever the display name is. -/
theorem skip_existing_makes_no_fetch (p : Processor) (file : FileRecord) (index total : Int)
    (get_tags : Str → Option (List Str)) (prepare_tags prepare_joins : Bool)
    (hskip : p.config_.skip_existing = true) (hmem : file.id ∈ p.existing_file_tags_) :
    (process_tag_task p file index total get_tags prepare_tags prepare_joins).2 = [] ∧
    (∀ pid, Event.get_tags pid ∉
      (process_tag_task p file index total get_tags prepare_tags prepare_joins).2) ∧
    (process_tag_task p file index total get_tags prepare_tags prepare_joins).1.tag_cache_ =
      p.tag_cache_ ∧
    (process_tag_task p file index total get_tags prepare_tags prepare_joins).1.pending_tags_ =
      p.pending_tags_ ∧
    (process_tag_task p file index total get_tags prepare_tags prepare_joins).1.pending_tag_joins_ =
      p.pending_tag_joins_ ∧
    (process_tag_task p file index total get_tags prepare_tags prepare_joins).1.pending_notes_ =
      p.pending_notes_ ∧
    (process_tag_task p file index total get_tags prepare_tags prepare_joins).1.existing_file_tags_ =
      p.existing_file_tags_ ∧
    (process_tag_task p file index total get_tags prepare_tags prepare_joins).1.existing_file_notes_ =
      p.existing_file_notes_ := by
  unfold process_tag_task
  dsimp only
  split
  · simp
  · simp [hskip, hmem]

/-- C10, instance (Scenario A, third file): `67890_2.png` is already associated;
the metadata source, which would answer, is not asked. -/
theorem skip_existing_makes_no_fetch_witness :
    already_associated.config_.skip_existing = true ∧
    (3 : Int) ∈ already_associated.existing_file_tags_ ∧
    (process_tag_task already_associated ⟨3, "67890_2.png".toList⟩ 3 3
      (fun _ => some ["Dog".toList]) true true).2 = [] ∧
    (process_tag_task already_associated ⟨3, "67890_2.png".toList⟩ 3 3
      (fun _ => some ["Dog".toList]) true true).1.tag_cache_ = already_associated.tag_cache_ :=
  ⟨by decide, by decide,
    (skip_existing_makes_no_fetch already_associated ⟨3, "67890_2.png".toList⟩ 3 3
      (fun _ => some ["Dog".toList]) true true (by decide) (by decide)).1,
    (skip_existing_makes_no_fetch already_associated ⟨3, "67890_2.png".toList⟩ 3 3
      (fun _ => some ["Dog".toList]) true true (by decide) (by decide)).2.2.1⟩

/-! ## The counters of a tag task -/

theorem wrap32_of_small (x : Int) (h0 : INT_MIN ≤ x) (h1 : x ≤ INT_MAX) : wrap32 x = x := by
  unfold wrap32
  unfold INT_MIN at h0
  unfold INT_MAX at h1
  omega

theorem incr_of_below_max (c : Int) (h0 : INT_MIN ≤ c) (h1 : c < INT_MAX) : incr c = c + 1 := by
  unfold incr
  exact wrap32_of_small _ (by omega) (by omega)

theorem add_tag_stats (file_id : Int) (q : Processor) (tag : Str) :
    (add_tag file_id q tag).tag_stats_ = q.tag_stats_ ∧
    (add_tag file_id q tag).note_stats_ = q.note_stats_ := by
  rcases add_tag_cases file_id q tag with ⟨id, _, h⟩ | ⟨_, h⟩ <;> rw [h] <;> exact ⟨rfl, rfl⟩

theorem add_tags_to_buffer_stats (q : Processor) (file_id : Int) (tags : List Str) :
    (add_tags_to_buffer q file_id tags).tag_stats_ = q.tag_stats_ ∧
    (add_tags_to_buffer q file_id tags).note_stats_ = q.note_stats_ := by
  unfold add_tags_to_buffer
  induction tags generalizing q with
  | nil => exact ⟨rfl, rfl⟩
  | cons t rest ih =>
    simp only [List.foldl_cons]
    obtain ⟨h1, h2⟩ := ih (add_tag file_id q t)
    obtain ⟨h3, h4⟩ := add_tag_stats file_id q t
    exact ⟨h1.trans h3, h2.trans h4⟩

theorem flush_tag_buffer_stats (q : Processor) (force ok : Bool) :
    (flush_tag_buffer q force ok).proc.tag_stats_ = q.tag_stats_ := by
  rcases flush_tag_buffer_cases q force ok with h | ⟨_, h⟩ | ⟨_, h⟩ <;> simp [h]

theorem flush_tag_join_buffer_stats (q : Processor) (force ok : Bool) :
    (flush_tag_join_buffer q force ok).proc.tag_stats_ = q.tag_stats_ := by
  rcases flush_tag_join_buffer_cases q force ok with h | ⟨_, h⟩ | ⟨_, h⟩ <;> simp [h]

/-- The counters after a tag task, by the four ways the task can end. -/
theorem process_tag_task_stats (p : Processor) (file : FileRecord) (index total : Int)
    (get_tags : Str → Option (List Str)) (ok1 ok2 : Bool) :
    (process_tag_task p file index total get_tags ok1 ok2).1.tag_stats_ =
      match extract_pid file.name with
      | none =>
        { p.tag_stats_ with
          total_count := incr p.tag_stats_.total_count
          fail_count := incr p.tag_stats_.fail_count }
      | some pid =>
        if p.config_.skip_existing && decide (file.id ∈ p.existing_file_tags_) then
          { p.tag_stats_ with
            total_count := incr p.tag_stats_.total_count
            skip_count := incr p.tag_stats_.skip_count }
        else
          match get_tags pid with
          | none =>
            { p.tag_stats_ with
              total_count := incr p.tag_stats_.total_count
              fail_count := incr p.tag_stats_.fail_count }
          | some tags =>
            if tags.isEmpty then
              { p.tag_stats_ with
                total_count := incr p.tag_stats_.total_count
                fail_count := incr p.tag_stats_.fail_count }
            else
              { p.tag_stats_ with
                total_count := incr p.tag_stats_.total_count
                success_count := incr p.tag_stats_.success_count } := by
  unfold process_tag_task
  dsimp only
  split
  · rfl
  · split
    · rfl
    · split
      · rfl
      · split
        · rfl
        · simp only [flush_tag_join_buffer_stats, flush_tag_buffer_stats]
          rw [(add_tags_to_buffer_stats _ _ _).1]

/-- C11 as stated fails at the end of the range of `int`: after 2147483647
failed tasks `total_count` and `fail_count` hold `INT_MAX`, and the next task
(here on `bad.txt`) wraps both to `INT_MIN` instead of increasing them by 1. -/
theorem counters_wrap_at_int_max :
    counters_at_max.tag_stats_.total_count = 2147483647 ∧
    (stats_after counters_at_max ⟨1, "bad.txt".toList⟩ 1 1 (fun _ => none) true true).total_count =
      -2147483648 ∧
    (stats_after counters_at_max ⟨1, "bad.txt".toList⟩ 1 1 (fun _ => none) true true).fail_count =
      -2147483648 ∧
    (stats_after counters_at_max ⟨1, "bad.txt".toList⟩ 1 1 (fun _ => none) true true).total_count ≠
      counters_at_max.tag_stats_.total_count + 1 := by
  decide

/-- C11 (as amended): while the four counters are below `INT_MAX`, every
execution of `process_tag_task` increases `total` by exactly 1 and exactly one
of `success`, `fail`, `skip` by exactly 1, leaving the other two as they were:
`fail` when no identifier can be extracted from the display name (whether or
not the file is in ExistingAssociations); otherwise `skip` when skip-existing is
on and the file id is in ExistingAssociations; otherwise `fail` when `get_tags`
answers none or an empty list; otherwise `success`. Hence the difference
between `total` and `success + fail + skip` is the same after the task as
before (0 from a fresh processor). -/
theorem task_counts_once (p : Processor) (file : FileRecord) (index total : Int)
    (get_tags : Str → Option (List Str)) (prepare_tags prepare_joins : Bool)
    (hb : p.tag_stats_.below_max) :
    (stats_after p file index total get_tags prepare_tags prepare_joins).total_count =
      p.tag_stats_.total_count + 1 ∧
    (extract_pid file.name = none →
      (stats_after p file index total get_tags prepare_tags prepare_joins).fail_count =
        p.tag_stats_.fail_count + 1 ∧
      (stats_after p file index total get_tags prepare_tags prepare_joins).success_count =
        p.tag_stats_.success_count ∧
      (stats_after p file index total get_tags prepare_tags prepare_joins).skip_count =
        p.tag_stats_.skip_count) ∧
    (∀ pid, extract_pid file.name = some pid →
      (p.config_.skip_existing = true ∧ file.id ∈ p.existing_file_tags_) →
      (stats_after p file index total get_tags prepare_tags prepare_joins).skip_count =
        p.tag_stats_.skip_count + 1 ∧
      (stats_after p file index total get_tags prepare_tags prepare_joins).success_count =
        p.tag_stats_.success_count ∧
      (stats_after p file index total get_tags prepare_tags prepare_joins).fail_count =
        p.tag_stats_.fail_count) ∧
    (∀ pid, extract_pid file.name = some pid →
      ¬ (p.config_.skip_existing = true ∧ file.id ∈ p.existing_file_tags_) →
      (get_tags pid = none ∨ get_tags pid = some []) →
      (stats_after p file index total get_tags prepare_tags prepare_joins).fail_count =
        p.tag_stats_.fail_count + 1 ∧
      (stats_after p file index total get_tags prepare_tags prepare_joins).success_count =
        p.tag_stats_.success_count ∧
      (stats_after p file index total get_tags prepare_tags prepare_joins).skip_count =
        p.tag_stats_.skip_count) ∧
    (∀ pid tags, extract_pid file.name = some pid →
      ¬ (p.config_.skip_existing = true ∧ file.id ∈ p.existing_file_tags_) →
      get_tags pid = some tags → tags ≠ [] →
      (stats_after p file index total get_tags prepare_tags prepare_joins).success_count =
        p.tag_stats_.success_count + 1 ∧
      (stats_after p file index total get_tags prepare_tags prepare_joins).fail_count =
        p.tag_stats_.fail_count ∧
      (stats_after p file index total get_tags prepare_tags prepare_joins).skip_count =
        p.tag_stats_.skip_count) ∧
    (stats_after p file index total get_tags prepare_tags prepare_joins).total_count -
        ((stats_after p file index total get_tags prepare_tags prepare_joins).success_count +
          (stats_after p file index total get_tags prepare_tags prepare_joins).fail_count +
          (stats_after p file index total get_tags prepare_tags prepare_joins).skip_count) =
      p.tag_stats_.total_count -
        (p.tag_stats_.success_count + p.tag_stats_.fail_count + p.tag_stats_.skip_count) := by
  obtain ⟨⟨t0, t1⟩, ⟨s0, s1⟩, ⟨f0, f1⟩, ⟨k0, k1⟩⟩ := hb
  have ht := incr_of_below_max _ t0 t1
  have hs := incr_of_below_max _ s0 s1
  have hf := incr_of_below_max _ f0 f1
  have hk := incr_of_below_max _ k0 k1
  unfold stats_after
  rw [process_tag_task_stats]
  cases he : extract_pid file.name with
  | none =>
    simp only [ht, hf]
    refine ⟨?_, ?_, ?_, ?_, ?_, ?_⟩ <;> (intros; (try simp_all) <;> omega)
  | some pid =>
    by_cases hskip : p.config_.skip_existing = true ∧ file.id ∈ p.existing_file_tags_
    · have hc : (p.config_.skip_existing && decide (file.id ∈ p.existing_file_tags_)) = true := by
        simp [hskip.1, hskip.2]
      simp only [hc, if_true, ht, hk]
      refine ⟨?_, ?_, ?_, ?_, ?_, ?_⟩ <;> (intros; (try simp_all) <;> omega)
    · have hc : (p.config_.skip_existing && decide (file.id ∈ p.existing_file_tags_)) = false := by
        cases hb : (p.config_.skip_existing && decide (file.id ∈ p.existing_file_tags_))
        · rfl
        · simp only [Bool.and_eq_true, decide_eq_true_eq] at hb
          exact absurd hb hskip
      simp only [hc, Bool.false_eq_true, if_false]
      cases hg : get_tags pid with
      | none =>
        simp only [ht, hf]
        refine ⟨?_, ?_, ?_, ?_, ?_, ?_⟩ <;> (intros; (try simp_all) <;> omega)
      | some tags =>
        cases tags with
        | nil =>
          simp only [List.isEmpty_nil, if_true, ht, hf]
          refine ⟨?_, ?_, ?_, ?_, ?_, ?_⟩ <;> (intros; (try simp_all) <;> omega)
        | cons t rest =>
          simp only [List.isEmpty_cons, Bool.false_eq_true, if_false, ht, hs]
          refine ⟨?_, ?_, ?_, ?_, ?_, ?_⟩ <;> (intros; (try simp_all) <;> omega)

/-- C11, instance (Scenario A, skip-existing on): `12345-1.jpg` counts success
and total, `bad.txt` counts fail and total only, `67890_2.png` (file 3, already
associated) counts skip and total only. -/
theorem task_counts_once_witness :
    scenario_a.tag_stats_.below_max ∧
    (extract_pid "12345-1.jpg".toList = some "12345".toList ∧
      ¬ (scenario_a.config_.skip_existing = true ∧ (1 : Int) ∈ scenario_a.existing_file_tags_) ∧
      scenario_a_source "12345".toList = some ["Artist:Alice".toList, "Cat".toList] ∧
      (stats_after scenario_a ⟨1, "12345-1.jpg".toList⟩ 1 3 scenario_a_source true true).total_count =
        scenario_a.tag_stats_.total_count + 1 ∧
      (stats_after scenario_a ⟨1, "12345-1.jpg".toList⟩ 1 3 scenario_a_source true true).success_count =
        scenario_a.tag_stats_.success_count + 1 ∧
      (stats_after scenario_a ⟨1, "12345-1.jpg".toList⟩ 1 3 scenario_a_source true true).fail_count =
        scenario_a.tag_stats_.fail_count ∧
      (stats_after scenario_a ⟨1, "12345-1.jpg".toList⟩ 1 3 scenario_a_source true true).skip_count =
        scenario_a.tag_stats_.skip_count) ∧
    (extract_pid "bad.txt".toList = none ∧
      (stats_after scenario_a ⟨2, "bad.txt".toList⟩ 2 3 scenario_a_source true true).total_count =
        scenario_a.tag_stats_.total_count + 1 ∧
      (stats_after scenario_a ⟨2, "bad.txt".toList⟩ 2 3 scenario_a_source true true).fail_count =
        scenario_a.tag_stats_.fail_count + 1 ∧
      (stats_after scenario_a ⟨2, "bad.txt".toList⟩ 2 3 scenario_a_source true true).success_count =
        scenario_a.tag_stats_.success_count ∧
      (stats_after scenario_a ⟨2, "bad.txt".toList⟩ 2 3 scenario_a_source true true).skip_count =
        scenario_a.tag_stats_.skip_count) ∧
    (extract_pid "67890_2.png".toList = some "67890".toList ∧
      (scenario_a.config_.skip_existing = true ∧ (3 : Int) ∈ scenario_a.existing_file_tags_) ∧
      (stats_after scenario_a ⟨3, "67890_2.png".toList⟩ 3 3 scenario_a_source true true).total_count =
        scenario_a.tag_stats_.total_count + 1 ∧
      (stats_after scenario_a ⟨3, "67890_2.png".toList⟩ 3 3 scenario_a_source true true).skip_count =
        scenario_a.tag_stats_.skip_count + 1 ∧
      (stats_after scenario_a ⟨3, "67890_2.png".toList⟩ 3 3 scenario_a_source true true).success_count =
        scenario_a.tag_stats_.success_count ∧
      (stats_after scenario_a ⟨3, "67890_2.png".toList⟩ 3 3 scenario_a_source true true).fail_count =
        scenario_a.tag_stats_.fail_count) :=
  ⟨by decide,
    ⟨by decide, by decide, by decide,
      (task_counts_once scenario_a ⟨1, "12345-1.jpg".toList⟩ 1 3 scenario_a_source true true
        (by decide)).1,
      (task_counts_once scenario_a ⟨1, "12345-1.jpg".toList⟩ 1 3 scenario_a_source true true
        (by decide)).2.2.2.2.1 "12345".toList ["Artist:Alice".toList, "Cat".toList]
        (by decide) (by decide) (by decide) (by decide)⟩,
    ⟨by decide,
      (task_counts_once scenario_a ⟨2, "bad.txt".toList⟩ 2 3 scenario_a_source true true
        (by decide)).1,
      (task_counts_once scenario_a ⟨2, "bad.txt".toList⟩ 2 3 scenario_a_source true true
        (by decide)).2.1 (by decide)⟩,
    ⟨by decide, by decide,
      (task_counts_once scenario_a ⟨3, "67890_2.png".toList⟩ 3 3 scenario_a_source true true
        (by decide)).1,
      (task_counts_once scenario_a ⟨3, "67890_2.png".toList⟩ 3 3 scenario_a_source true true
        (by decide)).2.2.1 "67890".toList (by decide) (by decide)⟩⟩

/-! ## One association per tag -/

theorem add_tags_to_buffer_cons (p : Processor) (file_id : Int) (tag : Str) (rest : List Str) :
    add_tags_to_buffer p file_id (tag :: rest) =
      add_tags_to_buffer (add_tag file_id p tag) file_id rest := rfl

theorem grows_add_tags (q : Processor) (file_id : Int) (tags : List Str) :
    Grows q (add_tags_to_buffer q file_id tags) := by
  have h := grows_run q [Op.add_tags file_id tags]
  simpa [run, step] using h

/-- The loop body appends exactly the association with the resolved id. -/
theorem joins_add_tag (file_id : Int) (q : Processor) (tag : Str) :
    (add_tag file_id q tag).pending_tag_joins_ =
      q.pending_tag_joins_ ++ [⟨file_id, resolve_tag q tag⟩] := by
  rcases add_tag_cases file_id q tag with ⟨id, hc, h⟩ | ⟨hc, h⟩ <;> simp [h, resolve_tag, hc]

theorem entries_add_tag (file_id : Int) (q : Processor) (tag : Str) :
    ∀ e ∈ q.tag_cache_, e ∈ (add_tag file_id q tag).tag_cache_ := by
  intro e he
  rcases add_tag_cases file_id q tag with ⟨id, _, h⟩ | ⟨_, h⟩
  · rw [h]; exact he
  · rw [h]; exact List.mem_append_left _ he

theorem entries_add_tags (q : Processor) (file_id : Int) (tags : List Str) :
    ∀ e ∈ q.tag_cache_, e ∈ (add_tags_to_buffer q file_id tags).tag_cache_ := by
  induction tags generalizing q with
  | nil => intro e he; exact he
  | cons t rest ih =>
    intro e he
    rw [add_tags_to_buffer_cons]
    exact ih _ e (entries_add_tag file_id q t e he)

theorem TagCache.find_append_singleton (c : TagCache) (t : Str) (g : Int) (k : Str) :
    TagCache.find (c ++ [(t, g)]) k =
      match TagCache.find c k with
      | some v => some v
      | none => if t = k then some g else none := by
  induction c with
  | nil => simp [TagCache.find]
  | cons e rest ih =>
    obtain ⟨k0, v0⟩ := e
    by_cases h0 : k0 = k
    · simp [TagCache.find, h0]
    · simp [TagCache.find, h0, ih]

/-- A new entry with an id above every cached id keeps the cache injective. -/
theorem injective_add_tag (file_id : Int) (q : Processor) (tag : Str)
    (hinj : TagCache.injective q.tag_cache_)
    (hb : ∀ e ∈ (add_tag file_id q tag).tag_cache_, e.2 < INT64_MAX) :
    TagCache.injective (add_tag file_id q tag).tag_cache_ := by
  have hbq : ∀ e ∈ q.tag_cache_, e.2 < INT64_MAX :=
    fun e he => hb e (entries_add_tag file_id q tag e he)
  rcases add_tag_cases file_id q tag with ⟨id, _, h⟩ | ⟨hm, h⟩
  · rw [h]; exact hinj
  · rw [h]
    intro k1 k2 v h1 h2
    simp only [TagCache.find_append_singleton] at h1 h2
    have hgt := generate_tag_id_gt q hbq
    cases hf1 : TagCache.find q.tag_cache_ k1 with
    | some v1 =>
      rw [hf1] at h1
      simp only [Option.some.injEq] at h1
      subst h1
      cases hf2 : TagCache.find q.tag_cache_ k2 with
      | some v2 =>
        rw [hf2] at h2
        simp only [Option.some.injEq] at h2
        subst h2
        exact hinj k1 k2 _ hf1 hf2
      | none =>
        rw [hf2] at h2
        simp only at h2
        split at h2
        · simp only [Option.some.injEq] at h2
          have := hgt _ (TagCache.mem_of_find hf1)
          simp only at this
          omega
        · cases h2
    | none =>
      rw [hf1] at h1
      simp only at h1
      split at h1
      · rename_i ht1
        simp only [Option.some.injEq] at h1
        cases hf2 : TagCache.find q.tag_cache_ k2 with
        | some v2 =>
          rw [hf2] at h2
          simp only [Option.some.injEq] at h2
          have := hgt _ (TagCache.mem_of_find hf2)
          simp only at this
          omega
        | none =>
          rw [hf2] at h2
          simp only at h2
          split at h2
          · rename_i ht2
            exact ht1.symm.trans ht2
          · cases h2
      · cases h1

theorem injective_add_tags (q : Processor) (file_id : Int) (tags : List Str)
    (hinj : TagCache.injective q.tag_cache_)
    (hb : ∀ e ∈ (add_tags_to_buffer q file_id tags).tag_cache_, e.2 < INT64_MAX) :
    TagCache.injective (add_tags_to_buffer q file_id tags).tag_cache_ := by
  induction tags generalizing q with
  | nil => exact hinj
  | cons t rest ih =>
    rw [add_tags_to_buffer_cons] at hb ⊢
    exact ih _ (injective_add_tag file_id q t hinj
      (fun e he => hb e (entries_add_tags _ file_id rest e he))) hb

theorem exists_of_forall2_mem {c : TagCache} {tags : List Str} {ids : List Int}
    (h : List.Forall₂ (fun t id => TagCache.find c t = some id) tags ids) {id : Int}
    (hmem : id ∈ ids) : ∃ t ∈ tags, TagCache.find c t = some id := by
  induction h with
  | nil => cases hmem
  | @cons a b l1 l2 h1 _ ih =>
    rcases List.mem_cons.1 hmem with h | h
    · exact ⟨a, List.mem_cons_self _ _, h ▸ h1⟩
    · obtain ⟨t, ht, hf⟩ := ih h
      exact ⟨t, List.mem_cons_of_mem _ ht, hf⟩

theorem nodup_of_forall2 {c : TagCache} (hinj : TagCache.injective c) {tags : List Str}
    {ids : List Int} (h : List.Forall₂ (fun t id => TagCache.find c t = some id) tags ids)
    (hnd : tags.Nodup) : ids.Nodup := by
  induction h with
  | nil => exact List.nodup_nil
  | @cons t id ts is hhead htail ih =>
    rw [List.nodup_cons] at hnd ⊢
    refine ⟨?_, ih hnd.2⟩
    intro hmem
    obtain ⟨t', ht', hf⟩ := exists_of_forall2_mem htail hmem
    have := hinj t t' id hhead hf
    exact hnd.1 (this ▸ ht')

/-- C12 as stated fails on a hierarchical store, and at the end of the range of
`int64_t`: with an empty hierarchical cache the distinct names `Alice` and
`Artist:Alice` of one file both get the tag id 1 (the second is resolved through
the prefix-stripped probe); on a legacy store whose only tag has the id
`INT64_MAX` the two new names `c` and `d` both get the wrapped id. -/
theorem two_names_one_id :
    ["Alice".toList, "Artist:Alice".toList].Nodup ∧
    hierarchical_start.tag_cache_ = [] ∧
    (add_tags_to_buffer hierarchical_start 1
      ["Alice".toList, "Artist:Alice".toList]).pending_tag_joins_ = [⟨1, 1⟩, ⟨1, 1⟩] ∧
    ["c".toList, "d".toList].Nodup ∧
    max_id_start.tag_cache_ = [("a".toList, 9223372036854775807)] ∧
    (add_tags_to_buffer max_id_start 1 ["c".toList, "d".toList]).pending_tag_joins_ =
      [⟨1, -9223372036854775808⟩, ⟨1, -9223372036854775808⟩] := by
  decide

theorem injective_singleton (k : Str) (v : Int) : TagCache.injective [(k, v)] := by
  intro k1 k2 v' h1 h2
  simp only [TagCache.find] at h1 h2
  split at h1
  · split at h2
    · rename_i a b
      exact a.symm.trans b
    · cases h2
  · cases h1

/-! ## Searching for a character -/

/-- The search for a single character finds the first occurrence, after the
characters that differ from it. -/
theorem find_from_char (c : Char) (s : Str) (i : Nat) :
    find_from [c] s i =
      if c ∈ s then some (i + (s.takeWhile (fun x => x != c)).length) else none := by
  induction s generalizing i with
  | nil => simp [find_from]
  | cons x xs ih =>
    by_cases h : c = x
    · subst h
      simp [find_from, List.isPrefixOf]
    · have hx : (x != c) = true := by
        simp only [bne_iff_ne, ne_eq]
        exact fun e => h e.symm
      have hbeq : (c == x) = false := by simpa using h
      simp only [find_from, List.isPrefixOf, hbeq, Bool.false_and, Bool.false_eq_true, if_false,
        ih, List.mem_cons, h, false_or, List.takeWhile_cons, hx, if_true, List.length_cons]
      split <;> simp
      omega

theorem str_find_char_eq (s : Str) (c : Char) :
    str_find_char s c =
      if c ∈ s then some (s.takeWhile (fun x => x != c)).length else none := by
  simp [str_find_char, str_find, find_from_char]

/-- A string splits at the first occurrence of a character. -/
theorem split_at_first (c : Char) (s : Str) (h : c ∈ s) :
    s = s.takeWhile (fun x => x != c) ++ c :: (s.dropWhile (fun x => x != c)).tail := by
  induction s with
  | nil => cases h
  | cons x xs ih =>
    by_cases hx : x = c
    · subst hx
      simp
    · have hb : (x != c) = true := by simpa using hx
      have hm : c ∈ xs := by
        rcases List.mem_cons.1 h with h | h
        · exact absurd h.symm hx
        · exact h
      simp only [List.takeWhile_cons, hb, if_true, List.dropWhile_cons, List.cons_append]
      exact congrArg _ (ih hm)

theorem not_mem_takeWhile_ne (c : Char) (s : Str) : c ∉ s.takeWhile (fun x => x != c) := by
  intro h
  have := List.mem_takeWhile_imp h
  simp at this

theorem double_quotes_of_not_mem (s : Str) (h : '\'' ∉ s) : double_quotes s = s := by
  induction s with
  | nil => rfl
  | cons x xs ih =>
    have hx : x ≠ '\'' := fun e => h (e ▸ List.mem_cons_self _ _)
    simp [double_quotes, hx, ih (fun hm => h (List.mem_cons_of_mem _ hm))]

theorem double_quotes_append (a b : Str) :
    double_quotes (a ++ b) = double_quotes a ++ double_quotes b := by
  induction a with
  | nil => rfl
  | cons x xs ih =>
    by_cases hx : x = '\'' <;> simp [double_quotes, hx, ih]

/-- The escaping loop at position `done.length` of `done ++ rest` doubles the
quotes of `rest`, given more fuel than `rest` has quotes. -/
theorem escape_loop_spec (fuel : Nat) (done rest : Str) (h : rest.count '\'' < fuel) :
    escape_loop fuel (done ++ rest) done.length = some (done ++ double_quotes rest) := by
  induction fuel generalizing done rest with
  | zero => omega
  | succ fuel ih =>
    have hfind : str_find (done ++ rest) ['\''] done.length =
        if '\'' ∈ rest then some (done.length + (rest.takeWhile (fun x => x != '\'')).length)
        else none := by
      simp [str_find, find_from_char]
    simp only [escape_loop, hfind]
    by_cases hm : '\'' ∈ rest
    · simp only [hm, if_true]
      obtain ⟨pre, post, hrest, hpre, hlen⟩ : ∃ pre post : Str, rest = pre ++ '\'' :: post ∧
          '\'' ∉ pre ∧ (rest.takeWhile (fun x => x != '\'')).length = pre.length :=
        ⟨_, _, split_at_first '\'' rest hm, not_mem_takeWhile_ne '\'' rest, rfl⟩
      rw [hlen]
      subst hrest
      have e1 : done ++ (pre ++ '\'' :: post) = (done ++ pre) ++ '\'' :: post := by simp
      have e2 : done.length + pre.length = (done ++ pre).length := by simp
      have e3 : str_replace ((done ++ pre) ++ '\'' :: post) (done ++ pre).length 1 "''".toList =
          ((done ++ pre) ++ ['\'', '\'']) ++ post := by
        simp only [str_replace, List.take_left, List.drop_append]
        rfl
      have e4 : (done ++ pre).length + 2 = ((done ++ pre) ++ ['\'', '\'']).length := by
        simp only [List.length_append, List.length_cons, List.length_nil]
      have hcount : post.count '\'' < fuel := by
        simp only [List.count_append, List.count_cons_self] at h
        omega
      rw [e1, e2, e3, e4, ih _ post hcount, double_quotes_append,
        double_quotes_of_not_mem pre hpre]
      simp [double_quotes]
    · simp only [hm, if_false]
      rw [double_quotes_of_not_mem rest hm]

/-! ## The note text -/

theorem count_double_quotes (s : Str) :
    (double_quotes s).count '\'' = 2 * s.count '\'' := by
  induction s with
  | nil => rfl
  | cons x xs ih =>
    by_cases hx : x = '\''
    · subst hx
      simp only [double_quotes, if_true, List.count_cons_self, ih]
      omega
    · have hne : (x == '\'') = false := by simpa using hx
      simp only [double_quotes, hx, if_false, List.count_cons, hne, Bool.false_eq_true, ih]
      omega

theorem undouble_double_quotes (s : Str) : undouble_quotes (double_quotes s) = s := by
  induction s with
  | nil => rfl
  | cons x xs ih =>
    by_cases hx : x = '\''
    · subst hx
      simp [double_quotes, undouble_quotes, ih]
    · simp only [double_quotes, hx, if_false]
      cases hd : double_quotes xs with
      | nil =>
        rw [hd] at ih
        simp only [undouble_quotes] at ih ⊢
        rw [← ih]
      | cons d ds =>
        rw [hd] at ih
        simp only [undouble_quotes, hx, false_and, if_false, ih]

theorem note_before_escaping_eq (info : IllustInfo) :
    note_before_escaping info = note_layout info := by
  unfold note_before_escaping note_layout
  by_cases hc : info.comment = []
  · simp [hc]
  · have : info.comment.isEmpty = false := by
      cases h : info.comment with
      | nil => exact absurd h hc
      | cons _ _ => rfl
    simp [hc, this]

/-- C16: for every descriptive record, the note on which the escaping loop of
`format_note` starts is the layout L of the specification; the loop ends
whenever it is given more evaluations of its condition than L has single
quotes, with every single quote of L doubled; `format_note` returns that text;
it has exactly twice as many single quotes as L, and un-doubling them gives
back L. -/
theorem format_note_doubles_quotes (info : IllustInfo) :
    note_before_escaping info = note_layout info ∧
    (∀ fuel, (note_layout info).count '\'' < fuel →
      escape_loop fuel (note_before_escaping info) 0 = some (double_quotes (note_layout info))) ∧
    format_note info = double_quotes (note_layout info) ∧
    (format_note info).count '\'' = 2 * (note_layout info).count '\'' ∧
    undouble_quotes (format_note info) = note_layout info := by
  have hloop : ∀ fuel, (note_layout info).count '\'' < fuel →
      escape_loop fuel (note_before_escaping info) 0 =
        some (double_quotes (note_layout info)) := by
    intro fuel hf
    rw [note_before_escaping_eq]
    simpa using escape_loop_spec fuel [] (note_layout info) hf
  have hfmt : format_note info = double_quotes (note_layout info) := by
    have hle : (note_layout info).count '\'' < (note_before_escaping info).length + 1 := by
      rw [note_before_escaping_eq]
      exact Nat.lt_succ_of_le (List.count_le_length _ _)
    simp only [format_note, hloop _ hle]
  refine ⟨note_before_escaping_eq info, hloop, hfmt, ?_, ?_⟩
  · rw [hfmt, count_double_quotes]
  · rw [hfmt, undouble_double_quotes]

/-- C16, instance: a record without comment whose title is `it's`. -/
theorem format_note_doubles_quotes_witness :
    (note_layout sample_info).count '\'' < 2 ∧
    escape_loop 2 (note_before_escaping sample_info) 0 =
      some (double_quotes (note_layout sample_info)) ∧
    format_note sample_info =
      "Title:it''s\r\nArtist:Alice\r\nUID:42\r\nBookmark:7\r\nNo Comment\r\n".toList :=
  ⟨by decide, (format_note_doubles_quotes sample_info).2.1 2 (by decide), by decide⟩

/-- C13, the code at the failing input: the note text that `add_note_to_buffer`
builds ends with `Origin:` and the origin, with no line break after it, so the
search of `insert_notes` for a line break after `Origin:` fails and the origin
field is left empty, for a record without comment and for one with a comment.
Only when a line break follows is the origin read back. -/
theorem origin_field_left_empty :
    (add_note_to_buffer legacy_start 1 (format_note sample_info) sample_origin).pending_notes_ =
      [⟨1, "Title:it''s\r\nArtist:Alice\r\nUID:42\r\nBookmark:7\r\nNo Comment\r\n\r\nOrigin:https://www.pixiv.net/artworks/12345".toList⟩] ∧
    insert_notes_origin (format_note sample_info ++ "\r\nOrigin:".toList ++ sample_origin) = [] ∧
    insert_notes_origin
      (format_note sample_info_comment ++ "\r\nOrigin:".toList ++ sample_origin) = [] ∧
    sample_origin ≠ [] ∧
    insert_notes_origin
      (format_note sample_info ++ "\r\nOrigin:".toList ++ sample_origin ++ "\r\n".toList) =
      sample_origin := by
  decide

/-! ## Identifiers -/

theorem take_length_takeWhile (p : Char → Bool) (s : Str) :
    s.take (s.takeWhile p).length = s.takeWhile p :=
  (List.prefix_iff_eq_take.1 (List.takeWhile_prefix p)).symm

/-- What `find` and `substr(0, pos)` give for one separator. -/
theorem substr_before_char (s : Str) (c : Char) :
    (str_find_char s c).map (substr s 0) =
      if c ∈ s then some (s.takeWhile (fun x => x != c)) else none := by
  rw [str_find_char_eq]
  split
  · simp [substr, take_length_takeWhile]
  · rfl

/-- The extension check of `extract_pid` succeeds exactly for the names that
are longer than, and end with, one of the extensions. -/
theorem valid_ext_iff (filename : Str) :
    extensions.any (fun ext =>
      decide (filename.length > ext.length) &&
        decide (substr_from filename (filename.length - ext.length) = ext)) = true ↔
    ∃ ext ∈ extensions, ext <:+ filename ∧ ext.length < filename.length := by
  simp only [List.any_eq_true, Bool.and_eq_true, decide_eq_true_eq, substr_from]
  constructor
  · rintro ⟨ext, hm, hlen, hdrop⟩
    exact ⟨ext, hm, List.suffix_iff_eq_drop.2 hdrop.symm, hlen⟩
  · rintro ⟨ext, hm, hsuf, hlen⟩
    exact ⟨ext, hm, hlen, (List.suffix_iff_eq_drop.1 hsuf).symm⟩

/-- After the extension check `extract_pid` is the digit-only run chosen by the
precedence dash, underscore, dot. -/
theorem extract_pid_of_valid (filename : Str)
    (h : ∃ ext ∈ extensions, ext <:+ filename ∧ ext.length < filename.length) :
    extract_pid filename = (run_by_precedence filename).bind digits_only := by
  have hv := (valid_ext_iff filename).2 h
  have hd := substr_before_char filename '-'
  have hu := substr_before_char filename '_'
  have hp := substr_before_char filename '.'
  have hdig : ∀ pid : Str, (if (pid.isEmpty || !pid.all isdigit) = true then none else some pid) =
      digits_only pid := by
    intro pid
    unfold digits_only
    cases pid with
    | nil => simp
    | cons x xs =>
      by_cases ha : (x :: xs).all isdigit = true
      · simp [ha]
      · simp only [Bool.not_eq_true] at ha
        simp [ha]
  unfold extract_pid run_by_precedence
  simp only [hv, Bool.not_true, Bool.false_eq_true, if_false]
  by_cases h1 : '-' ∈ filename
  · rw [if_pos h1] at hd ⊢
    cases hf : str_find_char filename '-' with
    | none => rw [hf] at hd; cases hd
    | some d =>
      rw [hf] at hd
      simp only [Option.map_some', Option.some.injEq] at hd
      simp only [hd, Option.some_bind, hdig]
  · rw [if_neg h1] at hd ⊢
    cases hf : str_find_char filename '-' with
    | some d => rw [hf] at hd; cases hd
    | none =>
      simp only
      by_cases h2 : '_' ∈ filename
      · rw [if_pos h2] at hu ⊢
        cases hf2 : str_find_char filename '_' with
        | none => rw [hf2] at hu; cases hu
        | some u =>
          rw [hf2] at hu
          simp only [Option.map_some', Option.some.injEq] at hu
          simp only [hu, Option.some_bind, hdig]
      · rw [if_neg h2] at hu ⊢
        cases hf2 : str_find_char filename '_' with
        | some u => rw [hf2] at hu; cases hu
        | none =>
          simp only
          by_cases h3 : '.' ∈ filename
          · rw [if_pos h3] at hp ⊢
            cases hf3 : str_find_char filename '.' with
            | none => rw [hf3] at hp; cases hp
            | some d =>
              rw [hf3] at hp
              simp only [Option.map_some', Option.some.injEq] at hp
              simp only [hp, Option.some_bind, hdig]
          · rw [if_neg h3] at hp ⊢
            cases hf3 : str_find_char filename '.' with
            | some d => rw [hf3] at hp; cases hp
            | none => rfl

/-- C14 as stated fails when a `_` or a `.` comes before a `-`: the name
`123_4-5.jpg` ends in an allowed suffix and the run before its earliest
separator, `123`, is non-empty and digit-only, but `extract_pid` cuts at the
dash, gets `123_4` and returns none. -/
theorem earliest_separator_not_used :
    (∃ ext ∈ extensions, ext <:+ "123_4-5.jpg".toList) ∧
    digits_only (run_before_earliest "123_4-5.jpg".toList) = some "123".toList ∧
    extract_pid "123_4-5.jpg".toList = none := by
  decide

/-- C14 (as amended): for every display name that ends in an allowed suffix,
`extract_pid` returns the run of characters that precedes the first `-` when
the name contains a `-`, else the first `_` when it contains a `_`, else the
first `.`, provided that run is non-empty and consists only of digits, and none
otherwise. -/
theorem extract_pid_precedence (name : Str) (h : ∃ ext ∈ extensions, ext <:+ name) :
    extract_pid name = (run_by_precedence name).bind digits_only := by
  by_cases hv : ∃ ext ∈ extensions, ext <:+ name ∧ ext.length < name.length
  · exact extract_pid_of_valid name hv
  · obtain ⟨ext, hm, hsuf⟩ := h
    have hlen : ext.length = name.length := by
      have h1 := hsuf.length_le
      have h2 : ¬ ext.length < name.length := fun hl => hv ⟨ext, hm, hsuf, hl⟩
      omega
    have heq : ext = name := hsuf.eq_of_length hlen
    subst heq
    have e1 : ∀ n ∈ extensions, extract_pid n = none := by decide
    have e2 : ∀ n ∈ extensions, (run_by_precedence n).bind digits_only = none := by decide
    rw [e1 ext hm, e2 ext hm]

/-- C14, instance: `12345-1.jpg` gives `12345` and `67890_2.png` gives `67890`. -/
theorem extract_pid_precedence_witness :
    (∃ ext ∈ extensions, ext <:+ "12345-1.jpg".toList) ∧
    extract_pid "12345-1.jpg".toList =
      (run_by_precedence "12345-1.jpg".toList).bind digits_only ∧
    (run_by_precedence "12345-1.jpg".toList).bind digits_only = some "12345".toList ∧
    (∃ ext ∈ extensions, ext <:+ "67890_2.png".toList) ∧
    extract_pid "67890_2.png".toList =
      (run_by_precedence "67890_2.png".toList).bind digits_only ∧
    (run_by_precedence "67890_2.png".toList).bind digits_only = some "67890".toList :=
  ⟨by decide, extract_pid_precedence _ (by decide), by decide,
    by decide, extract_pid_precedence _ (by decide), by decide⟩

/-- C15: `extract_pid` returns none for every display name that does not end in
one of the allowed suffixes (`jpg`, `png`, `gif`, `webp`, `webm`, `zip` and each
of them followed by `.lnk`), whatever the name starts with. -/
theorem extract_pid_rejects_other_suffix (name : Str)
    (h : ∀ ext ∈ extensions, ¬ ext <:+ name) : extract_pid name = none := by
  have hv : extensions.any (fun ext =>
      decide (name.length > ext.length) &&
        decide (substr_from name (name.length - ext.length) = ext)) = false := by
    cases hb : extensions.any (fun ext =>
      decide (name.length > ext.length) &&
        decide (substr_from name (name.length - ext.length) = ext))
    · rfl
    · obtain ⟨ext, hm, hsuf, _⟩ := (valid_ext_iff name).1 hb
      exact absurd hsuf (h ext hm)
  unfold extract_pid
  simp only [hv, Bool.not_false, if_true]

/-- C15, instance: `bad.txt`, and a name that starts with digits,
`12345-1.txt`. -/
theorem extract_pid_rejects_other_suffix_witness :
    extensions = ["jpg", "png", "gif", "webp", "webm", "zip", "jpg.lnk", "png.lnk", "gif.lnk",
      "webp.lnk", "webm.lnk", "zip.lnk"].map String.toList ∧
    (∀ ext ∈ extensions, ¬ ext <:+ "bad.txt".toList) ∧
    extract_pid "bad.txt".toList = none ∧
    (∀ ext ∈ extensions, ¬ ext <:+ "12345-1.txt".toList) ∧
    extract_pid "12345-1.txt".toList = none :=
  ⟨rfl, by decide, extract_pid_rejects_other_suffix _ (by decide),
    by decide, extract_pid_rejects_other_suffix _ (by decide)⟩

/-! ## The tag list of the metadata source -/

theorem mem_push_tag (acc : List Str) (t : TagJson) (s : Str) :
    s ∈ push_tag acc t ↔ s ∈ acc ∨ s = t.tag ∨ t.translation_en = some s := by
  unfold push_tag
  cases h : t.translation_en with
  | none => simp
  | some en =>
    simp only [List.mem_append, List.mem_singleton, Option.some.injEq]
    constructor
    · rintro ((h1 | h1) | h1)
      · exact Or.inl h1
      · exact Or.inr (Or.inr h1.symm)
      · exact Or.inr (Or.inl h1)
    · rintro (h1 | h1 | h1)
      · exact Or.inl (Or.inl h1)
      · exact Or.inr h1
      · exact Or.inl (Or.inr h1.symm)

theorem mem_foldl_push_tag (tags : List TagJson) (acc : List Str) (s : Str) :
    s ∈ tags.foldl push_tag acc ↔
      s ∈ acc ∨ (∃ t ∈ tags, s = t.tag) ∨ (∃ t ∈ tags, t.translation_en = some s) := by
  induction tags generalizing acc with
  | nil => simp
  | cons t rest ih =>
    simp only [List.foldl_cons, ih, mem_push_tag, List.mem_cons, exists_eq_or_imp]
    constructor
    · rintro ((h | h | h) | h | h)
      · exact Or.inl h
      · exact Or.inr (Or.inl (Or.inl h))
      · exact Or.inr (Or.inr (Or.inl h))
      · exact Or.inr (Or.inl (Or.inr h))
      · exact Or.inr (Or.inr (Or.inr h))
    · rintro (h | (h | h) | (h | h))
      · exact Or.inl (Or.inl h)
      · exact Or.inl (Or.inr (Or.inl h))
      · exact Or.inr (Or.inl h)
      · exact Or.inl (Or.inr (Or.inr h))
      · exact Or.inr (Or.inr h)

theorem mem_std_unique (l : List Str) (s : Str) : s ∈ std_unique l ↔ s ∈ l := by
  induction l with
  | nil => simp [std_unique]
  | cons a rest ih =>
    cases rest with
    | nil => simp [std_unique]
    | cons b rest' =>
      by_cases hab : a = b
      · subst hab
        simp only [std_unique, if_true, ih, List.mem_cons]
        tauto
      · simp only [std_unique, hab, if_false, List.mem_cons, ih]

/-- After sorting, removing adjacent duplicates leaves a strictly ascending
list. -/
theorem sorted_std_unique (l : List Str) (h : l.Sorted (fun a b => a ≤ b)) :
    (std_unique l).Sorted (fun a b => a < b) := by
  induction l with
  | nil => simp [std_unique]
  | cons a rest ih =>
    cases rest with
    | nil => simp [std_unique]
    | cons b rest' =>
      have hrest : (b :: rest').Sorted (fun a b => a ≤ b) := h.of_cons
      have hab : a ≤ b := List.rel_of_sorted_cons h b (List.mem_cons_self _ _)
      by_cases heq : a = b
      · simp only [std_unique, heq, if_true]
        exact ih hrest
      · simp only [std_unique, heq, if_false]
        refine List.sorted_cons.2 ⟨?_, ih hrest⟩
        intro x hx
        have hx' : x ∈ b :: rest' := (mem_std_unique _ x).1 hx
        have hbx : b ≤ x := by
          rcases List.mem_cons.1 hx' with h1 | h1
          · exact h1 ▸ le_refl b
          · exact List.rel_of_sorted_cons hrest x h1
        exact lt_of_lt_of_le (lt_of_le_of_ne hab heq) hbx

/-- C18: for every successfully parsed remote response (the request succeeded,
the status is not 404, the body parses and does not report an error)
`get_tags` returns a list in strictly ascending order of the characters, hence
without duplicates, whose elements are exactly the artist tag `Artist:`
followed by the processed user name, every tag's original name and every
English translation that is present. -/
theorem get_tags_sorted_without_duplicates (parse : Str → Option IllustJson)
    (response : HttpResponse) (j : IllustJson) (hs : response.success = true)
    (h404 : response.status_code ≠ 404) (hp : parse response.body = some j)
    (he : j.error = false) :
    ∃ l : List Str,
      PixivAPI.get_tags parse (some response) = some l ∧
      l.Sorted (fun a b => a < b) ∧ l.Nodup ∧
      ∀ s, s ∈ l ↔
        (s = "Artist:".toList ++ process_artist_name j.userName ∨
          (∃ t ∈ j.tags, s = t.tag) ∨ (∃ t ∈ j.tags, t.translation_en = some s)) := by
  have hsorted := sorted_std_unique _
    (List.sorted_insertionSort (fun a b : Str => a ≤ b)
      (j.tags.foldl push_tag ([] ++ ["Artist:".toList ++ process_artist_name j.userName])))
  refine ⟨_, ?_, hsorted, hsorted.nodup, ?_⟩
  · simp only [PixivAPI.get_tags, hs, h404, hp, he, std_sort]
    rfl
  · intro s
    rw [mem_std_unique, List.mem_insertionSort, mem_foldl_push_tag]
    simp

/-- C18, instance: the artist `Alice@C99`, the tag `neko` with the translation
`cat`, and the tag `cat`. -/
theorem get_tags_sorted_without_duplicates_witness :
    (⟨200, [], true⟩ : HttpResponse).success = true ∧
    (⟨200, [], true⟩ : HttpResponse).status_code ≠ 404 ∧
    sample_json.error = false ∧
    PixivAPI.get_tags (fun _ => some sample_json) (some ⟨200, [], true⟩) =
      some ["Artist:Alice".toList, "cat".toList, "neko".toList] ∧
    ∃ l : List Str,
      PixivAPI.get_tags (fun _ => some sample_json) (some ⟨200, [], true⟩) = some l ∧
      l.Sorted (fun a b => a < b) ∧ l.Nodup ∧
      ∀ s, s ∈ l ↔
        (s = "Artist:".toList ++ process_artist_name sample_json.userName ∨
          (∃ t ∈ sample_json.tags, s = t.tag) ∨
          (∃ t ∈ sample_json.tags, t.translation_en = some s)) :=
  ⟨by decide, by decide, by decide, by decide,
    get_tags_sorted_without_duplicates (fun _ => some sample_json) ⟨200, [], true⟩ sample_json
      (by decide) (by decide) rfl (by decide)⟩

/-! ## The shape of a tag task -/

theorem add_tag_with_stats (file_id : Int) (q : Processor) (s : Statistics) (tag : Str) :
    add_tag file_id { q with tag_stats_ := s } tag =
      { add_tag file_id q tag with tag_stats_ := s } := by
  have hc : check_tag_exist { q with tag_stats_ := s } tag = check_tag_exist q tag := rfl
  have hgen : generate_tag_id { q with tag_stats_ := s } = generate_tag_id q := rfl
  unfold add_tag
  rw [hc]
  cases check_tag_exist q tag with
  | some id => rfl
  | none => simp only [hgen]

theorem add_tags_with_stats (q : Processor) (s : Statistics) (file_id : Int) (tags : List Str) :
    add_tags_to_buffer { q with tag_stats_ := s } file_id tags =
      { add_tags_to_buffer q file_id tags with tag_stats_ := s } := by
  induction tags generalizing q with
  | nil => rfl
  | cons t rest ih =>
    rw [add_tags_to_buffer_cons, add_tags_to_buffer_cons, add_tag_with_stats, ih]

/-- A tag task either returns early, having changed only the counters and
called at most `get_tags`, or it adds the tags it fetched and runs the two
non-forced flushes. -/
theorem process_tag_task_shape (p : Processor) (file : FileRecord) (index total : Int)
    (get_tags : Str → Option (List Str)) (ok1 ok2 : Bool) :
    (task_tags p file get_tags = [] ∧
      ∃ s evs, process_tag_task p file index total get_tags ok1 ok2 =
          ({ p with tag_stats_ := s }, evs) ∧
        (evs = [] ∨ ∃ pid, evs = [Event.get_tags pid])) ∨
    (task_tags p file get_tags ≠ [] ∧
      ∃ s pid, process_tag_task p file index total get_tags ok1 ok2 =
        ((flush_tag_join_buffer (flush_tag_buffer
            { add_tags_to_buffer p file.id (task_tags p file get_tags) with tag_stats_ := s }
            false ok1).proc false ok2).proc,
          [Event.get_tags pid] ++
            (flush_tag_buffer
              { add_tags_to_buffer p file.id (task_tags p file get_tags) with tag_stats_ := s }
              false ok1).events ++
            (flush_tag_join_buffer (flush_tag_buffer
              { add_tags_to_buffer p file.id (task_tags p file get_tags) with tag_stats_ := s }
              false ok1).proc false ok2).events)) := by
  unfold process_tag_task task_tags
  dsimp only
  cases he : extract_pid file.name with
  | none => exact Or.inl ⟨rfl, _, _, rfl, Or.inl rfl⟩
  | some pid =>
    dsimp only
    cases hc : (p.config_.skip_existing && decide (file.id ∈ p.existing_file_tags_)) with
    | true =>
      simp only [if_true]
      exact Or.inl ⟨trivial, _, _, rfl, Or.inl rfl⟩
    | false =>
      simp only [Bool.false_eq_true, if_false]
      cases hg : get_tags pid with
      | none => exact Or.inl ⟨rfl, _, _, rfl, Or.inr ⟨pid, rfl⟩⟩
      | some tags =>
        dsimp only
        cases tags with
        | nil =>
          simp only [List.isEmpty_nil, if_true]
          exact Or.inl ⟨trivial, _, _, rfl, Or.inr ⟨pid, rfl⟩⟩
        | cons t rest =>
          simp only [List.isEmpty_cons, Bool.false_eq_true, if_false]
          refine Or.inr ⟨by simp,
            Statistics.mk (incr p.tag_stats_.total_count) (incr p.tag_stats_.success_count)
              p.tag_stats_.fail_count p.tag_stats_.skip_count, pid, ?_⟩
          rw [add_tags_with_stats]

/-! ## Delivered batches and pending rows -/

theorem delivered_joins_append (a b : List Event) :
    delivered_joins (a ++ b) = delivered_joins a ++ delivered_joins b := by
  induction a with
  | nil => simp [delivered_joins]
  | cons e rest ih =>
    cases e with
    | insert_tag_join_files records result =>
      cases result <;> simp [delivered_joins, ih]
    | _ => simp [delivered_joins, ih]

theorem delivered_notes_append (a b : List Event) :
    delivered_notes (a ++ b) = delivered_notes a ++ delivered_notes b := by
  induction a with
  | nil => simp [delivered_notes]
  | cons e rest ih =>
    cases e with
    | insert_notes notes result =>
      cases result <;> simp [delivered_notes, ih]
    | _ => simp [delivered_notes, ih]

theorem delivered_tags_get_tags (pid : Str) (l : List Event) :
    delivered_tags (Event.get_tags pid :: l) = delivered_tags l := rfl

theorem delivered_joins_get_tags (pid : Str) (l : List Event) :
    delivered_joins (Event.get_tags pid :: l) = delivered_joins l := rfl

theorem delivered_notes_get_tags (pid : Str) (l : List Event) :
    delivered_notes (Event.get_tags pid :: l) = delivered_notes l := rfl

/-- A tag flush keeps, for each buffer, the delivered rows followed by the
pending ones. -/
theorem flush_tag_buffer_ledger (q : Processor) (force ok : Bool) :
    delivered_tags (flush_tag_buffer q force ok).events ++
        (flush_tag_buffer q force ok).proc.pending_tags_ = q.pending_tags_ ∧
    delivered_joins (flush_tag_buffer q force ok).events ++
        (flush_tag_buffer q force ok).proc.pending_tag_joins_ = q.pending_tag_joins_ ∧
    delivered_notes (flush_tag_buffer q force ok).events ++
        (flush_tag_buffer q force ok).proc.pending_notes_ = q.pending_notes_ := by
  rcases flush_tag_buffer_cases q force ok with h | ⟨_, h⟩ | ⟨_, h⟩ <;> rw [h] <;>
    simp [delivered_tags, delivered_joins, delivered_notes]

theorem flush_tag_join_buffer_ledger (q : Processor) (force ok : Bool) :
    delivered_tags (flush_tag_join_buffer q force ok).events ++
        (flush_tag_join_buffer q force ok).proc.pending_tags_ = q.pending_tags_ ∧
    delivered_joins (flush_tag_join_buffer q force ok).events ++
        (flush_tag_join_buffer q force ok).proc.pending_tag_joins_ = q.pending_tag_joins_ ∧
    delivered_notes (flush_tag_join_buffer q force ok).events ++
        (flush_tag_join_buffer q force ok).proc.pending_notes_ = q.pending_notes_ := by
  rcases flush_tag_join_buffer_cases q force ok with h | ⟨_, h⟩ | ⟨_, h⟩ <;> rw [h] <;>
    simp [delivered_tags, delivered_joins, delivered_notes]

theorem flush_note_buffer_ledger (q : Processor) (force ok : Bool) :
    delivered_tags (flush_note_buffer q force ok).events ++
        (flush_note_buffer q force ok).proc.pending_tags_ = q.pending_tags_ ∧
    delivered_joins (flush_note_buffer q force ok).events ++
        (flush_note_buffer q force ok).proc.pending_tag_joins_ = q.pending_tag_joins_ ∧
    delivered_notes (flush_note_buffer q force ok).events ++
        (flush_note_buffer q force ok).proc.pending_notes_ = q.pending_notes_ := by
  rcases flush_note_buffer_cases q force ok with h | ⟨_, h⟩ | ⟨_, h⟩ <;> rw [h] <;>
    simp [delivered_tags, delivered_joins, delivered_notes]

/-- The loop body only appends to the tag and association buffers and leaves
the note buffer alone. -/
theorem add_tag_extends (file_id : Int) (q : Processor) (tag : Str) :
    (∃ nt, (add_tag file_id q tag).pending_tags_ = q.pending_tags_ ++ nt) ∧
    (∃ nj, (add_tag file_id q tag).pending_tag_joins_ = q.pending_tag_joins_ ++ nj) ∧
    (add_tag file_id q tag).pending_notes_ = q.pending_notes_ := by
  rcases add_tag_cases file_id q tag with ⟨id, _, h⟩ | ⟨_, h⟩ <;> rw [h]
  · exact ⟨⟨[], by simp⟩, ⟨_, rfl⟩, rfl⟩
  · exact ⟨⟨_, rfl⟩, ⟨_, rfl⟩, rfl⟩

theorem add_tags_to_buffer_extends (q : Processor) (file_id : Int) (tags : List Str) :
    (∃ nt, (add_tags_to_buffer q file_id tags).pending_tags_ = q.pending_tags_ ++ nt) ∧
    (∃ nj, (add_tags_to_buffer q file_id tags).pending_tag_joins_ =
      q.pending_tag_joins_ ++ nj) ∧
    (add_tags_to_buffer q file_id tags).pending_notes_ = q.pending_notes_ := by
  induction tags generalizing q with
  | nil => exact ⟨⟨[], by simp [add_tags_to_buffer]⟩, ⟨[], by simp [add_tags_to_buffer]⟩, rfl⟩
  | cons t rest ih =>
    rw [add_tags_to_buffer_cons]
    obtain ⟨⟨nt, h1⟩, ⟨nj, h2⟩, h3⟩ := ih (add_tag file_id q t)
    obtain ⟨⟨nt0, g1⟩, ⟨nj0, g2⟩, g3⟩ := add_tag_extends file_id q t
    refine ⟨⟨nt0 ++ nt, ?_⟩, ⟨nj0 ++ nj, ?_⟩, ?_⟩
    · rw [h1, g1, List.append_assoc]
    · rw [h2, g2, List.append_assoc]
    · rw [h3, g3]

/-- A buffer that extends `l` is `l` followed by what lies behind `l`'s length. -/
theorem append_drop_of_extends {α : Type} (l m : List α) (h : ∃ n, m = l ++ n) :
    l ++ m.drop l.length = m := by
  obtain ⟨n, rfl⟩ := h
  simp

/-- One operation: for each buffer, the rows it delivered followed by the rows
pending after it are the rows pending before it followed by the rows it
appended. -/
theorem step_ledger (p : Processor) (op : Op) :
    delivered_tags (step p op).2 ++ (step p op).1.pending_tags_ =
      p.pending_tags_ ++ tags_appended p op ∧
    delivered_joins (step p op).2 ++ (step p op).1.pending_tag_joins_ =
      p.pending_tag_joins_ ++ joins_appended p op ∧
    delivered_notes (step p op).2 ++ (step p op).1.pending_notes_ =
      p.pending_notes_ ++ notes_appended p op := by
  cases op with
  | add_tags file_id tags =>
    obtain ⟨h1, h2, h3⟩ := add_tags_to_buffer_extends p file_id tags
    simp only [step, tags_appended, joins_appended, notes_appended, delivered_tags,
      delivered_joins, delivered_notes, List.nil_append, List.append_nil]
    exact ⟨(append_drop_of_extends _ _ h1).symm, (append_drop_of_extends _ _ h2).symm, h3⟩
  | add_note file_id note origin =>
    simp [step, tags_appended, joins_appended, notes_appended, delivered_tags,
      delivered_joins, delivered_notes, add_note_to_buffer]
  | flush_tag force ok =>
    simpa [step, tags_appended, joins_appended, notes_appended] using
      flush_tag_buffer_ledger p force ok
  | flush_tag_join force ok =>
    simpa [step, tags_appended, joins_appended, notes_appended] using
      flush_tag_join_buffer_ledger p force ok
  | flush_note force ok =>
    simpa [step, tags_appended, joins_appended, notes_appended] using
      flush_note_buffer_ledger p force ok
  | tag_task file index total get_tags ok1 ok2 =>
    obtain ⟨h1, h2, h3⟩ := add_tags_to_buffer_extends p file.id (task_tags p file get_tags)
    simp only [step, tags_appended, joins_appended, notes_appended, List.append_nil]
    rw [append_drop_of_extends _ _ h1, append_drop_of_extends _ _ h2]
    rcases process_tag_task_shape p file index total get_tags ok1 ok2 with
      ⟨ht, s, evs, h, hev⟩ | ⟨_, s, pid, h⟩
    · rw [h, ht]
      rcases hev with rfl | ⟨pid, rfl⟩ <;>
        simp [delivered_tags, delivered_joins, delivered_notes, add_tags_to_buffer]
    · generalize add_tags_to_buffer p file.id (task_tags p file get_tags) = q at h h1 h2 h3 ⊢
      dsimp only at h
      rw [h]
      obtain ⟨a1, a2, a3⟩ := flush_tag_buffer_ledger { q with tag_stats_ := s } false ok1
      obtain ⟨b1, b2, b3⟩ := flush_tag_join_buffer_ledger
        (flush_tag_buffer { q with tag_stats_ := s } false ok1).proc false ok2
      simp only [List.singleton_append, delivered_tags_get_tags, delivered_joins_get_tags,
        delivered_notes_get_tags, delivered_tags_append, delivered_joins_append,
        delivered_notes_append, List.append_assoc]
      rw [b1, b2, b3, a1, a2, a3]
      exact ⟨rfl, rfl, h3⟩

theorem run_foldl_acc (ops : List Op) (q : Processor) (evs : List Event) :
    ops.foldl (fun acc op => ((step acc.1 op).1, acc.2 ++ (step acc.1 op).2)) (q, evs) =
      ((run q ops).1, evs ++ (run q ops).2) := by
  induction ops generalizing q evs with
  | nil => simp [run]
  | cons op rest ih =>
    simp only [List.foldl_cons, run]
    rw [ih (step q op).1 (evs ++ (step q op).2), ih (step q op).1 ([] ++ (step q op).2)]
    simp [List.append_assoc]

theorem run_cons (p : Processor) (op : Op) (rest : List Op) :
    run p (op :: rest) =
      ((run (step p op).1 rest).1, (step p op).2 ++ (run (step p op).1 rest).2) := by
  have h := run_foldl_acc rest (step p op).1 ((step p op).2)
  simpa [run] using h

/-- A run: for each buffer, the delivered rows followed by the pending ones are
the rows pending at the start followed by the rows appended during the run. -/
theorem run_ledger (p : Processor) (ops : List Op) :
    delivered_tags (run p ops).2 ++ (run p ops).1.pending_tags_ =
      p.pending_tags_ ++ tags_appended_in_run p ops ∧
    delivered_joins (run p ops).2 ++ (run p ops).1.pending_tag_joins_ =
      p.pending_tag_joins_ ++ joins_appended_in_run p ops ∧
    delivered_notes (run p ops).2 ++ (run p ops).1.pending_notes_ =
      p.pending_notes_ ++ notes_appended_in_run p ops := by
  induction ops generalizing p with
  | nil =>
    simp [run_nil, delivered_tags, delivered_joins, delivered_notes, tags_appended_in_run,
      joins_appended_in_run, notes_appended_in_run]
  | cons op rest ih =>
    obtain ⟨i1, i2, i3⟩ := ih (step p op).1
    obtain ⟨s1, s2, s3⟩ := step_ledger p op
    rw [run_cons]
    simp only [delivered_tags_append, delivered_joins_append, delivered_notes_append,
      List.append_assoc, tags_appended_in_run, joins_appended_in_run, notes_appended_in_run]
    refine ⟨?_, ?_, ?_⟩
    · rw [i1, ← List.append_assoc, s1, List.append_assoc]
    · rw [i2, ← List.append_assoc, s2, List.append_assoc]
    · rw [i3, ← List.append_assoc, s3, List.append_assoc]

/-! ## A buffer shrinks only by a successful flush -/

theorem flush_tag_buffer_buffers (q : Processor) (force ok : Bool) :
    ((flush_tag_buffer q force ok).proc.pending_tags_ = q.pending_tags_ ∨
      ((flush_tag_buffer q force ok).proc.pending_tags_ = [] ∧
        (flush_tag_buffer q force ok).events =
          [Event.insert_tags q.pending_tags_ q.is_v3_db_ true])) ∧
    (flush_tag_buffer q force ok).proc.pending_tag_joins_ = q.pending_tag_joins_ ∧
    (flush_tag_buffer q force ok).proc.pending_notes_ = q.pending_notes_ := by
  rcases flush_tag_buffer_cases q force ok with h | ⟨_, h⟩ | ⟨_, h⟩ <;> rw [h] <;> simp

theorem flush_tag_join_buffer_buffers (q : Processor) (force ok : Bool) :
    (flush_tag_join_buffer q force ok).proc.pending_tags_ = q.pending_tags_ ∧
    ((flush_tag_join_buffer q force ok).proc.pending_tag_joins_ = q.pending_tag_joins_ ∨
      ((flush_tag_join_buffer q force ok).proc.pending_tag_joins_ = [] ∧
        (flush_tag_join_buffer q force ok).events =
          [Event.insert_tag_join_files q.pending_tag_joins_ true])) ∧
    (flush_tag_join_buffer q force ok).proc.pending_notes_ = q.pending_notes_ := by
  rcases flush_tag_join_buffer_cases q force ok with h | ⟨_, h⟩ | ⟨_, h⟩ <;> rw [h] <;> simp

theorem flush_note_buffer_buffers (q : Processor) (force ok : Bool) :
    (flush_note_buffer q force ok).proc.pending_tags_ = q.pending_tags_ ∧
    (flush_note_buffer q force ok).proc.pending_tag_joins_ = q.pending_tag_joins_ ∧
    ((flush_note_buffer q force ok).proc.pending_notes_ = q.pending_notes_ ∨
      ((flush_note_buffer q force ok).proc.pending_notes_ = [] ∧
        (flush_note_buffer q force ok).events =
          [Event.insert_notes q.pending_notes_ true])) := by
  rcases flush_note_buffer_cases q force ok with h | ⟨_, h⟩ | ⟨_, h⟩ <;> rw [h] <;> simp

/-- After one operation each buffer extends what it held before, or it is empty
and the operation made a successful store call for that buffer. -/
theorem step_shrinks_by_flush (q : Processor) (op : Op) :
    ((∃ new, (step q op).1.pending_tags_ = q.pending_tags_ ++ new) ∨
      ((step q op).1.pending_tags_ = [] ∧
        ∃ batch is_v3, Event.insert_tags batch is_v3 true ∈ (step q op).2)) ∧
    ((∃ new, (step q op).1.pending_tag_joins_ = q.pending_tag_joins_ ++ new) ∨
      ((step q op).1.pending_tag_joins_ = [] ∧
        ∃ batch, Event.insert_tag_join_files batch true ∈ (step q op).2)) ∧
    ((∃ new, (step q op).1.pending_notes_ = q.pending_notes_ ++ new) ∨
      ((step q op).1.pending_notes_ = [] ∧
        ∃ batch, Event.insert_notes batch true ∈ (step q op).2)) := by
  cases op with
  | add_tags file_id tags =>
    obtain ⟨h1, h2, h3⟩ := add_tags_to_buffer_extends q file_id tags
    exact ⟨Or.inl h1, Or.inl h2, Or.inl ⟨[], by simp [step, h3]⟩⟩
  | add_note file_id note origin =>
    exact ⟨Or.inl ⟨[], by simp [step, add_note_to_buffer]⟩,
      Or.inl ⟨[], by simp [step, add_note_to_buffer]⟩, Or.inl ⟨_, rfl⟩⟩
  | flush_tag force ok =>
    obtain ⟨h1, h2, h3⟩ := flush_tag_buffer_buffers q force ok
    refine ⟨?_, Or.inl ⟨[], by simp [step, h2]⟩, Or.inl ⟨[], by simp [step, h3]⟩⟩
    rcases h1 with h1 | ⟨h1, he⟩
    · exact Or.inl ⟨[], by simp [step, h1]⟩
    · exact Or.inr ⟨h1, _, _, by simp only [step, he]; exact List.mem_singleton_self _⟩
  | flush_tag_join force ok =>
    obtain ⟨h1, h2, h3⟩ := flush_tag_join_buffer_buffers q force ok
    refine ⟨Or.inl ⟨[], by simp [step, h1]⟩, ?_, Or.inl ⟨[], by simp [step, h3]⟩⟩
    rcases h2 with h2 | ⟨h2, he⟩
    · exact Or.inl ⟨[], by simp [step, h2]⟩
    · exact Or.inr ⟨h2, _, by simp only [step, he]; exact List.mem_singleton_self _⟩
  | flush_note force ok =>
    obtain ⟨h1, h2, h3⟩ := flush_note_buffer_buffers q force ok
    refine ⟨Or.inl ⟨[], by simp [step, h1]⟩, Or.inl ⟨[], by simp [step, h2]⟩, ?_⟩
    rcases h3 with h3 | ⟨h3, he⟩
    · exact Or.inl ⟨[], by simp [step, h3]⟩
    · exact Or.inr ⟨h3, _, by simp only [step, he]; exact List.mem_singleton_self _⟩
  | tag_task file index total get_tags ok1 ok2 =>
    obtain ⟨h1, h2, h3⟩ := add_tags_to_buffer_extends q file.id (task_tags q file get_tags)
    simp only [step]
    rcases process_tag_task_shape q file index total get_tags ok1 ok2 with
      ⟨ht, s, evs, h, hev⟩ | ⟨_, s, pid, h⟩
    · rw [h]
      exact ⟨Or.inl ⟨[], by simp⟩, Or.inl ⟨[], by simp⟩, Or.inl ⟨[], by simp⟩⟩
    · generalize add_tags_to_buffer q file.id (task_tags q file get_tags) = q2 at h h1 h2 h3
      dsimp only at h
      rw [h]
      obtain ⟨a1, a2, a3⟩ := flush_tag_buffer_buffers { q2 with tag_stats_ := s } false ok1
      obtain ⟨b1, b2, b3⟩ := flush_tag_join_buffer_buffers
        (flush_tag_buffer { q2 with tag_stats_ := s } false ok1).proc false ok2
      dsimp only
      refine ⟨?_, ?_, Or.inl ⟨[], ?_⟩⟩
      · rw [b1]
        rcases a1 with a1 | ⟨a1, he⟩
        · rw [a1]; exact Or.inl h1
        · refine Or.inr ⟨a1, ?_⟩
          rw [he]
          exact ⟨_, _, List.mem_append_left _
            (List.mem_append_right _ (List.mem_singleton_self _))⟩
      · rcases b2 with b2 | ⟨b2, he⟩
        · rw [b2, a2]; exact Or.inl h2
        · refine Or.inr ⟨b2, ?_⟩
          rw [he]
          exact ⟨_, List.mem_append_right _ (List.mem_singleton_self _)⟩
      · rw [b3, a3, List.append_nil]; exact h3

/-- C20: in every run of appends, flushes (forced or not, succeeding or
failing) and tag tasks from `p`, for each of the three buffers the batches
successfully handed to the store, concatenated in call order and followed by
the buffer contents, are the rows pending at `p` followed by the rows appended
during the run in append order. So no row is lost, reordered or delivered in
two successful batches. And an operation leaves each buffer extended, or empty
after a successful store call for it. -/
theorem buffers_keep_appended_rows (p : Processor) (ops : List Op) :
    (delivered_tags (run p ops).2 ++ (run p ops).1.pending_tags_ =
        p.pending_tags_ ++ tags_appended_in_run p ops ∧
      delivered_joins (run p ops).2 ++ (run p ops).1.pending_tag_joins_ =
        p.pending_tag_joins_ ++ joins_appended_in_run p ops ∧
      delivered_notes (run p ops).2 ++ (run p ops).1.pending_notes_ =
        p.pending_notes_ ++ notes_appended_in_run p ops) ∧
    ∀ (q : Processor) (op : Op),
      ((∃ new, (step q op).1.pending_tags_ = q.pending_tags_ ++ new) ∨
        ((step q op).1.pending_tags_ = [] ∧
          ∃ batch is_v3, Event.insert_tags batch is_v3 true ∈ (step q op).2)) ∧
      ((∃ new, (step q op).1.pending_tag_joins_ = q.pending_tag_joins_ ++ new) ∨
        ((step q op).1.pending_tag_joins_ = [] ∧
          ∃ batch, Event.insert_tag_join_files batch true ∈ (step q op).2)) ∧
      ((∃ new, (step q op).1.pending_notes_ = q.pending_notes_ ++ new) ∨
        ((step q op).1.pending_notes_ = [] ∧
          ∃ batch, Event.insert_notes batch true ∈ (step q op).2)) := by
  exact ⟨run_ledger p ops, step_shrinks_by_flush⟩

/-- C20, instance: in `mixed_run` the failed flush delivers nothing, the
successful one delivers the three tag rows appended until then, the fourth row
is pending; the five associations are all pending and the note was delivered. -/
theorem buffers_keep_appended_rows_witness :
    (delivered_tags (run legacy_start mixed_run).2 ++
        (run legacy_start mixed_run).1.pending_tags_ =
        legacy_start.pending_tags_ ++ tags_appended_in_run legacy_start mixed_run ∧
      delivered_joins (run legacy_start mixed_run).2 ++
        (run legacy_start mixed_run).1.pending_tag_joins_ =
        legacy_start.pending_tag_joins_ ++ joins_appended_in_run legacy_start mixed_run ∧
      delivered_notes (run legacy_start mixed_run).2 ++
        (run legacy_start mixed_run).1.pending_notes_ =
        legacy_start.pending_notes_ ++ notes_appended_in_run legacy_start mixed_run) ∧
    legacy_start.pending_tags_ = [] ∧
    delivered_tags (run legacy_start mixed_run).2 =
      [⟨1, "Cat".toList⟩, ⟨2, "Dog".toList⟩, ⟨3, "Fox".toList⟩] ∧
    (run legacy_start mixed_run).1.pending_tags_ = [⟨4, "Elk".toList⟩] ∧
    tags_appended_in_run legacy_start mixed_run =
      [⟨1, "Cat".toList⟩, ⟨2, "Dog".toList⟩, ⟨3, "Fox".toList⟩, ⟨4, "Elk".toList⟩] ∧
    delivered_joins (run legacy_start mixed_run).2 = [] ∧
    (run legacy_start mixed_run).1.pending_tag_joins_ =
      [⟨1, 1⟩, ⟨1, 2⟩, ⟨2, 1⟩, ⟨2, 3⟩, ⟨3, 4⟩] ∧
    delivered_notes (run legacy_start mixed_run).2 = [⟨1, "Title:t\r\nOrigin:u".toList⟩] ∧
    (run legacy_start mixed_run).1.pending_notes_ = [] :=
  ⟨(buffers_keep_appended_rows legacy_start mixed_run).1, by decide, by decide, by decide,
    by decide, by decide, by decide, by decide, by decide⟩

/-! ## The not-found sentinel -/

theorem task_tags_of_fetch (p : Processor) (file : FileRecord)
    (get_tags : Str → Option (List Str)) (pid : Str) (tags : List Str)
    (hpid : extract_pid file.name = some pid)
    (hskip : (p.config_.skip_existing && decide (file.id ∈ p.existing_file_tags_)) = false)
    (hg : get_tags pid = some tags) : task_tags p file get_tags = tags := by
  unfold task_tags
  rw [hpid]
  simp only [hskip, Bool.false_eq_true, if_false, hg]

theorem check_tag_exist_error_404 (p : Processor) :
    check_tag_exist p "Error:404".toList = TagCache.find p.tag_cache_ "Error:404".toList := by
  apply check_tag_exist_eq_find
  intro _ h
  exact absurd h (by decide)

/-- C19: when a tag task reaches the fetch (the file name yields an identifier
and the file is not skipped) and the remote answers with status 404, `get_tags`
returns the one-element list `["Error:404"]`, and the task treats it as a
result: exactly one association, of the file with the id resolved for
`Error:404`, joins the association rows (delivered or pending); no tag row is
added when the name is cached, else one row with the newly generated id;
`total_count` and `success_count` are incremented, `fail_count` and
`skip_count` are not touched. -/
theorem not_found_counts_as_success (parse : Str → Option IllustJson)
    (http : Str → Option HttpResponse) (p : Processor) (file : FileRecord) (index total : Int)
    (ok1 ok2 : Bool) (pid : Str) (r : HttpResponse)
    (hpid : extract_pid file.name = some pid)
    (hskip : (p.config_.skip_existing && decide (file.id ∈ p.existing_file_tags_)) = false)
    (hr : http pid = some r) (hs : r.success = true) (h404 : r.status_code = 404) :
    PixivAPI.get_tags parse (http pid) = some ["Error:404".toList] ∧
    delivered_joins (process_tag_task p file index total (api_get_tags parse http) ok1 ok2).2 ++
        (process_tag_task p file index total (api_get_tags parse http) ok1 ok2).1.pending_tag_joins_ =
      p.pending_tag_joins_ ++ [⟨file.id, resolve_tag p "Error:404".toList⟩] ∧
    (∀ id, TagCache.find p.tag_cache_ "Error:404".toList = some id →
      resolve_tag p "Error:404".toList = id ∧
      delivered_tags (process_tag_task p file index total (api_get_tags parse http) ok1 ok2).2 ++
          (process_tag_task p file index total (api_get_tags parse http) ok1 ok2).1.pending_tags_ =
        p.pending_tags_) ∧
    (TagCache.find p.tag_cache_ "Error:404".toList = none →
      resolve_tag p "Error:404".toList = generate_tag_id p ∧
      delivered_tags (process_tag_task p file index total (api_get_tags parse http) ok1 ok2).2 ++
          (process_tag_task p file index total (api_get_tags parse http) ok1 ok2).1.pending_tags_ =
        p.pending_tags_ ++ [⟨generate_tag_id p, "Error:404".toList⟩]) ∧
    (process_tag_task p file index total (api_get_tags parse http) ok1 ok2).1.tag_stats_ =
      { p.tag_stats_ with
        total_count := incr p.tag_stats_.total_count
        success_count := incr p.tag_stats_.success_count } ∧
    (p.tag_stats_.below_max →
      (process_tag_task p file index total (api_get_tags parse http) ok1 ok2).1.tag_stats_ =
        { p.tag_stats_ with
          total_count := p.tag_stats_.total_count + 1
          success_count := p.tag_stats_.success_count + 1 }) := by
  have hget : PixivAPI.get_tags parse (http pid) = some ["Error:404".toList] := by
    rw [hr]
    simp only [PixivAPI.get_tags, hs, h404, Bool.not_true, Bool.false_eq_true, if_false, if_true]
  have hg : api_get_tags parse http pid = some ["Error:404".toList] := hget
  have ht := task_tags_of_fetch p file (api_get_tags parse http) pid _ hpid hskip hg
  obtain ⟨l1, l2, _⟩ := step_ledger p
    (Op.tag_task file index total (api_get_tags parse http) ok1 ok2)
  simp only [step, tags_appended, joins_appended, ht] at l1 l2
  have hadd : add_tags_to_buffer p file.id ["Error:404".toList] =
      add_tag file.id p "Error:404".toList := rfl
  rw [hadd] at l1 l2
  have hstats := process_tag_task_stats p file index total (api_get_tags parse http) ok1 ok2
  rw [hpid] at hstats
  simp only [hskip, Bool.false_eq_true, if_false, hg, List.isEmpty_cons] at hstats
  have hc := check_tag_exist_error_404 p
  refine ⟨hget, ?_, ?_, ?_, hstats, ?_⟩
  · rw [l2, joins_add_tag]
    simp
  · intro id hid
    rw [hid] at hc
    rcases add_tag_cases file.id p "Error:404".toList with ⟨id2, hc2, h⟩ | ⟨hc2, h⟩
    · refine ⟨by simp only [resolve_tag, hc], ?_⟩
      rw [l1, h]
      simp
    · rw [hc] at hc2
      cases hc2
  · intro hnone
    rw [hnone] at hc
    rcases add_tag_cases file.id p "Error:404".toList with ⟨id2, hc2, h⟩ | ⟨hc2, h⟩
    · rw [hc] at hc2
      cases hc2
    · refine ⟨by simp only [resolve_tag, hc], ?_⟩
      rw [l1, h]
      simp
  · intro hb
    obtain ⟨⟨a1, a2⟩, ⟨b1, b2⟩, _, _⟩ := hb
    rw [hstats, incr_of_below_max _ a1 a2, incr_of_below_max _ b1 b2]

/-- C19, instance: file 1 named `12345-1.jpg` on a legacy store without tags,
the remote answers 404: the tag `Error:404` gets id 1, one association
`(1, 1)` is pending, success and total are 1, fail and skip are 0. -/
theorem not_found_counts_as_success_witness :
    (extract_pid "12345-1.jpg".toList = some "12345".toList ∧
      (legacy_start.config_.skip_existing &&
        decide ((1 : Int) ∈ legacy_start.existing_file_tags_)) = false ∧
      not_found_remote "12345".toList = some ⟨404, [], true⟩) ∧
    (PixivAPI.get_tags no_json (not_found_remote "12345".toList) = some ["Error:404".toList] ∧
      delivered_joins (process_tag_task legacy_start ⟨1, "12345-1.jpg".toList⟩ 1 1
          (api_get_tags no_json not_found_remote) true true).2 ++
        (process_tag_task legacy_start ⟨1, "12345-1.jpg".toList⟩ 1 1
          (api_get_tags no_json not_found_remote) true true).1.pending_tag_joins_ =
        legacy_start.pending_tag_joins_ ++ [⟨1, resolve_tag legacy_start "Error:404".toList⟩]) ∧
    (process_tag_task legacy_start ⟨1, "12345-1.jpg".toList⟩ 1 1
        (api_get_tags no_json not_found_remote) true true).1.pending_tag_joins_ = [⟨1, 1⟩] ∧
    (process_tag_task legacy_start ⟨1, "12345-1.jpg".toList⟩ 1 1
        (api_get_tags no_json not_found_remote) true true).1.pending_tags_ =
      [⟨1, "Error:404".toList⟩] ∧
    (process_tag_task legacy_start ⟨1, "12345-1.jpg".toList⟩ 1 1
        (api_get_tags no_json not_found_remote) true true).1.tag_stats_ = ⟨1, 1, 0, 0⟩ :=
  ⟨⟨by decide, by decide, rfl⟩,
    ⟨(not_found_counts_as_success no_json not_found_remote legacy_start
        ⟨1, "12345-1.jpg".toList⟩ 1 1 true true "12345".toList ⟨404, [], true⟩
        (by decide) (by decide) rfl rfl rfl).1,
      (not_found_counts_as_success no_json not_found_remote legacy_start
        ⟨1, "12345-1.jpg".toList⟩ 1 1 true true "12345".toList ⟨404, [], true⟩
        (by decide) (by decide) rfl rfl rfl).2.1⟩,
    by decide, by decide, by decide⟩

/-! ## Artist-tag restructuring -/

theorem foldl_map_pointwise {α β : Type} (f : β → α → α) (tags : List β) (table : List α) :
    tags.foldl (fun t tag => t.map (f tag)) table =
      table.map (fun r => tags.foldl (fun r tag => f tag r) r) := by
  induction tags generalizing table with
  | nil => simp
  | cons t rest ih =>
    simp only [List.foldl_cons]
    rw [ih]
    simp [List.map_map, Function.comp_def]

/-- Updates for other ids leave a row alone. -/
theorem fold_update_row_other (parent_id : Int) (tags : List TagRecord) (r : TagRow)
    (h : ∀ tag ∈ tags, tag.id ≠ r.id) :
    tags.foldl (fun r tag => update_row (strip_artist tag.name) parent_id tag.id r) r = r := by
  induction tags with
  | nil => rfl
  | cons t rest ih =>
    have ht : t.id ≠ r.id := h t (List.mem_cons_self _ _)
    have hstep : update_row (strip_artist t.name) parent_id t.id r = r := by
      unfold update_row
      rw [if_neg (fun e => ht e.symm)]
    simp only [List.foldl_cons, hstep]
    exact ih (fun tag hm => h tag (List.mem_cons_of_mem _ hm))

/-- A row already regrouped by `tg` stays so when `tg` is the only tag with its
id. -/
theorem fold_update_row_done (parent_id : Int) (tg : TagRecord) (tags : List TagRecord)
    (h : ∀ tag ∈ tags, tag.id = tg.id → tag = tg) :
    tags.foldl (fun r tag => update_row (strip_artist tag.name) parent_id tag.id r)
        ⟨tg.id, strip_artist tg.name, some parent_id⟩ =
      ⟨tg.id, strip_artist tg.name, some parent_id⟩ := by
  induction tags with
  | nil => rfl
  | cons t rest ih =>
    have hstep : update_row (strip_artist t.name) parent_id t.id
        ⟨tg.id, strip_artist tg.name, some parent_id⟩ =
        ⟨tg.id, strip_artist tg.name, some parent_id⟩ := by
      unfold update_row
      by_cases e : tg.id = t.id
      · have := h t (List.mem_cons_self _ _) e.symm
        subst this
        simp
      · simp [e]
    simp only [List.foldl_cons, hstep]
    exact ih (fun tag hm => h tag (List.mem_cons_of_mem _ hm))

/-- A row whose id has exactly the tag `tg` in the batch ends as the update by
`tg`. -/
theorem fold_update_row_hit (parent_id : Int) (tg : TagRecord) (tags : List TagRecord)
    (r : TagRow) (hr : r.id = tg.id) (hm : tg ∈ tags)
    (h : ∀ tag ∈ tags, tag.id = tg.id → tag = tg) :
    tags.foldl (fun r tag => update_row (strip_artist tag.name) parent_id tag.id r) r =
      ⟨tg.id, strip_artist tg.name, some parent_id⟩ := by
  induction tags generalizing r with
  | nil => cases hm
  | cons t rest ih =>
    simp only [List.foldl_cons]
    by_cases e : t.id = tg.id
    · have ht := h t (List.mem_cons_self _ _) e
      subst ht
      have hstep : update_row (strip_artist t.name) parent_id t.id r =
          ⟨t.id, strip_artist t.name, some parent_id⟩ := by
        unfold update_row
        simp [hr]
      rw [hstep]
      exact fold_update_row_done parent_id t rest
        (fun tag hm2 => h tag (List.mem_cons_of_mem _ hm2))
    · have hstep : update_row (strip_artist t.name) parent_id t.id r = r := by
        unfold update_row
        rw [if_neg (fun e2 => e (by rw [← e2, hr]))]
      rw [hstep]
      have hm2 : tg ∈ rest := by
        rcases List.mem_cons.mp hm with rfl | hm2
        · exact absurd rfl e
        · exact hm2
      exact ih r hr hm2 (fun tag hm3 => h tag (List.mem_cons_of_mem _ hm3))

theorem mem_get_artist_subtags (table : TagTable) (tag : TagRecord) :
    tag ∈ Database.get_artist_subtags true table ↔
      ∃ r ∈ table, ungrouped r = true ∧ tag = ⟨r.id, r.name⟩ := by
  simp only [Database.get_artist_subtags, Bool.not_true, Bool.false_eq_true, if_false,
    List.mem_map, List.mem_filter]
  constructor
  · rintro ⟨r, ⟨hr, hu⟩, rfl⟩
    exact ⟨r, hr, hu, rfl⟩
  · rintro ⟨r, hr, hu, rfl⟩
    exact ⟨r, ⟨hr, hu⟩, rfl⟩

theorem find_artist_isSome (table : TagTable) (r : TagRow) (hr : r ∈ table)
    (h : r.name = "Artist".toList) :
    ∃ r2, table.find? (fun r => decide (r.name = "Artist".toList)) = some r2 := by
  cases hf : table.find? (fun r => decide (r.name = "Artist".toList)) with
  | some r2 => exact ⟨r2, rfl⟩
  | none =>
    have := List.find?_eq_none.mp hf r hr
    simp [h] at this

/-! ## The identifier, exactly -/

theorem extract_pid_of_invalid (filename : Str)
    (h : ¬ ∃ ext ∈ extensions, ext <:+ filename ∧ ext.length < filename.length) :
    extract_pid filename = none := by
  have hv : extensions.any (fun ext =>
      decide (filename.length > ext.length) &&
        decide (substr_from filename (filename.length - ext.length) = ext)) = false := by
    cases hb : extensions.any (fun ext =>
      decide (filename.length > ext.length) &&
        decide (substr_from filename (filename.length - ext.length) = ext)) with
    | false => rfl
    | true => exact absurd ((valid_ext_iff filename).1 hb) h
  unfold extract_pid
  simp only [hv, Bool.not_false, if_true]

theorem digits_only_eq_some (run p : Str) :
    digits_only run = some p ↔ run = p ∧ p ≠ [] ∧ p.all isdigit = true := by
  unfold digits_only
  constructor
  · intro h
    split at h
    · rename_i hc
      cases h
      exact ⟨rfl, hc.1, hc.2⟩
    · cases h
  · rintro ⟨rfl, h1, h2⟩
    rw [if_pos ⟨h1, h2⟩]

/-- The part before the first occurrence of a character that occurs is a
proper prefix. -/
theorem takeWhile_ne_proper (c : Char) (s : Str) (h : c ∈ s) :
    s.takeWhile (fun x => x != c) <+: s ∧ (s.takeWhile (fun x => x != c)).length < s.length := by
  have hp : s.takeWhile (fun x => x != c) <+: s := List.takeWhile_prefix _
  refine ⟨hp, ?_⟩
  rcases Nat.lt_or_ge (s.takeWhile (fun x => x != c)).length s.length with hl | hl
  · exact hl
  · exfalso
    have hlen : (s.takeWhile (fun x => x != c)).length = s.length :=
      Nat.le_antisymm hp.length_le hl
    have heq := hp.eq_of_length hlen
    have hall := List.takeWhile_eq_self_iff.1 heq c h
    simp at hall

theorem run_by_precedence_proper (name p : Str) (h : run_by_precedence name = some p) :
    p <+: name ∧ p.length < name.length := by
  unfold run_by_precedence at h
  split at h
  · rename_i hc
    cases h
    exact takeWhile_ne_proper _ _ hc
  · split at h
    · rename_i hc
      cases h
      exact takeWhile_ne_proper _ _ hc
    · split at h
      · rename_i hc
        cases h
        exact takeWhile_ne_proper _ _ hc
      · cases h

/-- C27: `extract_pid` returns `p` if and only if the name is strictly longer
than, and ends with, one of the twelve listed suffixes, and `p` is the run that
precedes the first `-` when the name contains a `-`, else the first `_` when it
contains a `_`, else the first `.`, and that run is non-empty and all digits;
in every other case it returns none. Every returned identifier is a non-empty
digit-only proper prefix of the name. -/
theorem extract_pid_exact (name p : Str) :
    (extract_pid name = some p ↔
      (∃ ext ∈ extensions, ext <:+ name ∧ ext.length < name.length) ∧
        run_by_precedence name = some p ∧ p ≠ [] ∧ p.all isdigit = true) ∧
    (extract_pid name = none ↔
      ¬ ((∃ ext ∈ extensions, ext <:+ name ∧ ext.length < name.length) ∧
        ∃ q, run_by_precedence name = some q ∧ q ≠ [] ∧ q.all isdigit = true)) ∧
    (extract_pid name = some p →
      p ≠ [] ∧ p.all isdigit = true ∧ p <+: name ∧ p.length < name.length) ∧
    extensions.length = 12 := by
  have hiff : ∀ q, extract_pid name = some q ↔
      (∃ ext ∈ extensions, ext <:+ name ∧ ext.length < name.length) ∧
        run_by_precedence name = some q ∧ q ≠ [] ∧ q.all isdigit = true := by
    intro q
    by_cases hv : ∃ ext ∈ extensions, ext <:+ name ∧ ext.length < name.length
    · rw [extract_pid_of_valid name hv]
      constructor
      · intro h
        obtain ⟨r, hr, hd⟩ := Option.bind_eq_some.1 h
        obtain ⟨rfl, h1, h2⟩ := (digits_only_eq_some r q).1 hd
        exact ⟨hv, hr, h1, h2⟩
      · rintro ⟨_, hr, h1, h2⟩
        exact Option.bind_eq_some.2 ⟨q, hr, (digits_only_eq_some q q).2 ⟨rfl, h1, h2⟩⟩
    · rw [extract_pid_of_invalid name hv]
      constructor
      · intro h
        cases h
      · rintro ⟨h, _⟩
        exact absurd h hv
  refine ⟨hiff p, ?_, ?_, rfl⟩
  · constructor
    · rintro hn ⟨hv, q, hq⟩
      have := (hiff q).2 ⟨hv, hq⟩
      rw [hn] at this
      cases this
    · intro hn
      cases he : extract_pid name with
      | none => rfl
      | some q =>
        obtain ⟨hv, hq⟩ := (hiff q).1 he
        exact absurd ⟨hv, q, hq⟩ hn
  · intro h
    obtain ⟨_, hr, h1, h2⟩ := (hiff p).1 h
    obtain ⟨h3, h4⟩ := run_by_precedence_proper name p hr
    exact ⟨h1, h2, h3, h4⟩

/-- C27, instance: `12345_p0-1.jpg` is cut at the dash although the underscore
comes first, so there is no identifier; `12345-1.jpg` gives `12345`, a proper
prefix; the bare suffix `jpg` and `.jpg` give none. -/
theorem extract_pid_exact_witness :
    (extract_pid "12345-1.jpg".toList = some "12345".toList ↔
      (∃ ext ∈ extensions, ext <:+ "12345-1.jpg".toList ∧
        ext.length < "12345-1.jpg".toList.length) ∧
        run_by_precedence "12345-1.jpg".toList = some "12345".toList ∧
        "12345".toList ≠ [] ∧ "12345".toList.all isdigit = true) ∧
    extract_pid "12345-1.jpg".toList = some "12345".toList ∧
    run_by_precedence "12345_p0-1.jpg".toList = some "12345_p0".toList ∧
    extract_pid "12345_p0-1.jpg".toList = none ∧
    extract_pid "jpg".toList = none ∧
    extract_pid ".jpg".toList = none :=
  ⟨(extract_pid_exact "12345-1.jpg".toList "12345".toList).1, by decide, by decide,
    by decide, by decide, by decide⟩

/-! ## Tag lookup -/

theorem find_from_ge (needle : Str) (s : Str) (i j : Nat) (h : find_from needle s i = some j) :
    i ≤ j := by
  induction s generalizing i with
  | nil =>
    simp only [find_from] at h
    split at h
    · cases h
      exact Nat.le_refl _
    · cases h
  | cons c cs ih =>
    simp only [find_from] at h
    split at h
    · cases h
      exact Nat.le_refl _
    · have := ih (i + 1) h
      omega

/-- The test `tag_name.find("Artist:") == 0` holds exactly for the names that
start with `Artist:`. -/
theorem str_find_artist_zero (name : Str) :
    str_find name "Artist:".toList 0 = some 0 ↔ "Artist:".toList <+: name := by
  unfold str_find
  simp only [Nat.zero_le, if_true, List.drop_zero]
  cases name with
  | nil =>
    simp only [find_from]
    constructor
    · intro h
      exact absurd h (by decide)
    · intro h
      have := h.length_le
      simp at this
  | cons c cs =>
    simp only [find_from]
    constructor
    · intro h
      split at h
      · rename_i hp
        exact List.isPrefixOf_iff_prefix.1 hp
      · have := find_from_ge _ _ _ _ h
        omega
    · intro h
      rw [if_pos (List.isPrefixOf_iff_prefix.2 h)]

theorem substr_from_artist (s : Str) : substr_from ("Artist:".toList ++ s) 7 = s := by
  unfold substr_from
  exact List.drop_left' rfl

/-- C24: on a hierarchical store, for a name `Artist:`+s the lookup gives the
cached id of s whenever s is in the cache, otherwise the cached id of the full
name, otherwise none; for every name that does not start with `Artist:`, and
for every name on a legacy store, it gives the cached id of the full name or
none. On a hit `add_tags_to_buffer` appends the Association with that id and
changes nothing else: no TagRecord, no cache entry. -/
theorem check_tag_exist_lookup (p : Processor) (name s : Str) (file_id : Int) :
    (p.is_v3_db_ = true →
      check_tag_exist p ("Artist:".toList ++ s) =
        match TagCache.find p.tag_cache_ s with
        | some id => some id
        | none => TagCache.find p.tag_cache_ ("Artist:".toList ++ s)) ∧
    ((p.is_v3_db_ = false ∨ ¬ "Artist:".toList <+: name) →
      check_tag_exist p name = TagCache.find p.tag_cache_ name) ∧
    (∀ id, check_tag_exist p name = some id →
      add_tags_to_buffer p file_id [name] =
        { p with pending_tag_joins_ := p.pending_tag_joins_ ++ [⟨file_id, id⟩] }) := by
  refine ⟨?_, ?_, ?_⟩
  · intro hv
    have hpre : str_find ("Artist:".toList ++ s) "Artist:".toList 0 = some 0 :=
      (str_find_artist_zero _).2 (List.prefix_append _ _)
    simp only [check_tag_exist, hv, hpre, decide_True, Bool.and_self, if_true,
      substr_from_artist]
  · intro h
    apply check_tag_exist_eq_find
    intro hv hpre
    rcases h with h | h
    · rw [hv] at h
      cases h
    · exact absurd ((str_find_artist_zero name).1 hpre) h
  · intro id hid
    have hadd : add_tags_to_buffer p file_id [name] = add_tag file_id p name := rfl
    rw [hadd]
    rcases add_tag_cases file_id p name with ⟨id2, hc, h⟩ | ⟨hc, _⟩
    · rw [hid] at hc
      cases hc
      exact h
    · rw [hid] at hc
      cases hc

/-- C24, instance: a hierarchical store that holds `Alice` with id 3 and
`Artist:Bob` with id 4. `Artist:Alice` is found through the stripped form,
`Artist:Bob` through the full name, `Artist:Carol` is not found; on a legacy
store with the same tags `Artist:Alice` is not found. The hit appends the
association `(1, 3)` only. -/
theorem check_tag_exist_lookup_witness :
    (artist_lookup_start.is_v3_db_ = true ∧
      check_tag_exist artist_lookup_start ("Artist:".toList ++ "Alice".toList) = some 3 ∧
      check_tag_exist artist_lookup_start ("Artist:".toList ++ "Bob".toList) = some 4 ∧
      check_tag_exist artist_lookup_start ("Artist:".toList ++ "Carol".toList) = none ∧
      check_tag_exist artist_lookup_start "Alice".toList = some 3 ∧
      check_tag_exist { artist_lookup_start with is_v3_db_ := false } "Artist:Alice".toList =
        none) ∧
    check_tag_exist artist_lookup_start ("Artist:".toList ++ "Alice".toList) =
      (match TagCache.find artist_lookup_start.tag_cache_ "Alice".toList with
        | some id => some id
        | none => TagCache.find artist_lookup_start.tag_cache_
            ("Artist:".toList ++ "Alice".toList)) ∧
    add_tags_to_buffer artist_lookup_start 1 ["Artist:Alice".toList] =
      { artist_lookup_start with
        pending_tag_joins_ := artist_lookup_start.pending_tag_joins_ ++ [⟨1, 3⟩] } :=
  ⟨by decide,
    (check_tag_exist_lookup artist_lookup_start "Artist:Alice".toList "Alice".toList 1).1
      (by decide),
    (check_tag_exist_lookup artist_lookup_start "Artist:Alice".toList "Alice".toList 1).2.2 3
      (by decide)⟩

/-! ## The cache only grows -/

theorem add_tag_cache_extends (file_id : Int) (q : Processor) (tag : Str) :
    ∃ new, (add_tag file_id q tag).tag_cache_ = q.tag_cache_ ++ new ∧ ∀ e ∈ new, e.1 = tag := by
  rcases add_tag_cases file_id q tag with ⟨id, _, h⟩ | ⟨_, h⟩ <;> rw [h]
  · exact ⟨[], by simp, by simp⟩
  · exact ⟨[(tag, generate_tag_id q)], rfl, by simp⟩

theorem add_tags_cache_extends (q : Processor) (file_id : Int) (tags : List Str) :
    ∃ new, (add_tags_to_buffer q file_id tags).tag_cache_ = q.tag_cache_ ++ new ∧
      ∀ e ∈ new, e.1 ∈ tags := by
  induction tags generalizing q with
  | nil => exact ⟨[], by simp [add_tags_to_buffer], by simp⟩
  | cons t rest ih =>
    rw [add_tags_to_buffer_cons]
    obtain ⟨n1, h1, g1⟩ := add_tag_cache_extends file_id q t
    obtain ⟨n2, h2, g2⟩ := ih (add_tag file_id q t)
    refine ⟨n1 ++ n2, by rw [h2, h1, List.append_assoc], ?_⟩
    intro e he
    rcases List.mem_append.1 he with he | he
    · rw [g1 e he]
      exact List.mem_cons_self _ _
    · exact List.mem_cons_of_mem _ (g2 e he)

/-- C26: `add_tags_to_buffer` keeps every entry of the cache in place, with the
same id, and adds entries only behind them, all for names of its tag list;
`add_note_to_buffer` and the three flushes, forced or not, whatever the store
answers, leave the cache as it is. Hence every name in the cache keeps its id
through every run of these operations. -/
theorem tag_cache_only_grows (p : Processor) (file_id : Int) (tags : List Str)
    (note origin : Str) (force ok : Bool) (ops : List Op) :
    ((∀ k v, TagCache.find p.tag_cache_ k = some v →
        TagCache.find (add_tags_to_buffer p file_id tags).tag_cache_ k = some v) ∧
      ∃ new, (add_tags_to_buffer p file_id tags).tag_cache_ = p.tag_cache_ ++ new ∧
        ∀ e ∈ new, e.1 ∈ tags) ∧
    (add_note_to_buffer p file_id note origin).tag_cache_ = p.tag_cache_ ∧
    (flush_tag_buffer p force ok).proc.tag_cache_ = p.tag_cache_ ∧
    (flush_tag_join_buffer p force ok).proc.tag_cache_ = p.tag_cache_ ∧
    (flush_note_buffer p force ok).proc.tag_cache_ = p.tag_cache_ ∧
    (∀ k v, TagCache.find p.tag_cache_ k = some v →
      TagCache.find (run p ops).1.tag_cache_ k = some v) :=
  ⟨⟨(grows_add_tags p file_id tags).2, add_tags_cache_extends p file_id tags⟩, rfl,
    (tag_cache_flush_tag p force ok).1, (tag_cache_flush_tag_join p force ok).1,
    (tag_cache_flush_note p force ok).1, (grows_run p ops).2⟩

/-- C26, instance: on the store with `Alice` (3) and `Artist:Bob` (4), adding
`Cat` and `Alice` for file 1 appends the entry `Cat` with id 5 and keeps the
two entries; the forced flush that follows does not touch the cache. -/
theorem tag_cache_only_grows_witness :
    artist_lookup_start.tag_cache_ = [("Alice".toList, 3), ("Artist:Bob".toList, 4)] ∧
    (add_tags_to_buffer artist_lookup_start 1 ["Cat".toList, "Alice".toList]).tag_cache_ =
      [("Alice".toList, 3), ("Artist:Bob".toList, 4), ("Cat".toList, 5)] ∧
    (∀ k v, TagCache.find artist_lookup_start.tag_cache_ k = some v →
      TagCache.find
        (add_tags_to_buffer artist_lookup_start 1 ["Cat".toList, "Alice".toList]).tag_cache_ k =
        some v) ∧
    (flush_tag_buffer (add_tags_to_buffer artist_lookup_start 1 ["Cat".toList, "Alice".toList])
      true true).proc.tag_cache_ =
      [("Alice".toList, 3), ("Artist:Bob".toList, 4), ("Cat".toList, 5)] :=
  ⟨by decide, by decide,
    (tag_cache_only_grows artist_lookup_start 1 ["Cat".toList, "Alice".toList] [] [] true true
      []).1.1,
    by decide⟩

/-! ## A tag row is appended before its association -/

theorem ordered_nil (known : Int → Prop) : Ordered known [] := by
  intro pre a post h
  cases pre <;> cases h

theorem ordered_append (known : Int → Prop) (l1 l2 : List Append) (h1 : Ordered known l1)
    (h2 : Ordered (known_after known l1) l2) : Ordered known (l1 ++ l2) := by
  intro pre a post h
  rcases List.append_eq_append_iff.1 h with ⟨m, hpre, hl2⟩ | ⟨m, hl1, hm⟩
  · rcases h2 m a post hl2 with (hk | ⟨r, hr, hid⟩) | ⟨r, hr, hid⟩
    · exact Or.inl hk
    · exact Or.inr ⟨r, by rw [hpre]; exact List.mem_append_left _ hr, hid⟩
    · exact Or.inr ⟨r, by rw [hpre]; exact List.mem_append_right _ hr, hid⟩
  · cases m with
    | nil =>
      simp only [List.nil_append] at hm
      simp only [List.append_nil] at hl1
      rcases h2 [] a post hm.symm with (hk | ⟨r, hr, hid⟩) | ⟨r, hr, _⟩
      · exact Or.inl hk
      · exact Or.inr ⟨r, by rw [← hl1]; exact hr, hid⟩
      · cases hr
    | cons x m2 =>
      simp only [List.cons_append, List.cons.injEq] at hm
      obtain ⟨hx, _⟩ := hm
      subst hx
      exact h1 pre a m2 hl1

/-- The loop body: its association has a known id or follows its tag row, and
every id of the cache afterwards is known or belongs to that tag row. -/
theorem add_tag_ordered (known : Int → Prop) (file_id : Int) (q : Processor) (tag : Str)
    (hK : ∀ e ∈ q.tag_cache_, known e.2) :
    Ordered known (add_tag_appends file_id q tag) ∧
    ∀ e ∈ (add_tag file_id q tag).tag_cache_,
      known_after known (add_tag_appends file_id q tag) e.2 := by
  rcases add_tag_cases file_id q tag with ⟨id, hc, h⟩ | ⟨hc, h⟩
  · have hlog : add_tag_appends file_id q tag = [Append.association ⟨file_id, id⟩] := by
      simp only [add_tag_appends, hc]
    rw [hlog, h]
    refine ⟨?_, fun e he => Or.inl (hK e he)⟩
    intro pre a post hsplit
    obtain ⟨e, he, hid⟩ := mem_of_check_tag_exist hc
    cases pre with
    | nil =>
      simp only [List.nil_append, List.cons.injEq] at hsplit
      obtain ⟨ha, _⟩ := hsplit
      cases ha
      exact Or.inl (by rw [← hid]; exact hK e he)
    | cons x pre2 =>
      simp only [List.cons_append, List.cons.injEq] at hsplit
      obtain ⟨_, hrest⟩ := hsplit
      cases pre2 <;> cases hrest
  · have hlog : add_tag_appends file_id q tag =
        [Append.tag_row ⟨generate_tag_id q, tag⟩,
          Append.association ⟨file_id, generate_tag_id q⟩] := by
      simp only [add_tag_appends, hc]
    rw [hlog, h]
    constructor
    · intro pre a post hsplit
      cases pre with
      | nil =>
        simp only [List.nil_append, List.cons.injEq] at hsplit
        obtain ⟨ha, _⟩ := hsplit
        cases ha
      | cons x pre2 =>
        simp only [List.cons_append, List.cons.injEq] at hsplit
        obtain ⟨hx, hrest⟩ := hsplit
        cases pre2 with
        | nil =>
          simp only [List.nil_append, List.cons.injEq] at hrest
          obtain ⟨ha, _⟩ := hrest
          cases ha
          subst hx
          exact Or.inr ⟨_, List.mem_singleton_self _, rfl⟩
        | cons y pre3 =>
          simp only [List.cons_append, List.cons.injEq] at hrest
          obtain ⟨_, hrest2⟩ := hrest
          cases pre3 <;> cases hrest2
    · intro e he
      rcases List.mem_append.1 he with he | he
      · exact Or.inl (hK e he)
      · rw [List.mem_singleton] at he
        subst he
        exact Or.inr ⟨_, List.mem_cons_self _ _, rfl⟩

theorem known_after_append (known : Int → Prop) (l1 l2 : List Append) (id : Int)
    (h : known_after (known_after known l1) l2 id) : known_after known (l1 ++ l2) id := by
  rcases h with (hk | ⟨r, hr, hid⟩) | ⟨r, hr, hid⟩
  · exact Or.inl hk
  · exact Or.inr ⟨r, List.mem_append_left _ hr, hid⟩
  · exact Or.inr ⟨r, List.mem_append_right _ hr, hid⟩

theorem add_tags_ordered (known : Int → Prop) (file_id : Int) (q : Processor)
    (tags : List Str) (hK : ∀ e ∈ q.tag_cache_, known e.2) :
    Ordered known (add_tags_appends file_id q tags) ∧
    ∀ e ∈ (add_tags_to_buffer q file_id tags).tag_cache_,
      known_after known (add_tags_appends file_id q tags) e.2 := by
  induction tags generalizing q known with
  | nil => exact ⟨ordered_nil known, fun e he => Or.inl (hK e he)⟩
  | cons t rest ih =>
    obtain ⟨h1, h2⟩ := add_tag_ordered known file_id q t hK
    obtain ⟨h3, h4⟩ := ih (known_after known (add_tag_appends file_id q t))
      (add_tag file_id q t) h2
    rw [add_tags_to_buffer_cons]
    simp only [add_tags_appends]
    exact ⟨ordered_append known _ _ h1 h3,
      fun e he => known_after_append known _ _ e.2 (h4 e he)⟩

theorem tag_rows_of_append (l1 l2 : List Append) :
    tag_rows_of (l1 ++ l2) = tag_rows_of l1 ++ tag_rows_of l2 := by
  induction l1 with
  | nil => rfl
  | cons x rest ih => cases x <;> simp [tag_rows_of, ih]

theorem associations_of_append (l1 l2 : List Append) :
    associations_of (l1 ++ l2) = associations_of l1 ++ associations_of l2 := by
  induction l1 with
  | nil => rfl
  | cons x rest ih => cases x <;> simp [associations_of, ih]

/-- The log of the loop body holds exactly the rows that it appends to the two
buffers. -/
theorem add_tag_appends_buffers (file_id : Int) (q : Processor) (tag : Str) :
    (add_tag file_id q tag).pending_tags_ =
      q.pending_tags_ ++ tag_rows_of (add_tag_appends file_id q tag) ∧
    (add_tag file_id q tag).pending_tag_joins_ =
      q.pending_tag_joins_ ++ associations_of (add_tag_appends file_id q tag) := by
  rcases add_tag_cases file_id q tag with ⟨id, hc, h⟩ | ⟨hc, h⟩ <;> rw [h] <;>
    simp only [add_tag_appends, hc, tag_rows_of, associations_of, List.append_nil, and_self]

theorem add_tags_appends_buffers (file_id : Int) (q : Processor) (tags : List Str) :
    (add_tags_to_buffer q file_id tags).pending_tags_ =
      q.pending_tags_ ++ tag_rows_of (add_tags_appends file_id q tags) ∧
    (add_tags_to_buffer q file_id tags).pending_tag_joins_ =
      q.pending_tag_joins_ ++ associations_of (add_tags_appends file_id q tags) := by
  induction tags generalizing q with
  | nil => simp [add_tags_to_buffer, add_tags_appends, tag_rows_of, associations_of]
  | cons t rest ih =>
    obtain ⟨h1, h2⟩ := add_tag_appends_buffers file_id q t
    obtain ⟨h3, h4⟩ := ih (add_tag file_id q t)
    rw [add_tags_to_buffer_cons]
    simp only [add_tags_appends, tag_rows_of_append, associations_of_append]
    exact ⟨by rw [h3, h1, List.append_assoc], by rw [h4, h2, List.append_assoc]⟩

theorem appends_of_buffers (p : Processor) (op : Op) :
    tag_rows_of (appends_of p op) = tags_appended p op ∧
    associations_of (appends_of p op) = joins_appended p op := by
  cases op with
  | add_tags file_id tags =>
    obtain ⟨h1, h2⟩ := add_tags_appends_buffers file_id p tags
    simp only [appends_of, tags_appended, joins_appended, h1, h2, List.drop_left, and_self]
  | tag_task file index total get_tags ok1 ok2 =>
    obtain ⟨h1, h2⟩ := add_tags_appends_buffers file.id p (task_tags p file get_tags)
    simp only [appends_of, tags_appended, joins_appended, h1, h2, List.drop_left, and_self]
  | add_note file_id note origin => exact ⟨rfl, rfl⟩
  | flush_tag force ok => exact ⟨rfl, rfl⟩
  | flush_tag_join force ok => exact ⟨rfl, rfl⟩
  | flush_note force ok => exact ⟨rfl, rfl⟩

theorem appends_in_run_buffers (p : Processor) (ops : List Op) :
    tag_rows_of (appends_in_run p ops) = tags_appended_in_run p ops ∧
    associations_of (appends_in_run p ops) = joins_appended_in_run p ops := by
  induction ops generalizing p with
  | nil => exact ⟨rfl, rfl⟩
  | cons op rest ih =>
    obtain ⟨h1, h2⟩ := appends_of_buffers p op
    obtain ⟨h3, h4⟩ := ih (step p op).1
    simp only [appends_in_run, tags_appended_in_run, joins_appended_in_run, tag_rows_of_append,
      associations_of_append, h1, h2, h3, h4, and_self]

/-- The cache after a tag task is the cache after its `add_tags_to_buffer`. -/
theorem process_tag_task_cache (p : Processor) (file : FileRecord) (index total : Int)
    (get_tags : Str → Option (List Str)) (ok1 ok2 : Bool) :
    (process_tag_task p file index total get_tags ok1 ok2).1.tag_cache_ =
      (add_tags_to_buffer p file.id (task_tags p file get_tags)).tag_cache_ := by
  rcases process_tag_task_shape p file index total get_tags ok1 ok2 with
    ⟨ht, s, evs, h, _⟩ | ⟨_, s, pid, h⟩
  · rw [h, ht]
    rfl
  · generalize add_tags_to_buffer p file.id (task_tags p file get_tags) = q at h ⊢
    dsimp only at h
    rw [h]
    dsimp only
    rw [(tag_cache_flush_tag_join _ false ok2).1, (tag_cache_flush_tag _ false ok1).1]

theorem step_ordered (known : Int → Prop) (p : Processor) (op : Op)
    (hK : ∀ e ∈ p.tag_cache_, known e.2) :
    Ordered known (appends_of p op) ∧
    ∀ e ∈ (step p op).1.tag_cache_, known_after known (appends_of p op) e.2 := by
  cases op with
  | add_tags file_id tags => exact add_tags_ordered known file_id p tags hK
  | tag_task file index total get_tags ok1 ok2 =>
    simp only [step, appends_of, process_tag_task_cache]
    exact add_tags_ordered known file.id p _ hK
  | add_note file_id note origin =>
    exact ⟨ordered_nil known, fun e he => Or.inl (hK e he)⟩
  | flush_tag force ok =>
    refine ⟨ordered_nil known, fun e he => Or.inl (hK e ?_)⟩
    simpa [step, (tag_cache_flush_tag p force ok).1] using he
  | flush_tag_join force ok =>
    refine ⟨ordered_nil known, fun e he => Or.inl (hK e ?_)⟩
    simpa [step, (tag_cache_flush_tag_join p force ok).1] using he
  | flush_note force ok =>
    refine ⟨ordered_nil known, fun e he => Or.inl (hK e ?_)⟩
    simpa [step, (tag_cache_flush_note p force ok).1] using he

theorem run_ordered (known : Int → Prop) (p : Processor) (ops : List Op)
    (hK : ∀ e ∈ p.tag_cache_, known e.2) : Ordered known (appends_in_run p ops) := by
  induction ops generalizing p known with
  | nil => exact ordered_nil known
  | cons op rest ih =>
    obtain ⟨h1, h2⟩ := step_ordered known p op hK
    exact ordered_append known _ _ h1 (ih _ (step p op).1 h2)

/-- C25: in every run of operations from `p` (the processor at run start),
every Association appended by `add_tags_to_buffer` carries a tag id that was a
value of the cache at `p` or is the id of a TagRecord appended earlier in the
run: a new TagRecord is appended before the Association that refers to it. The
log of appends holds exactly the rows that reach the two buffers, and the id of
the Association appended for a tag is a value of the cache when the loop body
for that tag is done. -/
theorem association_after_tag_row (p : Processor) (ops : List Op) :
    (∀ pre a post, appends_in_run p ops = pre ++ Append.association a :: post →
      (∃ e ∈ p.tag_cache_, e.2 = a.tag_id) ∨
        ∃ r, Append.tag_row r ∈ pre ∧ r.id = a.tag_id) ∧
    (tag_rows_of (appends_in_run p ops) = tags_appended_in_run p ops ∧
      associations_of (appends_in_run p ops) = joins_appended_in_run p ops) ∧
    ∀ (q : Processor) (file_id : Int) (tag : Str),
      associations_of (add_tag_appends file_id q tag) = [⟨file_id, resolve_tag q tag⟩] ∧
      ∃ e ∈ (add_tag file_id q tag).tag_cache_, e.2 = resolve_tag q tag := by
  refine ⟨?_, appends_in_run_buffers p ops, ?_⟩
  · exact run_ordered (fun id => ∃ e ∈ p.tag_cache_, e.2 = id) p ops (fun e he => ⟨e, he, rfl⟩)
  · intro q file_id tag
    rcases add_tag_cases file_id q tag with ⟨id, hc, h⟩ | ⟨hc, h⟩
    · refine ⟨by simp only [add_tag_appends, resolve_tag, hc, associations_of], ?_⟩
      obtain ⟨e, he, hid⟩ := mem_of_check_tag_exist hc
      rw [h]
      exact ⟨e, he, by simp only [resolve_tag, hc, hid]⟩
    · refine ⟨by simp only [add_tag_appends, resolve_tag, hc, associations_of], ?_⟩
      rw [h]
      exact ⟨(tag, generate_tag_id q), List.mem_append_right _ (List.mem_singleton_self _),
        by simp only [resolve_tag, hc]⟩

/-- C25, instance: on the store that holds `Cat` with id 7, file 1 with the
tags `Artist:Alice`, `Cat` and then file 2 with `Artist:Alice`, `Dog`: the new
rows 8 and 9 each stand before the first association that carries their id. -/
theorem association_after_tag_row_witness :
    appends_in_run scenario_a
        [Op.add_tags 1 ["Artist:Alice".toList, "Cat".toList],
          Op.add_tags 2 ["Artist:Alice".toList, "Dog".toList]] =
      [Append.tag_row ⟨8, "Artist:Alice".toList⟩, Append.association ⟨1, 8⟩,
        Append.association ⟨1, 7⟩, Append.association ⟨2, 8⟩,
        Append.tag_row ⟨9, "Dog".toList⟩, Append.association ⟨2, 9⟩] ∧
    scenario_a.tag_cache_ = [("Cat".toList, 7)] ∧
    ∀ pre a post,
      appends_in_run scenario_a
          [Op.add_tags 1 ["Artist:Alice".toList, "Cat".toList],
            Op.add_tags 2 ["Artist:Alice".toList, "Dog".toList]] =
        pre ++ Append.association a :: post →
      (∃ e ∈ scenario_a.tag_cache_, e.2 = a.tag_id) ∨
        ∃ r, Append.tag_row r ∈ pre ∧ r.id = a.tag_id :=
  ⟨by decide, by decide,
    (association_after_tag_row scenario_a
      [Op.add_tags 1 ["Artist:Alice".toList, "Cat".toList],
        Op.add_tags 2 ["Artist:Alice".toList, "Dog".toList]]).1⟩

/-! ## The pool after `shutdown` -/

/-- C23 as stated fails: with one worker busy on unit 1 and unit 2 waiting when
`shutdown` sets the flag, the worker cannot return after unit 1 (the queue is
not empty); it takes unit 2 and starts it, and returns only after that. -/
theorem queued_unit_started_after_stop :
    stopped_with_backlog =
      some ⟨[Worker.running ⟨1, false⟩], [⟨2, false⟩], true, 1, [⟨1, false⟩], []⟩ ∧
    (stopped_with_backlog.bind fun s => s.steps [PoolStep.finish 0, PoolStep.leave 0]) = none ∧
    (stopped_with_backlog.bind fun s => s.steps [PoolStep.finish 0, PoolStep.take 0]) =
      some ⟨[Worker.running ⟨2, false⟩], [], true, 1, [⟨1, false⟩, ⟨2, false⟩],
        [(1, FutureState.value)]⟩ ∧
    (stopped_with_backlog.bind fun s => s.steps
        [PoolStep.finish 0, PoolStep.take 0, PoolStep.finish 0, PoolStep.leave 0]) =
      some ⟨[Worker.returned], [], true, 0, [⟨1, false⟩, ⟨2, false⟩],
        [(1, FutureState.value), (2, FutureState.value)]⟩ := by
  decide

theorem getElem?_set_returned (ws : List Worker) (w0 w : Nat) (x : Worker)
    (hx : x ≠ Worker.returned) (h : (ws.set w0 x)[w]? = some Worker.returned) :
    ws[w]? = some Worker.returned := by
  rw [List.getElem?_set] at h
  split at h
  · split at h
    · simp only [Option.some.injEq] at h
      exact absurd h hx
    · cases h
  · exact h

/-- One transition of a stopped pool: the flag stays, the queue loses at most
its front unit, which is then started, and a worker is past its `return` only
if it was before or the queue was empty. -/
theorem step_after_stop (s t : ThreadPool) (a : PoolStep) (hstop : s.stop_ = true)
    (h : s.step a = some t) :
    t.stop_ = true ∧
    (∃ taken, t.started = s.started ++ taken ∧ s.tasks_ = taken ++ t.tasks_) ∧
    ∀ w : Nat, t.workers_[w]? = some Worker.returned →
      s.workers_[w]? = some Worker.returned ∨ s.tasks_ = [] := by
  cases a with
  | enqueue u =>
    simp only [ThreadPool.step, hstop, if_true] at h
    cases h
  | take w0 =>
    simp only [ThreadPool.step] at h
    split at h
    · rename_i u rest hw hq
      cases h
      refine ⟨hstop, ⟨[u], rfl, by simp [hq]⟩, ?_⟩
      intro w hw2
      exact Or.inl (getElem?_set_returned _ _ _ _ (by simp) hw2)
    · cases h
  | leave w0 =>
    simp only [ThreadPool.step] at h
    split at h
    · split at h
      · rename_i hc
        cases h
        simp only [Bool.and_eq_true, List.isEmpty_iff] at hc
        exact ⟨hstop, ⟨[], by simp, by simp⟩, fun w _ => Or.inr hc.2⟩
      · cases h
    · cases h
  | finish w0 =>
    simp only [ThreadPool.step] at h
    split at h
    · cases h
      refine ⟨hstop, ⟨[], by simp, by simp⟩, ?_⟩
      intro w hw2
      exact Or.inl (getElem?_set_returned _ _ _ _ (by simp) hw2)
    · cases h
  | shutdown =>
    simp only [ThreadPool.step, Option.some.injEq] at h
    subst h
    exact ⟨rfl, ⟨[], by simp, by simp⟩, fun w hw => Or.inl hw⟩

theorem steps_after_stop (s t : ThreadPool) (l : List PoolStep) (hstop : s.stop_ = true)
    (h : s.steps l = some t) :
    t.stop_ = true ∧
    (∃ taken, t.started = s.started ++ taken ∧ s.tasks_ = taken ++ t.tasks_) ∧
    ∀ w : Nat, t.workers_[w]? = some Worker.returned →
      s.workers_[w]? = some Worker.returned ∨ t.tasks_ = [] := by
  induction l generalizing s with
  | nil =>
    simp only [ThreadPool.steps, Option.some.injEq] at h
    subst h
    exact ⟨hstop, ⟨[], by simp, by simp⟩, fun w hw => Or.inl hw⟩
  | cons a rest ih =>
    simp only [ThreadPool.steps] at h
    cases hs : s.step a with
    | none =>
      rw [hs] at h
      cases h
    | some m =>
      rw [hs] at h
      obtain ⟨m1, ⟨k1, m2, m3⟩, m4⟩ := step_after_stop s m a hstop hs
      obtain ⟨t1, ⟨k2, t2, t3⟩, t4⟩ := ih m m1 h
      refine ⟨t1, ⟨k1 ++ k2, by rw [t2, m2, List.append_assoc],
        by rw [m3, t3, List.append_assoc]⟩, ?_⟩
      intro w hw
      rcases t4 w hw with hm | ht
      · rcases m4 w hm with hs0 | hs0
        · exact Or.inl hs0
        · right
          rw [hs0] at m3
          have hk1 : k1 ++ m.tasks_ = [] := m3.symm
          have hm0 : m.tasks_ = [] := (List.append_eq_nil.1 hk1).2
          rw [hm0] at t3
          exact (List.append_eq_nil.1 t3.symm).2
      · exact Or.inr ht

/-- C23 (as amended): once the stop flag is set, no unit can be enqueued any
more, the flag stays set, and the units waiting in the queue are started in
queue order; a waiting worker that finds the queue non-empty cannot return but
takes the front unit. A worker that returns after the flag was set finds the
queue empty, and then every unit that was waiting when the flag was set has
been started. -/
theorem workers_drain_queue_after_stop (s t : ThreadPool) (l : List PoolStep)
    (hstop : s.stop_ = true) (h : s.steps l = some t) :
    t.stop_ = true ∧
    (∀ u, s.step (PoolStep.enqueue u) = none) ∧
    (∃ taken, t.started = s.started ++ taken ∧ s.tasks_ = taken ++ t.tasks_) ∧
    (∀ w : Nat, t.workers_[w]? = some Worker.returned → s.workers_[w]? ≠ some Worker.returned →
      t.tasks_ = [] ∧ t.started = s.started ++ s.tasks_) ∧
    (∀ (w : Nat) u rest, s.workers_[w]? = some Worker.waiting → s.tasks_ = u :: rest →
      s.step (PoolStep.leave w) = none ∧
      ∃ m, s.step (PoolStep.take w) = some m ∧ m.started = s.started ++ [u] ∧
        m.workers_[w]? = some (Worker.running u)) := by
  obtain ⟨h1, ⟨k, h2, h3⟩, h4⟩ := steps_after_stop s t l hstop h
  refine ⟨h1, ?_, ⟨k, h2, h3⟩, ?_, ?_⟩
  · intro u
    simp only [ThreadPool.step, hstop, if_true]
  · intro w hw hn
    rcases h4 w hw with h5 | h5
    · exact absurd h5 hn
    · refine ⟨h5, ?_⟩
      rw [h5, List.append_nil] at h3
      rw [h2, h3]
  · intro w u rest hw hq
    refine ⟨?_, ?_⟩
    · simp only [ThreadPool.step, hw, hq, List.isEmpty_cons, Bool.and_false,
        Bool.false_eq_true, if_false]
    · have hstep : s.step (PoolStep.take w) = some
          { s with
            workers_ := s.workers_.set w (Worker.running u)
            tasks_ := rest
            active_tasks_ := s.active_tasks_ + 1
            started := s.started ++ [u] } := by
        simp only [ThreadPool.step, hw, hq]
      refine ⟨_, hstep, rfl, ?_⟩
      have hlt : w < s.workers_.length := by
        rcases Nat.lt_or_ge w s.workers_.length with hl | hl
        · exact hl
        · rw [List.getElem?_eq_none hl] at hw
          cases hw
      simp [List.getElem?_set, hlt]

/-- C23, instance: from `stopped_with_backlog`, the run in which the worker
finishes unit 1, takes unit 2, finishes it and returns. -/
theorem workers_drain_queue_after_stop_witness :
    (ThreadPool.mk [Worker.running ⟨1, false⟩] [⟨2, false⟩] true 1 [⟨1, false⟩] []).stop_ = true ∧
    (ThreadPool.mk [Worker.running ⟨1, false⟩] [⟨2, false⟩] true 1 [⟨1, false⟩] []).steps
        [PoolStep.finish 0, PoolStep.take 0, PoolStep.finish 0, PoolStep.leave 0] =
      some ⟨[Worker.returned], [], true, 0, [⟨1, false⟩, ⟨2, false⟩],
        [(1, FutureState.value), (2, FutureState.value)]⟩ ∧
    ∃ taken, [(⟨1, false⟩ : WorkUnit), ⟨2, false⟩] = [⟨1, false⟩] ++ taken ∧
      [(⟨2, false⟩ : WorkUnit)] = taken ++ [] :=
  ⟨rfl, by decide,
    (workers_drain_queue_after_stop
      (ThreadPool.mk [Worker.running ⟨1, false⟩] [⟨2, false⟩] true 1 [⟨1, false⟩] [])
      ⟨[Worker.returned], [], true, 0, [⟨1, false⟩, ⟨2, false⟩],
        [(1, FutureState.value), (2, FutureState.value)]⟩
      [PoolStep.finish 0, PoolStep.take 0, PoolStep.finish 0, PoolStep.leave 0]
      rfl (by decide)).2.2.1⟩

/-! ## An error in a unit of work -/

/-- The worker that ran a unit is back at the top of its loop afterwards,
whether or not the unit raised an error; the error is in the future. -/
theorem finish_keeps_worker (s : ThreadPool) (w : Nat) (u : WorkUnit)
    (h : s.workers_[w]? = some (Worker.running u)) :
    ∃ t, s.step (PoolStep.finish w) = some t ∧ t.workers_[w]? = some Worker.waiting ∧
      t.ready = s.ready ++ [(u.id, if u.raises then FutureState.error else FutureState.value)] ∧
      t.tasks_ = s.tasks_ := by
  have hstep : s.step (PoolStep.finish w) = some
      { s with
        workers_ := s.workers_.set w Worker.waiting
        active_tasks_ := s.active_tasks_ - 1
        ready := s.ready ++
          [(u.id, if u.raises then FutureState.error else FutureState.value)] } := by
    simp only [ThreadPool.step, h]
  refine ⟨_, hstep, ?_, rfl, rfl⟩
  have hlt : w < s.workers_.length := by
    rcases Nat.lt_or_ge w s.workers_.length with hl | hl
    · exact hl
    · rw [List.getElem?_eq_none hl] at h
      cases h
  simp [List.getElem?_set, hlt]

/-! ## The cache keys of one call -/

/-- The key of a name is the name, or, on a hierarchical store, the name
without its prefix `Artist:`. -/
theorem resolve_key_cases (q : Processor) (tag : Str) :
    resolve_key q tag = tag ∨
      (q.is_v3_db_ = true ∧ tag = "Artist:".toList ++ resolve_key q tag ∧
        TagCache.find q.tag_cache_ (resolve_key q tag) ≠ none) := by
  unfold resolve_key
  split
  · rename_i hc
    simp only [Bool.and_eq_true, decide_eq_true_eq] at hc
    cases hf : TagCache.find q.tag_cache_ (substr_from tag 7) with
    | none => exact Or.inl rfl
    | some v =>
      right
      refine ⟨hc.1, ?_, by simp only [hf]; exact fun h => Option.noConfusion h⟩
      have hp := (str_find_artist_zero tag).1 hc.2
      have := List.prefix_iff_eq_append.1 hp
      simpa [substr_from] using this.symm
  · exact Or.inl rfl

/-- The id attached to a tag is the id under which every later cache holds the
key of the tag. -/
theorem find_final_of_key (file_id : Int) (q final : Processor) (tag : Str)
    (hg : Grows (add_tag file_id q tag) final) :
    TagCache.find final.tag_cache_ (resolve_key q tag) = some (resolve_tag q tag) := by
  have hq := Grows.of_add_tag file_id q tag
  by_cases hc : (q.is_v3_db_ && decide (str_find tag "Artist:".toList 0 = some 0)) = true
  · cases hf : TagCache.find q.tag_cache_ (substr_from tag 7) with
    | some v =>
      have hk : resolve_key q tag = substr_from tag 7 := by
        simp only [resolve_key, hc, if_true, hf]
      have hr : resolve_tag q tag = v := by
        simp only [resolve_tag, check_tag_exist, hc, if_true, hf]
      rw [hk, hr]
      exact hg.2 _ _ (hq.2 _ _ hf)
    | none =>
      have hk : resolve_key q tag = tag := by
        simp only [resolve_key, hc, if_true, hf]
      have hcheck : check_tag_exist q tag = TagCache.find q.tag_cache_ tag :=
        check_tag_exist_eq_find q tag (fun _ _ => hf)
      rw [hk]
      rcases add_tag_cases file_id q tag with ⟨id, hce, h⟩ | ⟨hce, h⟩
      · have hr : resolve_tag q tag = id := by simp only [resolve_tag, hce]
        rw [hr]
        rw [hcheck] at hce
        exact hg.2 _ _ (hq.2 _ _ hce)
      · have hr : resolve_tag q tag = generate_tag_id q := by simp only [resolve_tag, hce]
        rw [hr]
        apply hg.2
        rw [h]
        have := TagCache.find_set_self q.tag_cache_ tag (generate_tag_id q)
        rwa [TagCache.set_of_find_none _ (find_none_of_check_tag_exist hce)] at this
  · have hk : resolve_key q tag = tag := by
      simp only [resolve_key, hc, Bool.false_eq_true, if_false]
    have hcheck : check_tag_exist q tag = TagCache.find q.tag_cache_ tag := by
      simp only [check_tag_exist, hc, Bool.false_eq_true, if_false]
    rw [hk]
    rcases add_tag_cases file_id q tag with ⟨id, hce, h⟩ | ⟨hce, h⟩
    · have hr : resolve_tag q tag = id := by simp only [resolve_tag, hce]
      rw [hr]
      rw [hcheck] at hce
      exact hg.2 _ _ (hq.2 _ _ hce)
    · have hr : resolve_tag q tag = generate_tag_id q := by simp only [resolve_tag, hce]
      rw [hr]
      apply hg.2
      rw [h]
      have := TagCache.find_set_self q.tag_cache_ tag (generate_tag_id q)
      rwa [TagCache.set_of_find_none _ (find_none_of_check_tag_exist hce)] at this

theorem resolved_keys_in_final (file_id : Int) (tags : List Str) (p final : Processor)
    (hg : Grows (add_tags_to_buffer p file_id tags) final) :
    List.Forall₂ (fun k id => TagCache.find final.tag_cache_ k = some id)
      (resolved_keys file_id p tags) (resolved_ids file_id p tags) := by
  induction tags generalizing p with
  | nil => exact List.Forall₂.nil
  | cons t rest ih =>
    rw [add_tags_to_buffer_cons] at hg
    exact List.Forall₂.cons
      (find_final_of_key file_id p final t ((grows_add_tags _ file_id rest).trans hg))
      (ih (add_tag file_id p t) hg)

theorem exists_key_of_forall2_mem {c : TagCache} {keys : List Str} {ids : List Int}
    (h : List.Forall₂ (fun k id => TagCache.find c k = some id) keys ids) {k : Str}
    (hmem : k ∈ keys) : ∃ id ∈ ids, TagCache.find c k = some id := by
  induction h with
  | nil => cases hmem
  | @cons a b l1 l2 h1 _ ih =>
    rcases List.mem_cons.1 hmem with h | h
    · exact ⟨b, List.mem_cons_self _ _, h ▸ h1⟩
    · obtain ⟨id, hid, hf⟩ := ih h
      exact ⟨id, List.mem_cons_of_mem _ hid, hf⟩

/-- Different ids come from different keys. -/
theorem nodup_keys_of_forall2 {c : TagCache} {keys : List Str} {ids : List Int}
    (h : List.Forall₂ (fun k id => TagCache.find c k = some id) keys ids)
    (hnd : ids.Nodup) : keys.Nodup := by
  induction h with
  | nil => exact List.nodup_nil
  | @cons k id ks is hhead htail ih =>
    rw [List.nodup_cons] at hnd ⊢
    refine ⟨?_, ih hnd.2⟩
    intro hmem
    obtain ⟨id2, hid2, hf⟩ := exists_key_of_forall2_mem htail hmem
    rw [hhead] at hf
    simp only [Option.some.injEq] at hf
    exact hnd.1 (hf ▸ hid2)

theorem resolved_keys_shape (file_id : Int) (p : Processor) (tags : List Str) :
    List.Forall₂ (fun t k => k = t ∨ (p.is_v3_db_ = true ∧ t = "Artist:".toList ++ k))
      tags (resolved_keys file_id p tags) := by
  induction tags generalizing p with
  | nil => exact List.Forall₂.nil
  | cons t rest ih =>
    have hv3 : (add_tag file_id p t).is_v3_db_ = p.is_v3_db_ := (Grows.of_add_tag file_id p t).1
    have ih2 := ih (add_tag file_id p t)
    rw [hv3] at ih2
    refine List.Forall₂.cons ?_ ih2
    rcases resolve_key_cases p t with h | ⟨h1, h2, _⟩
    · exact Or.inl h
    · exact Or.inr ⟨h1, h2⟩

theorem artist_append_ne (k : Str) : "Artist:".toList ++ k ≠ k := by
  intro h
  have h1 := congrArg List.length h
  have h2 : ("Artist:".toList).length = 7 := rfl
  rw [List.length_append, h2] at h1
  omega

/-- Pairwise different names have pairwise different keys unless the list
holds a name together with the same name behind `Artist:`. -/
theorem nodup_of_shape (v3 : Bool) (tags keys : List Str)
    (h : List.Forall₂ (fun t k => k = t ∨ (v3 = true ∧ t = "Artist:".toList ++ k)) tags keys)
    (hnd : tags.Nodup) (hpair : v3 = true → ∀ s ∈ tags, "Artist:".toList ++ s ∉ tags) :
    keys.Nodup := by
  induction h with
  | nil => exact List.nodup_nil
  | @cons t k ts ks hhead htail ih =>
    rw [List.nodup_cons] at hnd ⊢
    refine ⟨?_, ih hnd.2 (fun hv s hs hm =>
      hpair hv s (List.mem_cons_of_mem _ hs) (List.mem_cons_of_mem _ hm))⟩
    intro hmem
    obtain ⟨t2, ht2, hr2⟩ : ∃ t2 ∈ ts, k = t2 ∨ (v3 = true ∧ t2 = "Artist:".toList ++ k) := by
      clear ih hnd hpair hhead
      induction htail with
      | nil => cases hmem
      | @cons a b l1 l2 h1 _ ih2 =>
        rcases List.mem_cons.1 hmem with h | h
        · exact ⟨a, List.mem_cons_self _ _, h ▸ h1⟩
        · obtain ⟨x, hx, hr⟩ := ih2 h
          exact ⟨x, List.mem_cons_of_mem _ hx, hr⟩
    rcases hhead with h1 | ⟨hv, h1⟩
    · rcases hr2 with h2 | ⟨hv, h2⟩
      · exact hnd.1 (by rw [← h1, h2]; exact ht2)
      · refine hpair hv t (List.mem_cons_self _ _) ?_
        rw [← h1, ← h2]
        exact List.mem_cons_of_mem _ ht2
    · rcases hr2 with h2 | ⟨_, h2⟩
      · refine hpair hv t2 (List.mem_cons_of_mem _ ht2) ?_
        rw [← h2, ← h1]
        exact List.mem_cons_self _ _
      · exact hnd.1 (by rw [h1, ← h2]; exact ht2)

/-- C12 (as amended): for every file id and every list of tag names, on both
schema variants, `add_tags_to_buffer` appends exactly one Association per tag:
as many as the list has names, in list order (the i-th carries the id to which
the i-th name is resolved after the names before it), each carrying that file
id. When the cache maps distinct names to distinct ids and its ids stay below
`INT64_MAX`, the tag ids are pairwise distinct exactly when the names are
resolved through pairwise distinct cache keys, where the key of a name is the
name itself, except that on a hierarchical store a name `Artist:`+s is resolved
through s if s is in the cache at that moment. Pairwise distinct names have
pairwise distinct keys on a legacy store, and on a hierarchical store whenever
the list does not hold a name s together with `Artist:`+s. -/
theorem one_association_per_tag (p : Processor) (file_id : Int) (tags : List Str) :
    (add_tags_to_buffer p file_id tags).pending_tag_joins_ =
      p.pending_tag_joins_ ++
        (resolved_ids file_id p tags).map (fun id => (⟨file_id, id⟩ : TagJoinFileRecord)) ∧
    (resolved_ids file_id p tags).length = tags.length ∧
    (TagCache.injective p.tag_cache_ →
      (∀ e ∈ (add_tags_to_buffer p file_id tags).tag_cache_, e.2 < INT64_MAX) →
      ((resolved_ids file_id p tags).Nodup ↔ (resolved_keys file_id p tags).Nodup)) ∧
    (tags.Nodup →
      (p.is_v3_db_ = true → ∀ s ∈ tags, "Artist:".toList ++ s ∉ tags) →
      (resolved_keys file_id p tags).Nodup) ∧
    (tags.Nodup → TagCache.injective p.tag_cache_ →
      (∀ e ∈ (add_tags_to_buffer p file_id tags).tag_cache_, e.2 < INT64_MAX) →
      (p.is_v3_db_ = true → ∀ s ∈ tags, "Artist:".toList ++ s ∉ tags) →
      (resolved_ids file_id p tags).Nodup) := by
  have hfin := resolved_keys_in_final file_id tags p (add_tags_to_buffer p file_id tags)
    ⟨rfl, fun _ _ h => h⟩
  have hkeys : tags.Nodup →
      (p.is_v3_db_ = true → ∀ s ∈ tags, "Artist:".toList ++ s ∉ tags) →
      (resolved_keys file_id p tags).Nodup :=
    fun hnd hpair => nodup_of_shape p.is_v3_db_ tags _ (resolved_keys_shape file_id p tags)
      hnd hpair
  refine ⟨?_, ?_, ?_, hkeys, ?_⟩
  · clear hfin hkeys
    induction tags generalizing p with
    | nil => simp [add_tags_to_buffer, resolved_ids]
    | cons t rest ih =>
      rw [add_tags_to_buffer_cons, ih, joins_add_tag]
      simp [resolved_ids]
  · clear hfin hkeys
    induction tags generalizing p with
    | nil => rfl
    | cons t rest ih => simp [resolved_ids, ih]
  · intro hinj hb
    exact ⟨nodup_keys_of_forall2 hfin,
      nodup_of_forall2 (injective_add_tags p file_id tags hinj hb) hfin⟩
  · intro hnd hinj hb hpair
    exact nodup_of_forall2 (injective_add_tags p file_id tags hinj hb) hfin (hkeys hnd hpair)

/-- C12, instance: Scenario A, file 1, on a legacy and on a hierarchical store
that hold the tag `Cat` with id 7: the names `Artist:Alice`, `Cat` give two
Associations of file 1 with the ids 8 and 7. On the hierarchical store that
holds `Alice` with id 3, the names `Artist:Alice`, `Cat` are resolved through
the keys `Alice` and `Cat` and get the ids 3 and 4. -/
theorem one_association_per_tag_witness :
    (["Artist:Alice".toList, "Cat".toList].Nodup ∧
      TagCache.injective scenario_a.tag_cache_ ∧
      (∀ e ∈ (add_tags_to_buffer scenario_a 1
        ["Artist:Alice".toList, "Cat".toList]).tag_cache_, e.2 < INT64_MAX) ∧
      (add_tags_to_buffer scenario_a 1 ["Artist:Alice".toList, "Cat".toList]).pending_tag_joins_ =
        scenario_a.pending_tag_joins_ ++
          (resolved_ids 1 scenario_a ["Artist:Alice".toList, "Cat".toList]).map
            (fun id => (⟨1, id⟩ : TagJoinFileRecord)) ∧
      (resolved_ids 1 scenario_a ["Artist:Alice".toList, "Cat".toList]).Nodup ∧
      resolved_ids 1 scenario_a ["Artist:Alice".toList, "Cat".toList] = [8, 7]) ∧
    (TagCache.injective scenario_a_v3.tag_cache_ ∧
      (∀ e ∈ (add_tags_to_buffer scenario_a_v3 1
        ["Artist:Alice".toList, "Cat".toList]).tag_cache_, e.2 < INT64_MAX) ∧
      (scenario_a_v3.is_v3_db_ = true → ∀ s ∈ ["Artist:Alice".toList, "Cat".toList],
        "Artist:".toList ++ s ∉ ["Artist:Alice".toList, "Cat".toList]) ∧
      (resolved_ids 1 scenario_a_v3 ["Artist:Alice".toList, "Cat".toList]).Nodup) ∧
    (alice_start.tag_cache_ = [("Alice".toList, 3)] ∧
      resolved_keys 1 alice_start ["Artist:Alice".toList, "Cat".toList] =
        ["Alice".toList, "Cat".toList] ∧
      resolved_ids 1 alice_start ["Artist:Alice".toList, "Cat".toList] = [3, 4] ∧
      (resolved_ids 1 alice_start ["Artist:Alice".toList, "Cat".toList]).Nodup) ∧
    (resolved_keys 1 hierarchical_start ["Alice".toList, "Artist:Alice".toList] =
        ["Alice".toList, "Alice".toList] ∧
      resolved_keys 1 hierarchical_start ["Artist:Alice".toList, "Alice".toList] =
        ["Artist:Alice".toList, "Alice".toList] ∧
      resolved_ids 1 hierarchical_start ["Artist:Alice".toList, "Alice".toList] = [1, 2]) :=
  ⟨⟨by decide, injective_singleton _ _, by decide,
      (one_association_per_tag scenario_a 1 ["Artist:Alice".toList, "Cat".toList]).1,
      (one_association_per_tag scenario_a 1 ["Artist:Alice".toList, "Cat".toList]).2.2.2.2
        (by decide) (injective_singleton _ _) (by decide) (by decide),
      by decide⟩,
    ⟨injective_singleton _ _, by decide, by decide,
      (one_association_per_tag scenario_a_v3 1 ["Artist:Alice".toList, "Cat".toList]).2.2.2.2
        (by decide) (injective_singleton _ _) (by decide) (by decide)⟩,
    ⟨by decide, by decide, by decide,
      (one_association_per_tag alice_start 1 ["Artist:Alice".toList, "Cat".toList]).2.2.2.2
        (by decide) (injective_singleton _ _) (by decide) (by decide)⟩,
    ⟨by decide, by decide, by decide⟩⟩

/-! ## Restructuring twice -/

/-- The update is by id: when the row `Artist` has the id of an ungrouped tag
(ids that are not pairwise different), the first run renames the parent as
well and the second run adds a new row `Artist`. -/
theorem shared_id_renames_parent :
    (update_artist_tags cooperative shared_parent_id).1 =
      [⟨5, "x".toList, some 5⟩, ⟨5, "x".toList, some 5⟩] ∧
    (update_artist_tags cooperative (update_artist_tags cooperative shared_parent_id).1).1 =
      [⟨5, "x".toList, some 5⟩, ⟨5, "x".toList, some 5⟩, ⟨9, "Artist".toList, none⟩] := by
  decide

/-- A second run whose lookup of the parent cannot be prepared takes the parent
for missing and adds another row `Artist`. -/
theorem failed_lookup_adds_parent :
    (update_artist_tags cooperative flat_import).1 =
      [⟨1, "Alice".toList, some 9⟩, ⟨2, "Cat".toList, none⟩, ⟨3, "artist:bob".toList, some 9⟩,
        ⟨4, "Artist:x".toList, some 9⟩, ⟨9, "Artist".toList, none⟩] ∧
    (update_artist_tags failing_lookup (update_artist_tags cooperative flat_import).1).1 =
      (update_artist_tags cooperative flat_import).1 ++ [⟨10, "Artist".toList, none⟩] := by
  decide

/-- C17 as stated fails for a store state in which the row `Artist` has the id
0, which the query for ungrouped tags reads as "no parent": the first run
turns `Artist:Artist:x` into `Artist:x` with parent 0, the second run finds it
ungrouped again, hands it to the update and turns it into `x`. It also fails
when the store does not execute the update of the first run: the second run
then finds the same ungrouped tags and hands them to the update. -/
theorem second_run_regroups_again :
    ((update_artist_tags cooperative parent_zero).1 =
        [⟨0, "Artist".toList, none⟩, ⟨1, "Artist:x".toList, some 0⟩] ∧
      (update_artist_tags cooperative (update_artist_tags cooperative parent_zero).1).2 =
        [⟨1, "Artist:x".toList⟩] ∧
      (update_artist_tags cooperative (update_artist_tags cooperative parent_zero).1).1 =
        [⟨0, "Artist".toList, none⟩, ⟨1, "x".toList, some 0⟩]) ∧
    ((update_artist_tags refusing_update flat_import).1 =
        flat_import ++ [⟨9, "Artist".toList, none⟩] ∧
      (update_artist_tags cooperative (update_artist_tags refusing_update flat_import).1).2 =
        [⟨1, "Artist:Alice".toList⟩, ⟨3, "artist:bob".toList⟩,
          ⟨4, "Artist:Artist:x".toList⟩]) := by
  decide

theorem update_artist_tags_eq (a : StoreAnswers) (table : TagTable) :
    update_artist_tags a table =
      match artist_parent a table with
      | (t, some artist_id) => regroup_under a artist_id t
      | (t, none) => (t, []) := by
  unfold update_artist_tags artist_parent
  cases h1 : Database.get_artist_tag_id a.get_id_ok table with
  | some id => rfl
  | none =>
    dsimp only
    cases h2 : (Database.create_artist_tag a.create_ok a.row_id a.row_pid table).2 with
    | false => rfl
    | true =>
      simp only [Bool.not_true, Bool.false_eq_true, if_false]
      cases h3 : Database.get_artist_tag_id a.get_id_again_ok
        (Database.create_artist_tag a.create_ok a.row_id a.row_pid table).1 <;> rfl

theorem get_artist_tag_id_some (ok : Bool) (table : TagTable) (id : Int)
    (h : Database.get_artist_tag_id ok table = some id) :
    ∃ r ∈ table, r.name = "Artist".toList ∧ r.id = id := by
  unfold Database.get_artist_tag_id at h
  split at h
  · cases h
  · cases hf : table.find? (fun r => decide (r.name = "Artist".toList)) with
    | none =>
      rw [hf] at h
      cases h
    | some r =>
      rw [hf] at h
      simp only [Option.some.injEq] at h
      have hp := List.find?_some hf
      exact ⟨r, List.mem_of_find?_eq_some hf, by simpa using hp, h⟩

/-- The table on which the regrouping works is the given one or the given one
with the new row `Artist`, and the parent id is the id of a row `Artist` of
that table. -/
theorem artist_parent_some (a : StoreAnswers) (table t0 : TagTable) (pa : Int)
    (h : artist_parent a table = (t0, some pa)) :
    (t0 = table ∨ t0 = table ++ [⟨a.row_id, "Artist".toList, a.row_pid⟩]) ∧
    ∃ r ∈ t0, r.name = "Artist".toList ∧ r.id = pa := by
  unfold artist_parent at h
  cases h1 : Database.get_artist_tag_id a.get_id_ok table with
  | some id =>
    rw [h1] at h
    simp only [Prod.mk.injEq, Option.some.injEq] at h
    obtain ⟨rfl, rfl⟩ := h
    exact ⟨Or.inl rfl, get_artist_tag_id_some _ _ _ h1⟩
  | none =>
    rw [h1] at h
    dsimp only at h
    cases hc : a.create_ok with
    | false =>
      simp only [Database.create_artist_tag, hc, Bool.not_false, if_true, Bool.not_false,
        Prod.mk.injEq] at h
      cases h.2
    | true =>
      simp only [Database.create_artist_tag, hc, Bool.not_true, Bool.false_eq_true, if_false,
        Prod.mk.injEq] at h
      obtain ⟨rfl, h2⟩ := h
      exact ⟨Or.inr rfl, get_artist_tag_id_some _ _ _ h2⟩

/-- The batch update when every statement for a tag of the batch is executed. -/
theorem update_artist_tags_steps_ok (step_ok : TagRecord → Bool) (tags : List TagRecord)
    (parent_id : Int) (table : TagTable) (hs : ∀ t ∈ tags, step_ok t = true) :
    (Database.update_artist_tags true step_ok tags parent_id table).1 =
      table.map (fun r => tags.foldl
        (fun r tag => update_row (strip_artist tag.name) parent_id tag.id r) r) := by
  have hfold : ∀ (l : List TagRecord) (t : TagTable), (∀ x ∈ l, step_ok x = true) →
      l.foldl (fun t tag =>
        if step_ok tag = true then t.map (update_row (strip_artist tag.name) parent_id tag.id)
        else t) t =
      l.foldl (fun t tag => t.map (update_row (strip_artist tag.name) parent_id tag.id)) t := by
    intro l
    induction l with
    | nil => intro t _; rfl
    | cons x rest ih =>
      intro t hx
      simp only [List.foldl_cons, hx x (List.mem_cons_self _ _), if_true]
      exact ih _ (fun y hy => hx y (List.mem_cons_of_mem _ hy))
  unfold Database.update_artist_tags
  cases tags with
  | nil => simp
  | cons t rest =>
    simp only [List.isEmpty_cons, Bool.false_eq_true, if_false, Bool.not_true]
    rw [hfold (t :: rest) table hs]
    exact foldl_map_pointwise
      (fun tag => update_row (strip_artist tag.name) parent_id tag.id) (t :: rest) table

/-- A row keeps its id through the updates, and has the parent once an update
for its id has run. -/
theorem fold_update_row_parent (parent_id : Int) (tags : List TagRecord) (r : TagRow) :
    (tags.foldl (fun r tag => update_row (strip_artist tag.name) parent_id tag.id r) r).id =
      r.id ∧
    ((r.pid = some parent_id ∨ ∃ tag ∈ tags, tag.id = r.id) →
      (tags.foldl (fun r tag => update_row (strip_artist tag.name) parent_id tag.id r) r).pid =
        some parent_id) := by
  induction tags generalizing r with
  | nil =>
    refine ⟨rfl, ?_⟩
    rintro (h | ⟨tag, hm, _⟩)
    · exact h
    · cases hm
  | cons t rest ih =>
    simp only [List.foldl_cons]
    have hid : (update_row (strip_artist t.name) parent_id t.id r).id = r.id := by
      unfold update_row
      split <;> rfl
    obtain ⟨i1, i2⟩ := ih (update_row (strip_artist t.name) parent_id t.id r)
    refine ⟨i1.trans hid, ?_⟩
    intro h
    apply i2
    by_cases e : r.id = t.id
    · left
      unfold update_row
      rw [if_pos e]
    · have hsame : update_row (strip_artist t.name) parent_id t.id r = r := by
        unfold update_row
        rw [if_neg e]
      rw [hsame]
      rcases h with h | ⟨tag, hm, htag⟩
      · exact Or.inl h
      · right
        rcases List.mem_cons.1 hm with rfl | hm2
        · exact absurd htag.symm e
        · exact ⟨tag, hm2, htag⟩

/-- The second half of the run when there is nothing to regroup or the listing
and every update are executed: each row goes through the updates of the batch
of all ungrouped tags. -/
theorem regroup_under_executed (a : StoreAnswers) (pa : Int) (t0 : TagTable)
    (hx : (∀ r ∈ t0, ungrouped r = false) ∨
      (a.subtags_ok = true ∧ a.update_ok = true ∧
        ∀ tag ∈ Database.get_artist_subtags true t0, a.step_ok tag = true)) :
    (regroup_under a pa t0).1 =
      t0.map (fun r => (Database.get_artist_subtags true t0).foldl
        (fun r tag => update_row (strip_artist tag.name) pa tag.id r) r) := by
  rcases hx with hx | ⟨h1, h2, h3⟩
  · have hnil : ∀ ok, Database.get_artist_subtags ok t0 = [] := by
      intro ok
      unfold Database.get_artist_subtags
      split
      · rfl
      · rw [List.map_eq_nil_iff, List.filter_eq_nil_iff]
        intro r hr
        simp [hx r hr]
    unfold regroup_under
    simp only [hnil, List.isEmpty_nil, if_true, List.foldl_nil, List.map_id']
  · unfold regroup_under
    simp only [h1, h2]
    split
    · rename_i hempty
      have hnil : Database.get_artist_subtags true t0 = [] := by simpa using hempty
      simp only [hnil, List.foldl_nil, List.map_id']
    · exact update_artist_tags_steps_ok _ _ _ _ h3

/-- A row for whose id an update has run ends as the update by one of the tags
with that id. -/
theorem fold_update_row_name (parent_id : Int) (tags : List TagRecord) (r : TagRow)
    (h : ∃ tag ∈ tags, tag.id = r.id) :
    ∃ tag ∈ tags,
      tags.foldl (fun r tag => update_row (strip_artist tag.name) parent_id tag.id r) r =
        ⟨r.id, strip_artist tag.name, some parent_id⟩ := by
  induction tags generalizing r with
  | nil =>
    obtain ⟨tag, hm, _⟩ := h
    cases hm
  | cons t rest ih =>
    simp only [List.foldl_cons]
    have hid : (update_row (strip_artist t.name) parent_id t.id r).id = r.id := by
      unfold update_row
      split <;> rfl
    by_cases hex : ∃ tag ∈ rest, tag.id = r.id
    · obtain ⟨tag, hm, e⟩ := hex
      obtain ⟨tag2, hm2, h2⟩ :=
        ih (update_row (strip_artist t.name) parent_id t.id r) ⟨tag, hm, e.trans hid.symm⟩
      refine ⟨tag2, List.mem_cons_of_mem _ hm2, ?_⟩
      rw [h2, hid]
    · have ht : t.id = r.id := by
        obtain ⟨tag, hm, e⟩ := h
        rcases List.mem_cons.1 hm with rfl | hm2
        · exact e
        · exact absurd ⟨tag, hm2, e⟩ hex
      refine ⟨t, List.mem_cons_self _ _, ?_⟩
      rw [fold_update_row_other parent_id rest _
        (fun tag hm e => hex ⟨tag, hm, e.trans hid⟩)]
      unfold update_row
      rw [if_pos ht.symm]

/-- No row is ungrouped after the updates of all ungrouped tags, when the parent
is not 0 or no ungrouped tag has the pattern after the loss of its prefix. -/
theorem ungrouped_after_updates (pa : Int) (t0 : TagTable)
    (h0 : pa ≠ 0 ∨ ∀ r ∈ t0, ungrouped r = true → like_artist (strip_artist r.name) = false)
    (r : TagRow) (hr : r ∈ t0) :
    ungrouped ((Database.get_artist_subtags true t0).foldl
      (fun r tag => update_row (strip_artist tag.name) pa tag.id r) r) = false := by
  by_cases hex : ∃ tag ∈ Database.get_artist_subtags true t0, tag.id = r.id
  · obtain ⟨tag, hm, hf⟩ := fold_update_row_name pa (Database.get_artist_subtags true t0) r hex
    rw [hf]
    obtain ⟨r2, hr2, hu2, rfl⟩ := (mem_get_artist_subtags t0 tag).1 hm
    rcases h0 with h0 | h0
    · simp [ungrouped, h0]
    · simp [ungrouped, h0 r2 hr2 hu2]
  · have hno : ∀ tag ∈ Database.get_artist_subtags true t0, tag.id ≠ r.id :=
      fun tag hm e => hex ⟨tag, hm, e⟩
    rw [fold_update_row_other pa _ r hno]
    cases hu : ungrouped r with
    | false => rfl
    | true =>
      exact absurd rfl
        (hno ⟨r.id, r.name⟩ ((mem_get_artist_subtags t0 _).2 ⟨r, hr, hu, rfl⟩))

/-- With pairwise different ids the updates of all ungrouped tags map each row
to its regrouped form. -/
theorem updates_eq_regrouped (pa : Int) (t0 : TagTable)
    (hids : (t0.map (fun r => r.id)).Nodup) (r : TagRow) (hr : r ∈ t0) :
    (Database.get_artist_subtags true t0).foldl
      (fun r tag => update_row (strip_artist tag.name) pa tag.id r) r = regrouped pa r := by
  unfold regrouped
  by_cases hu : ungrouped r = true
  · rw [if_pos hu]
    refine fold_update_row_hit pa ⟨r.id, r.name⟩ _ r rfl
      ((mem_get_artist_subtags t0 _).mpr ⟨r, hr, hu, rfl⟩) ?_
    intro tag hm e
    obtain ⟨r2, hr2, _, rfl⟩ := (mem_get_artist_subtags t0 tag).mp hm
    have : r2 = r := List.inj_on_of_nodup_map hids hr2 hr e
    rw [this]
  · rw [if_neg hu]
    apply fold_update_row_other
    intro tag hm e
    obtain ⟨r2, hr2, hu2, rfl⟩ := (mem_get_artist_subtags t0 tag).mp hm
    have : r2 = r := List.inj_on_of_nodup_map hids hr2 hr e
    rw [this] at hu2
    exact hu hu2

/-- C17 (as amended): let the first run obtain a parent id (the id of the first
row `Artist`, created if there is none). Let there be nothing to regroup, or
let the store execute its listing of the ungrouped tags and its updates, let
the parent id be other than 0 or no ungrouped tag keep the pattern when it
loses its prefix, and let no ungrouped tag with the pattern have the id of the
parent. Then the first run leaves every id in its place and no row ungrouped; a
second run whose lookup of the parent is executed (or which cannot create a
parent) finds no ungrouped tag with the pattern, hands nothing to the batch
update and leaves the table, names and parent references, as the first run
left it. With pairwise different ids the first run maps every row to its
regrouped form. -/
theorem restructuring_is_idempotent (a1 a2 : StoreAnswers) (table t0 : TagTable) (pa : Int)
    (hp : artist_parent a1 table = (t0, some pa))
    (hrun : (∀ r ∈ t0, ungrouped r = false) ∨
      (a1.subtags_ok = true ∧ a1.update_ok = true ∧
        (∀ tag ∈ Database.get_artist_subtags true t0, a1.step_ok tag = true) ∧
        (pa ≠ 0 ∨
          ∀ r ∈ t0, ungrouped r = true → like_artist (strip_artist r.name) = false) ∧
        ∀ r ∈ t0, ungrouped r = true → r.id ≠ pa))
    (h2 : a2.get_id_ok = true ∨ a2.create_ok = false) :
    (t0 = table ∨ t0 = table ++ [⟨a1.row_id, "Artist".toList, a1.row_pid⟩]) ∧
    (update_artist_tags a1 table).1.map (fun r => r.id) = t0.map (fun r => r.id) ∧
    (∀ r ∈ (update_artist_tags a1 table).1, ungrouped r = false) ∧
    (∀ ok, Database.get_artist_subtags ok (update_artist_tags a1 table).1 = []) ∧
    update_artist_tags a2 (update_artist_tags a1 table).1 =
      ((update_artist_tags a1 table).1, []) ∧
    ((t0.map (fun r => r.id)).Nodup →
      (update_artist_tags a1 table).1 = t0.map (regrouped pa)) := by
  have hx : (∀ r ∈ t0, ungrouped r = false) ∨
      (a1.subtags_ok = true ∧ a1.update_ok = true ∧
        ∀ tag ∈ Database.get_artist_subtags true t0, a1.step_ok tag = true) := by
    rcases hrun with h | ⟨h1, h2, h3, _, _⟩
    · exact Or.inl h
    · exact Or.inr ⟨h1, h2, h3⟩
  have h0 : pa ≠ 0 ∨
      ∀ r ∈ t0, ungrouped r = true → like_artist (strip_artist r.name) = false := by
    rcases hrun with h | ⟨_, _, _, h4, _⟩
    · refine Or.inr (fun r hr hu => ?_)
      rw [h r hr] at hu
      cases hu
    · exact h4
  have hshare : ∀ r ∈ t0, ungrouped r = true → r.id ≠ pa := by
    rcases hrun with h | ⟨_, _, _, _, h5⟩
    · intro r hr hu
      rw [h r hr] at hu
      cases hu
    · exact h5
  obtain ⟨hshape, r0, hr0, hname, hid0⟩ := artist_parent_some a1 table t0 pa hp
  have hT1 : (update_artist_tags a1 table).1 =
      t0.map (fun r => (Database.get_artist_subtags true t0).foldl
        (fun r tag => update_row (strip_artist tag.name) pa tag.id r) r) := by
    rw [update_artist_tags_eq, hp]
    exact regroup_under_executed a1 pa t0 hx
  have hung : ∀ r ∈ (update_artist_tags a1 table).1, ungrouped r = false := by
    intro r hr
    rw [hT1] at hr
    obtain ⟨r1, hr1, rfl⟩ := List.mem_map.1 hr
    exact ungrouped_after_updates pa t0 h0 r1 hr1
  have hnil : ∀ ok, Database.get_artist_subtags ok (update_artist_tags a1 table).1 = [] := by
    intro ok
    unfold Database.get_artist_subtags
    split
    · rfl
    · rw [List.map_eq_nil_iff, List.filter_eq_nil_iff]
      intro r hr
      simp [hung r hr]
  have hartist : r0 ∈ (update_artist_tags a1 table).1 := by
    rw [hT1]
    refine List.mem_map.2 ⟨r0, hr0, ?_⟩
    apply fold_update_row_other
    intro tag hm e
    obtain ⟨r2, hr2, hu2, rfl⟩ := (mem_get_artist_subtags t0 tag).1 hm
    exact hshare r2 hr2 hu2 (e.trans hid0)
  refine ⟨hshape, ?_, hung, hnil, ?_, ?_⟩
  · rw [hT1, List.map_map]
    apply List.map_congr_left
    intro r _
    exact (fold_update_row_parent pa _ r).1
  · clear hT1 hung
    generalize (update_artist_tags a1 table).1 = T1 at hnil hartist ⊢
    cases hg : a2.get_id_ok with
    | true =>
      obtain ⟨r2, hf⟩ := find_artist_isSome _ r0 hartist hname
      unfold update_artist_tags Database.get_artist_tag_id
      simp only [hg, Bool.not_true, Bool.false_eq_true, if_false, hf]
      unfold regroup_under
      simp only [hnil, List.isEmpty_nil, if_true]
    | false =>
      have hc : a2.create_ok = false := by
        rcases h2 with h | h
        · rw [hg] at h
          cases h
        · exact h
      unfold update_artist_tags Database.get_artist_tag_id Database.create_artist_tag
      simp only [hg, hc, Bool.not_false, if_true]
  · intro hids
    rw [hT1]
    exact List.map_congr_left (updates_eq_regrouped pa t0 hids)

/-- C17, instance: `flat_import` has no row named `Artist`; the store adds it
with id 9. The first run regroups rows 1, 3 and 4 under 9 (row 3 keeps its
name: the prefix is stripped only in the exact spelling), the second run
changes nothing. Under a parent with the id 0 the tag `Artist:Alice` becomes
`Alice`, which a second run leaves alone. -/
theorem restructuring_is_idempotent_witness :
    (artist_parent cooperative flat_import =
        (flat_import ++ [⟨9, "Artist".toList, none⟩], some 9) ∧
      (9 : Int) ≠ 0 ∧
      (∀ r ∈ flat_import ++ [(⟨9, "Artist".toList, none⟩ : TagRow)],
        ungrouped r = true → r.id ≠ 9) ∧
      cooperative.get_id_ok = true) ∧
    update_artist_tags cooperative (update_artist_tags cooperative zero_parent_names).1 =
      ([⟨0, "Artist".toList, none⟩, ⟨1, "Alice".toList, some 0⟩], []) ∧
    (update_artist_tags cooperative flat_import).1 =
      [⟨1, "Alice".toList, some 9⟩, ⟨2, "Cat".toList, none⟩, ⟨3, "artist:bob".toList, some 9⟩,
        ⟨4, "Artist:x".toList, some 9⟩, ⟨9, "Artist".toList, none⟩] ∧
    (update_artist_tags cooperative flat_import).2 =
      [⟨1, "Artist:Alice".toList⟩, ⟨3, "artist:bob".toList⟩, ⟨4, "Artist:Artist:x".toList⟩] ∧
    update_artist_tags cooperative (update_artist_tags cooperative flat_import).1 =
      ((update_artist_tags cooperative flat_import).1, []) :=
  ⟨⟨by decide, by decide, by decide, rfl⟩, by decide, by decide, by decide,
    (restructuring_is_idempotent cooperative cooperative flat_import
      (flat_import ++ [⟨9, "Artist".toList, none⟩]) 9 (by decide)
      (Or.inr ⟨rfl, rfl, fun _ _ => rfl, Or.inl (by decide), by decide⟩)
      (Or.inl rfl)).2.2.2.2.1⟩

/-! ## The run, its pools and its store -/

theorem submit_loop_length (config : Config) (tag_pool_ note_pool_ : Option ThreadPool)
    (total : Int) (i : Nat) (files : List FileRecord) :
    (submit_loop config tag_pool_ note_pool_ total i files).length =
      (if (config.write_tag && tag_pool_.isSome) = true then files.length else 0) +
        (if (config.write_note && note_pool_.isSome) = true then files.length else 0) := by
  induction files generalizing i with
  | nil => simp [submit_loop]
  | cons f rest ih =>
    simp only [submit_loop, List.length_append, ih, List.length_cons]
    cases (config.write_tag && tag_pool_.isSome) <;>
      cases (config.write_note && note_pool_.isSome) <;> simp <;> omega

/-- The wait loop: it ends early exactly at the first future that is never
ready or holds an error, having passed fewer futures than there are; else it
passes all of them. -/
theorem get_loop_spec (workers : Pipeline → Bool) (raises : Submission → Bool)
    (l : List Submission) :
    ((get_loop workers raises l).1 = none ↔
      ∀ s ∈ l, workers s.pipeline = true ∧ raises s = false) ∧
    ((get_loop workers raises l).1 = none → (get_loop workers raises l).2 = l.length) ∧
    ((get_loop workers raises l).1 ≠ none → (get_loop workers raises l).2 < l.length) ∧
    (∀ r, (get_loop workers raises l).1 = some r →
      r = RunResult.raised ∨ r = RunResult.blocked) ∧
    ((∀ s ∈ l, workers s.pipeline = true) →
      (get_loop workers raises l).1 ≠ some RunResult.blocked) := by
  induction l with
  | nil => simp [get_loop]
  | cons s rest ih =>
    obtain ⟨i1, i2, i3, i4, i5⟩ := ih
    cases hw : workers s.pipeline with
    | false =>
      simp only [get_loop, hw, Bool.not_false, if_true]
      refine ⟨?_, ?_, ?_, ?_, ?_⟩
      · constructor
        · intro h
          cases h
        · intro h
          have := (h s (List.mem_cons_self _ _)).1
          rw [hw] at this
          cases this
      · intro h
        cases h
      · intro _
        simp
      · intro r h
        simp only [Option.some.injEq] at h
        exact Or.inr h.symm
      · intro h
        have := h s (List.mem_cons_self _ _)
        rw [hw] at this
        cases this
    | true =>
      cases hr : raises s with
      | true =>
        simp only [get_loop, hw, hr, Bool.not_true, Bool.false_eq_true, if_false, if_true]
        refine ⟨?_, ?_, ?_, ?_, ?_⟩
        · constructor
          · intro h
            cases h
          · intro h
            have := (h s (List.mem_cons_self _ _)).2
            rw [hr] at this
            cases this
        · intro h
          cases h
        · intro _
          simp
        · intro r h
          simp only [Option.some.injEq] at h
          exact Or.inl h.symm
        · intro _ h
          cases h
      | false =>
        simp only [get_loop, hw, hr, Bool.not_true, Bool.false_eq_true, if_false]
        refine ⟨?_, ?_, ?_, i4, ?_⟩
        · rw [i1]
          constructor
          · intro h x hx
            rcases List.mem_cons.1 hx with rfl | hx
            · exact ⟨hw, hr⟩
            · exact h x hx
          · intro h x hx
            exact h x (List.mem_cons_of_mem _ hx)
        · intro h
          rw [i2 h, List.length_cons]
        · intro h
          have := i3 h
          rw [List.length_cons]
          omega
        · intro h
          exact i5 (fun x hx => h x (List.mem_cons_of_mem _ hx))

/-- The report of `run` when `initialize` has returned `init`. -/
theorem run_report (config : Config) (store : StoreReads) (granted : Pipeline → Bool)
    (raises : Submission → Bool) (init : Initialized)
    (hi : initialize_from_store (Processor.init config) store granted = some init) :
    init.result = true ∧
    init.proc = initialize_processor (Processor.init config) store.is_version_3
      (Database.get_tags store.tags_ok store.tags)
      (Database.get_tag_join_files store.tag_joins_ok store.tag_joins)
      (Database.get_notes store.notes_ok store.notes) ∧
    (Processor.run config store granted raises).proc = init.proc ∧
    (Processor.run config store granted raises).submitted =
      submit_loop config init.tag_pool_ init.note_pool_
        (wrap32 (Database.get_files store.files_ok store.files).length) 0
        (Database.get_files store.files_ok store.files) ∧
    (Processor.run config store granted raises).result =
      (match (get_loop
          (fun pipeline =>
            match pipeline with
            | Pipeline.tag => has_worker init.tag_pool_
            | Pipeline.note => has_worker init.note_pool_)
          raises (Processor.run config store granted raises).submitted).1 with
        | some ending => ending
        | none => RunResult.returned true) ∧
    (Processor.run config store granted raises).awaited =
      (get_loop
        (fun pipeline =>
          match pipeline with
          | Pipeline.tag => has_worker init.tag_pool_
          | Pipeline.note => has_worker init.note_pool_)
        raises (Processor.run config store granted raises).submitted).2 ∧
    (Processor.run config store granted raises).finalized =
      (!(Database.get_files store.files_ok store.files).isEmpty &&
        (get_loop
          (fun pipeline =>
            match pipeline with
            | Pipeline.tag => has_worker init.tag_pool_
            | Pipeline.note => has_worker init.note_pool_)
          raises (Processor.run config store granted raises).submitted).1.isNone) := by
  have hres : init.result = true ∧
      init.proc = initialize_processor (Processor.init config) store.is_version_3
        (Database.get_tags store.tags_ok store.tags)
        (Database.get_tag_join_files store.tag_joins_ok store.tag_joins)
        (Database.get_notes store.notes_ok store.notes) := by
    unfold initialize_from_store at hi
    dsimp only at hi
    split at hi
    · cases hi
    · split at hi
      · cases hi
      · simp only [Option.some.injEq] at hi
        subst hi
        exact ⟨rfl, rfl⟩
  refine ⟨hres.1, hres.2, ?_⟩
  unfold Processor.run
  simp only [hi, hres.1, Bool.not_true, Bool.false_eq_true, if_false]
  generalize Database.get_files store.files_ok store.files = fs
  cases hE : fs.isEmpty with
  | true =>
    have hnil : fs = [] := List.isEmpty_iff.1 hE
    subst hnil
    simp [submit_loop, get_loop]
  | false =>
    simp only [Bool.false_eq_true, if_false, Bool.not_false, Bool.true_and]
    generalize submit_loop config init.tag_pool_ init.note_pool_ (wrap32 fs.length) 0 fs = sub
    cases hg : (get_loop
        (fun pipeline =>
          match pipeline with
          | Pipeline.tag => has_worker init.tag_pool_
          | Pipeline.note => has_worker init.note_pool_)
        raises sub).1 with
    | none => simp [hg]
    | some ending => simp [hg]

/-- C22 as stated fails: when the three reads of the warm-up cannot be
prepared, `initialize` still returns `true` with an empty cache and empty sets.
If the file list can be read, `run` dispatches a tag task and a note task for
the file and returns `true`; if no read works at all, `run` dispatches nothing
and returns `true` as well. -/
theorem unreadable_store_not_reported :
    (Processor.run {} unreadable_warmup every_pool (fun _ => false)).result =
      RunResult.returned true ∧
    (Processor.run {} unreadable_warmup every_pool (fun _ => false)).submitted =
      [⟨Pipeline.tag, ⟨1, "12345-1.jpg".toList⟩, 1, 1⟩,
        ⟨Pipeline.note, ⟨1, "12345-1.jpg".toList⟩, 1, 1⟩] ∧
    (Processor.run {} unreadable_warmup every_pool (fun _ => false)).proc.tag_cache_ = [] ∧
    (Processor.run {} unreachable_store every_pool (fun _ => false)).result =
      RunResult.returned true ∧
    (Processor.run {} unreachable_store every_pool (fun _ => false)).submitted = [] := by
  decide

theorem initialize_without_rows (p : Processor) (store : StoreReads)
    (granted : Pipeline → Bool)
    (h : store.tags_ok = false ∧ store.tag_joins_ok = false ∧ store.notes_ok = false) :
    initialize_from_store p store granted =
      initialize_from_store p store.without_rows granted := by
  obtain ⟨h1, h2, h3⟩ := h
  simp only [initialize_from_store, StoreReads.without_rows, Database.get_tags,
    Database.get_tag_join_files, Database.get_notes, h1, h2, h3, Bool.not_false, Bool.not_true,
    if_true, Bool.false_eq_true, if_false]

/-- C22 (as amended): a store that cannot be read during the warm-up is not
noticed. Each failed read gives the empty sequence, so `initialize` and the
whole `run` go exactly as for a store whose tables of tags, associations and
notes are empty: whenever `initialize` returns, it returns `true`, with an
empty cache and empty existence sets, and `run` never returns `false`. `run`
ends before any dispatch only when the construction of a pool raises an error
(it is then left by that error) or when the file list is empty, as it is when
no statement can be prepared (it then returns `true`); otherwise it submits one
unit per enabled pipeline for every file that `get_files` returns. -/
theorem warmup_failure_goes_unnoticed (config : Config) (store : StoreReads)
    (granted : Pipeline → Bool) (raises : Submission → Bool)
    (h : store.tags_ok = false ∧ store.tag_joins_ok = false ∧ store.notes_ok = false) :
    initialize_from_store (Processor.init config) store granted =
      initialize_from_store (Processor.init config) store.without_rows granted ∧
    Processor.run config store granted raises =
      Processor.run config store.without_rows granted raises ∧
    (∀ init, initialize_from_store (Processor.init config) store granted = some init →
      init.result = true ∧
      init.proc = initialize_processor (Processor.init config) store.is_version_3 [] [] []) ∧
    (Processor.run config store granted raises).result ≠ RunResult.returned false ∧
    (initialize_from_store (Processor.init config) store granted = none →
      (Processor.run config store granted raises).result = RunResult.raised ∧
      (Processor.run config store granted raises).submitted = []) ∧
    (∀ init, initialize_from_store (Processor.init config) store granted = some init →
      (Processor.run config store granted raises).submitted =
        submit_loop config init.tag_pool_ init.note_pool_
          (wrap32 (Database.get_files store.files_ok store.files).length) 0
          (Database.get_files store.files_ok store.files) ∧
      (Processor.run config store granted raises).submitted.length =
        (if config.write_tag then (Database.get_files store.files_ok store.files).length
          else 0) +
        (if config.write_note then (Database.get_files store.files_ok store.files).length
          else 0)) ∧
    (store.files_ok = false →
      ∀ init, initialize_from_store (Processor.init config) store granted = some init →
        (Processor.run config store granted raises).result = RunResult.returned true ∧
        (Processor.run config store granted raises).submitted = []) := by
  have hinit := initialize_without_rows (Processor.init config) store granted h
  obtain ⟨h1, h2, h3⟩ := h
  refine ⟨hinit, ?_, ?_, ?_, ?_, ?_, ?_⟩
  · unfold Processor.run
    rw [hinit]
    rfl
  · intro init hi
    obtain ⟨r1, r2, _⟩ := run_report config store granted raises init hi
    refine ⟨r1, ?_⟩
    rw [r2]
    simp only [Database.get_tags, Database.get_tag_join_files, Database.get_notes, h1, h2, h3,
      Bool.not_false, if_true]
  · cases hi : initialize_from_store (Processor.init config) store granted with
    | none =>
      unfold Processor.run
      simp only [hi]
      intro hc
      cases hc
    | some init =>
      obtain ⟨_, _, _, _, r5, _⟩ := run_report config store granted raises init hi
      rw [r5]
      obtain ⟨_, _, _, g4, _⟩ := get_loop_spec
        (fun pipeline =>
          match pipeline with
          | Pipeline.tag => has_worker init.tag_pool_
          | Pipeline.note => has_worker init.note_pool_)
        raises (Processor.run config store granted raises).submitted
      cases hg : (get_loop
        (fun pipeline =>
          match pipeline with
          | Pipeline.tag => has_worker init.tag_pool_
          | Pipeline.note => has_worker init.note_pool_)
        raises (Processor.run config store granted raises).submitted).1 with
      | none =>
        intro hc
        cases hc
      | some ending =>
        rcases g4 ending hg with rfl | rfl <;> (intro hc; cases hc)
  · intro hi
    unfold Processor.run
    simp only [hi, and_self]
  · intro init hi
    obtain ⟨_, _, _, r4, _⟩ := run_report config store granted raises init hi
    refine ⟨r4, ?_⟩
    rw [r4, submit_loop_length]
    have hpools : (config.write_tag = true → init.tag_pool_.isSome = true) ∧
        (config.write_note = true → init.note_pool_.isSome = true) := by
      unfold initialize_from_store at hi
      dsimp only [Processor.init] at hi
      split at hi
      · cases hi
      · rename_i tp htp
        split at hi
        · cases hi
        · rename_i np hnp
          simp only [Option.some.injEq] at hi
          subst hi
          dsimp only
          constructor
          · intro hw
            rw [if_pos hw] at htp
            cases hc : ThreadPool.construct (toSizeT config.tag_thread_count)
              (granted Pipeline.tag) with
            | none =>
              rw [hc] at htp
              cases htp
            | some pool =>
              rw [hc] at htp
              simp only [Option.map_some', Option.some.injEq] at htp
              rw [← htp]
              rfl
          · intro hw
            rw [if_pos hw] at hnp
            cases hc : ThreadPool.construct (toSizeT config.note_thread_count)
              (granted Pipeline.note) with
            | none =>
              rw [hc] at hnp
              cases hnp
            | some pool =>
              rw [hc] at hnp
              simp only [Option.map_some', Option.some.injEq] at hnp
              rw [← hnp]
              rfl
    cases hwt : config.write_tag <;> cases hwn : config.write_note <;>
      simp [hwt, hwn, hpools.1, hpools.2]
  · intro hf init hi
    obtain ⟨_, _, _, r4, r5, _⟩ := run_report config store granted raises init hi
    have hnil : Database.get_files store.files_ok store.files = [] := by
      simp only [Database.get_files, hf, Bool.not_false, if_true]
    have hsub : (Processor.run config store granted raises).submitted = [] := by
      rw [r4, hnil]
      rfl
    refine ⟨?_, hsub⟩
    rw [r5, hsub]
    rfl

/-- C22, instance: `unreadable_warmup` under the default configuration (both
pipelines, eight threads each) with a system that provides the pools. -/
theorem warmup_failure_goes_unnoticed_witness :
    (unreadable_warmup.tags_ok = false ∧ unreadable_warmup.tag_joins_ok = false ∧
      unreadable_warmup.notes_ok = false) ∧
    Processor.run {} unreadable_warmup every_pool (fun _ => false) =
      Processor.run {} unreadable_warmup.without_rows every_pool (fun _ => false) ∧
    (Processor.run {} unreadable_warmup every_pool (fun _ => false)).result ≠
      RunResult.returned false ∧
    (Processor.run {} unreadable_warmup every_pool (fun _ => false)).result =
      RunResult.returned true ∧
    (Processor.run {} unreadable_warmup every_pool (fun _ => false)).submitted.length = 2 ∧
    (Processor.run { tag_thread_count := -1 } unreadable_warmup every_pool
      (fun _ => false)).result = RunResult.raised ∧
    (Processor.run { tag_thread_count := -1 } unreadable_warmup every_pool
      (fun _ => false)).submitted = [] :=
  ⟨⟨rfl, rfl, rfl⟩,
    (warmup_failure_goes_unnoticed {} unreadable_warmup every_pool (fun _ => false)
      ⟨rfl, rfl, rfl⟩).2.1,
    (warmup_failure_goes_unnoticed {} unreadable_warmup every_pool (fun _ => false)
      ⟨rfl, rfl, rfl⟩).2.2.2.1,
    by decide, by decide, by decide, by decide⟩

/-! ## A raising unit and the waits of `run` -/

theorem construct_eq_some (n : Nat) (g : Bool) (pool : ThreadPool)
    (h : ThreadPool.construct n g = some pool) : pool = ThreadPool.create n := by
  unfold ThreadPool.construct at h
  split at h
  · cases h
  · split at h
    · cases h
    · simp only [Option.some.injEq] at h
      exact h.symm

/-- The pools of a completed `initialize`: one per enabled pipeline, with as
many workers as the thread count converted to `size_t`. -/
theorem initialize_pools (p : Processor) (store : StoreReads) (granted : Pipeline → Bool)
    (init : Initialized) (hi : initialize_from_store p store granted = some init) :
    init.tag_pool_ =
      (if p.config_.write_tag then some (ThreadPool.create (toSizeT p.config_.tag_thread_count))
        else none) ∧
    init.note_pool_ =
      (if p.config_.write_note then
        some (ThreadPool.create (toSizeT p.config_.note_thread_count)) else none) := by
  unfold initialize_from_store at hi
  dsimp only at hi
  split at hi
  · cases hi
  · rename_i tp htp
    split at hi
    · cases hi
    · rename_i np hnp
      simp only [Option.some.injEq] at hi
      subst hi
      dsimp only
      constructor
      · cases hw : p.config_.write_tag with
        | false =>
          simp only [hw, Bool.false_eq_true, if_false, Option.some.injEq] at htp ⊢
          exact htp.symm
        | true =>
          simp only [hw, if_true] at htp ⊢
          cases hc : ThreadPool.construct (toSizeT p.config_.tag_thread_count)
            (granted Pipeline.tag) with
          | none =>
            rw [hc] at htp
            cases htp
          | some pool =>
            rw [hc] at htp
            simp only [Option.map_some', Option.some.injEq] at htp
            rw [← htp, construct_eq_some _ _ _ hc]
      · cases hw : p.config_.write_note with
        | false =>
          simp only [hw, Bool.false_eq_true, if_false, Option.some.injEq] at hnp ⊢
          exact hnp.symm
        | true =>
          simp only [hw, if_true] at hnp ⊢
          cases hc : ThreadPool.construct (toSizeT p.config_.note_thread_count)
            (granted Pipeline.note) with
          | none =>
            rw [hc] at hnp
            cases hnp
          | some pool =>
            rw [hc] at hnp
            simp only [Option.map_some', Option.some.injEq] at hnp
            rw [← hnp, construct_eq_some _ _ _ hc]

theorem has_worker_create (n : Nat) (h : n ≠ 0) :
    has_worker (some (ThreadPool.create n)) = true := by
  cases n with
  | zero => exact absurd rfl h
  | succ m => simp [has_worker, ThreadPool.create, List.replicate]

theorem mem_submit_loop (config : Config) (tp np : Option ThreadPool) (total : Int) (i : Nat)
    (files : List FileRecord) (s : Submission)
    (h : s ∈ submit_loop config tp np total i files) :
    (s.pipeline = Pipeline.tag → config.write_tag = true) ∧
    (s.pipeline = Pipeline.note → config.write_note = true) := by
  induction files generalizing i with
  | nil => cases h
  | cons f rest ih =>
    simp only [submit_loop, List.mem_append] at h
    rcases h with (h | h) | h
    · split at h
      · rename_i hc
        simp only [List.mem_singleton] at h
        subst h
        simp only [Bool.and_eq_true] at hc
        exact ⟨fun _ => hc.1, fun hp => by cases hp⟩
      · cases h
    · split at h
      · rename_i hc
        simp only [List.mem_singleton] at h
        subst h
        simp only [Bool.and_eq_true] at hc
        exact ⟨fun hp => (by cases hp), fun _ => hc.1⟩
      · cases h
    · exact ih (i + 1) h

/-- When a submitted unit raises, `run` does not return: it is left by that
error at the first such future, unless it waits for ever at an earlier future
of a pool without workers; the later futures are not waited for and the part
after the waits is not reached. When the pools have workers and no unit
raises, a `run` whose `initialize` completed waits for all and returns `true`. -/
theorem run_ends (config : Config) (store : StoreReads) (granted : Pipeline → Bool)
    (raises : Submission → Bool) :
    ((∃ s ∈ (Processor.run config store granted raises).submitted, raises s = true) →
      ((Processor.run config store granted raises).result = RunResult.raised ∨
        (Processor.run config store granted raises).result = RunResult.blocked) ∧
      (Processor.run config store granted raises).finalized = false ∧
      (Processor.run config store granted raises).awaited <
        (Processor.run config store granted raises).submitted.length ∧
      (toSizeT config.tag_thread_count ≠ 0 → toSizeT config.note_thread_count ≠ 0 →
        (Processor.run config store granted raises).result = RunResult.raised)) ∧
    (initialize_from_store (Processor.init config) store granted ≠ none →
      (∀ s ∈ (Processor.run config store granted raises).submitted, raises s = false) →
      toSizeT config.tag_thread_count ≠ 0 → toSizeT config.note_thread_count ≠ 0 →
      (Processor.run config store granted raises).result = RunResult.returned true ∧
      (Processor.run config store granted raises).awaited =
        (Processor.run config store granted raises).submitted.length) := by
  cases hi : initialize_from_store (Processor.init config) store granted with
  | none =>
    have hsub : (Processor.run config store granted raises).submitted = [] := by
      unfold Processor.run
      simp only [hi]
    have hres : (Processor.run config store granted raises).result = RunResult.raised := by
      unfold Processor.run
      simp only [hi]
    constructor
    · rintro ⟨s, hs, _⟩
      rw [hsub] at hs
      cases hs
    · intro hsome
      exact absurd rfl hsome
  | some init =>
    obtain ⟨_, _, _, r4, r5, r6, r7⟩ := run_report config store granted raises init hi
    obtain ⟨g1, g2, g3, g4, g5⟩ := get_loop_spec
      (fun pipeline =>
        match pipeline with
        | Pipeline.tag => has_worker init.tag_pool_
        | Pipeline.note => has_worker init.note_pool_)
      raises (Processor.run config store granted raises).submitted
    obtain ⟨p1, p2⟩ := initialize_pools (Processor.init config) store granted init hi
    have hworkers : toSizeT config.tag_thread_count ≠ 0 → toSizeT config.note_thread_count ≠ 0 →
        ∀ s ∈ (Processor.run config store granted raises).submitted,
          (fun pipeline =>
            match pipeline with
            | Pipeline.tag => has_worker init.tag_pool_
            | Pipeline.note => has_worker init.note_pool_) s.pipeline = true := by
      intro h1 h2 s hs
      rw [r4] at hs
      obtain ⟨m1, m2⟩ := mem_submit_loop _ _ _ _ _ _ s hs
      cases hp : s.pipeline with
      | tag =>
        have hw : config.write_tag = true := m1 hp
        have : (Processor.init config).config_.write_tag = true := hw
        simp only [p1, this, if_true]
        exact has_worker_create _ h1
      | note =>
        have hw : config.write_note = true := m2 hp
        have : (Processor.init config).config_.write_note = true := hw
        simp only [p2, this, if_true]
        exact has_worker_create _ h2
    constructor
    · rintro ⟨s, hs, hr⟩
      have hne : (get_loop
          (fun pipeline =>
            match pipeline with
            | Pipeline.tag => has_worker init.tag_pool_
            | Pipeline.note => has_worker init.note_pool_)
          raises (Processor.run config store granted raises).submitted).1 ≠ none := by
        intro hnone
        have := (g1.1 hnone s hs).2
        rw [hr] at this
        cases this
      cases hg : (get_loop
          (fun pipeline =>
            match pipeline with
            | Pipeline.tag => has_worker init.tag_pool_
            | Pipeline.note => has_worker init.note_pool_)
          raises (Processor.run config store granted raises).submitted).1 with
      | none => exact absurd hg hne
      | some ending =>
        have hres : (Processor.run config store granted raises).result = ending := by
          rw [r5, hg]
        refine ⟨?_, ?_, ?_, ?_⟩
        · rw [hres]
          exact g4 ending hg
        · rw [r7, hg]
          simp
        · rw [r6]
          exact g3 hne
        · intro h1 h2
          rw [hres]
          rcases g4 ending hg with h | h
          · exact h
          · rw [h] at hg
            exact absurd hg (g5 (hworkers h1 h2))
    · intro _ hno h1 h2
      have hnone : (get_loop
          (fun pipeline =>
            match pipeline with
            | Pipeline.tag => has_worker init.tag_pool_
            | Pipeline.note => has_worker init.note_pool_)
          raises (Processor.run config store granted raises).submitted).1 = none :=
        g1.2 (fun s hs => ⟨hworkers h1 h2 s hs, hno s hs⟩)
      refine ⟨by rw [r5, hnone], ?_⟩
      rw [r6]
      exact g2 hnone

/-- C21, the code at the failing input: two files, both pipelines, and the unit
for the tag task of file 1 raises an error. In the pool the worker that ran
the unit is back at the top of its loop and takes the next unit, and the error
is stored in the unit's future. In `run` the first `future.get()` rethrows it:
`run` does not return `true`, none of the four futures has been waited for, and
the forced flushes are not reached. So it is for every run in which a submitted
unit raises: `run` never returns, fewer futures are waited for than were
submitted and the part after the waits is not reached; the run is left by the
error whenever both thread counts give pools with a worker (with a pool of no
workers it can only wait for ever at an earlier future). -/
theorem task_error_leaves_run :
    ((ThreadPool.create 1).steps
        [PoolStep.enqueue ⟨0, true⟩, PoolStep.enqueue ⟨1, false⟩, PoolStep.take 0,
          PoolStep.finish 0, PoolStep.take 0] =
      some ⟨[Worker.running ⟨1, false⟩], [], false, 1, [⟨0, true⟩, ⟨1, false⟩],
        [(0, FutureState.error)]⟩) ∧
    (Processor.run {} two_files every_pool first_tag_task_raises).submitted.length = 4 ∧
    (Processor.run {} two_files every_pool first_tag_task_raises).result = RunResult.raised ∧
    (Processor.run {} two_files every_pool first_tag_task_raises).result ≠
      RunResult.returned true ∧
    (Processor.run {} two_files every_pool first_tag_task_raises).awaited = 0 ∧
    (Processor.run {} two_files every_pool first_tag_task_raises).finalized = false ∧
    (Processor.run {} two_files every_pool (fun _ => false)).result = RunResult.returned true ∧
    (Processor.run {} two_files every_pool (fun _ => false)).finalized = true ∧
    ∀ (config : Config) (store : StoreReads) (granted : Pipeline → Bool)
      (raises : Submission → Bool),
      (∃ s ∈ (Processor.run config store granted raises).submitted, raises s = true) →
      ((Processor.run config store granted raises).result = RunResult.raised ∨
        (Processor.run config store granted raises).result = RunResult.blocked) ∧
      (Processor.run config store granted raises).finalized = false ∧
      (Processor.run config store granted raises).awaited <
        (Processor.run config store granted raises).submitted.length ∧
      (toSizeT config.tag_thread_count ≠ 0 → toSizeT config.note_thread_count ≠ 0 →
        (Processor.run config store granted raises).result = RunResult.raised) :=
  ⟨by decide, by decide, by decide, by decide, by decide, by decide, by decide, by decide,
    fun config store granted raises => (run_ends config store granted raises).1⟩

end pixiv2billfish
